import Mathlib

/-!
# Evalynx: assignment engine and evaluation record store

A shallow embedding of the backend of the Evalynx competition manager
(`backend/src/services/assignmentService.js`,
`backend/src/controllers/evaluatorController.js`,
`backend/src/controllers/adminController.js`, the Mongoose models under
`backend/src/models`) and theorems about it.

Modelling conventions.

* A MongoDB collection is a list of documents in insertion order; a query
  (`find`, `findOne`, `countDocuments`) is a filter over that list.
* An `ObjectId` is a natural number.
* A JavaScript `number` is a rational number: the exact value of the IEEE
  754 double, or the decimal that denotes it when the number is a literal of a
  request or the result of `parseFloat(x.toFixed(2))`.  The operators `+`,
  `*` and `/` take the doubles of their operands and round the result to a
  double (`toDouble`).  `NaN` and the infinities are not represented.
* Every handler is a function from the store (and its arguments) to the
  store afterwards paired with what the caller is told.  A thrown `Error`
  or an error response is the `Except.error` side.
* Timestamps (`assignedAt`, `submittedAt`, ...) are not part of the store.
-/

namespace Evalynx

/-! ## Data model -/

/-- An `ObjectId`. -/
abbrev Id := Nat

/-- The `role` enum of `models/User.js`. -/
inductive Role where
  | team
  | evaluator
  | admin
  deriving DecidableEq, Repr

/-- The fields of `models/User.js` the core reads. -/
structure User where
  id : Id
  name : String
  email : String
  role : Role
  approved : Bool
  deriving DecidableEq, Repr

/-- The `status` enum of `models/Assignment.js`. -/
inductive Status where
  | active
  | completed
  deriving DecidableEq, Repr

/-- A document of `models/Assignment.js`. -/
structure Assignment where
  teamId : Id
  evaluatorIds : List Id
  assignedBy : Id
  status : Status
  deriving DecidableEq, Repr

/-- A document of `models/Submission.js`; `averageScore = none` is `null`. -/
structure Submission where
  id : Id
  teamId : Id
  videoUrl : String
  evaluationCount : Nat
  averageScore : Option ℚ
  deriving DecidableEq

/-- The ten criterion keys, in the order of `requiredCriteria`. -/
inductive Criterion where
  | relevanceToLearning
  | innovationCreativity
  | clarityAccessibility
  | depth
  | interactivityEngagement
  | useOfTechnology
  | scalabilityAdaptability
  | ethicalStandards
  | practicalApplication
  | videoQuality
  deriving DecidableEq, Repr

/-- The sub-document `criterionSchema` of `models/Evaluation.js`. -/
structure CriterionEntry where
  score : ℚ
  comment : String
  deriving DecidableEq

/-- The `scores` object of an Evaluation document. -/
structure Scores where
  relevanceToLearning : CriterionEntry
  innovationCreativity : CriterionEntry
  clarityAccessibility : CriterionEntry
  depth : CriterionEntry
  interactivityEngagement : CriterionEntry
  useOfTechnology : CriterionEntry
  scalabilityAdaptability : CriterionEntry
  ethicalStandards : CriterionEntry
  practicalApplication : CriterionEntry
  videoQuality : CriterionEntry
  deriving DecidableEq

/-- A document of `models/Evaluation.js`. -/
structure Evaluation where
  evaluatorId : Id
  teamId : Id
  submissionId : Id
  scores : Scores
  totalScore : ℚ
  deriving DecidableEq

/-- The store: the four collections the core reads and writes. -/
structure State where
  users : List User
  assignments : List Assignment
  submissions : List Submission
  evaluations : List Evaluation
  deriving DecidableEq

/-- A structured failure of an HTTP handler: `res.status(status).json` with
`error.code` and `error.message`. -/
structure ApiError where
  status : Nat
  code : String
  message : String
  deriving DecidableEq, Repr

/-! ## Queries on users -/

/-- The query `User.findById(id)`. -/
def findUserById (st : State) (id : Id) : Option User :=
  st.users.find? (fun u => u.id = id)

/-- The query `User.find` with role evaluator and approved true of `autoAssign`. -/
def approvedEvaluators (st : State) : List User :=
  st.users.filter (fun u => u.role = Role.evaluator && u.approved)

/-- The query `User.find` with role team of `autoAssign`. -/
def teams (st : State) : List User :=
  st.users.filter (fun u => u.role = Role.team)

/-! ## Assignment model: schema validation and writes -/

/-- The validator of `assignmentSchema.evaluatorIds`: length 3 and a `Set`
of the ids of size 3. -/
def evaluatorIdsValidator (evaluators : List Id) : Bool :=
  if evaluators.length ≠ 3 then false
  else evaluators.dedup.length = 3

/-- The message of the validator of `assignmentSchema.evaluatorIds`. -/
def evaluatorIdsValidatorMessage : String :=
  "Must assign exactly 3 unique evaluators to each team"

/-- The ordered insert of a batch under the unique index on `teamId`:
documents go in one by one and the first duplicate key stops the batch,
leaving the earlier documents in.  The flag tells whether all went in. -/
def insertOrdered : List Assignment → List Assignment → List Assignment × Bool
  | coll, [] => (coll, true)
  | coll, d :: ds =>
    if coll.any (fun a => a.teamId = d.teamId) then (coll, false)
    else insertOrdered (coll ++ [d]) ds

/-- The call `Assignment.insertMany(docs)`: every document is validated
first and one invalid document rejects the batch with nothing written; the
valid batch is then inserted in order. -/
def insertMany (coll : List Assignment) (docs : List Assignment) :
    List Assignment × Except String (List Assignment) :=
  if docs.all (fun d => evaluatorIdsValidator d.evaluatorIds) then
    match insertOrdered coll docs with
    | (coll', true) => (coll', Except.ok docs)
    | (coll', false) => (coll', Except.error "E11000 duplicate key error")
  else
    (coll, Except.error ("Assignment validation failed: evaluatorIds: " ++
      evaluatorIdsValidatorMessage))

/-! ## autoAssign -/

/-- The inner loop of `autoAssign`: `n` times push the id of
`evaluators[evaluatorIndex]` and advance the cursor modulo the number of
evaluators.  Reading past the end of the array is the `TypeError` of
JavaScript, here `none`. -/
def fillSlots (evaluators : List User) : Nat → List Id → Nat → Option (List Id × Nat)
  | 0, assignedEvaluators, evaluatorIndex => some (assignedEvaluators, evaluatorIndex)
  | n + 1, assignedEvaluators, evaluatorIndex =>
    match evaluators[evaluatorIndex]? with
    | none => none
    | some e =>
      fillSlots evaluators n (assignedEvaluators ++ [e.id])
        ((evaluatorIndex + 1) % evaluators.length)

/-- The outer loop of `autoAssign`: one new Assignment per team, the cursor
`evaluatorIndex` being shared by all teams. -/
def assignLoop (evaluators : List User) (adminId : Id) :
    List User → Nat → List Assignment → Option (List Assignment)
  | [], _, assignments => some assignments
  | team :: rest, evaluatorIndex, assignments =>
    match fillSlots evaluators 3 [] evaluatorIndex with
    | none => none
    | some (assignedEvaluators, evaluatorIndex') =>
      assignLoop evaluators adminId rest evaluatorIndex'
        (assignments ++ [⟨team.id, assignedEvaluators, adminId, Status.active⟩])

/-- The `statistics` object returned by `autoAssign`. -/
structure AutoAssignStatistics where
  totalTeams : Nat
  totalEvaluators : Nat
  assignmentsCreated : Nat
  evaluatorsPerTeam : Nat
  deriving DecidableEq, Repr

/-- The service `autoAssign(adminId)` of `assignmentService.js`.  The first
component is the store after the call, the second the returned statistics
or the message of the thrown `Error`.  (The returned `workloadDistribution`
is the read-only report `getEvaluatorWorkload` of the store after the call.) -/
def autoAssign (st : State) (adminId : Id) : State × Except String AutoAssignStatistics :=
  let evaluators := approvedEvaluators st
  let teams := teams st
  if evaluators.length < 3 then
    (st, Except.error
      "Insufficient evaluators: At least 3 approved evaluators are required for assignment")
  else if teams.length = 0 then
    (st, Except.error "No teams found: At least one team must be registered for assignment")
  else if st.assignments.length > 0 then
    (st, Except.error
      "Assignments already exist: Please clear existing assignments before running auto-assignment")
  else
    match assignLoop evaluators adminId teams 0 [] with
    | none => (st, Except.error "TypeError: Cannot read properties of undefined")
    | some assignments =>
      match insertMany st.assignments assignments with
      | (coll, Except.error e) => ({ st with assignments := coll }, Except.error e)
      | (coll, Except.ok createdAssignments) =>
        ({ st with assignments := coll },
          Except.ok ⟨teams.length, evaluators.length, createdAssignments.length, 3⟩)

/-- The tally of `getEvaluatorWorkload` for one evaluator: over the active
Assignments, one unit for every entry of the populated `evaluatorIds` that
is this evaluator (populating drops the ids that name no user). -/
def assignedTeams (st : State) (evaluatorId : Id) : Nat :=
  ((st.assignments.filter (fun a => a.status = Status.active)).map
    (fun a => ((a.evaluatorIds.filter
      (fun i => (findUserById st i).isSome)).filter (fun i => i = evaluatorId)).length)).sum

/-! ## validateAssignment and manualAssign -/

/-- The object returned by `validateAssignment`: `valid` and `message`. -/
structure ValidationResult where
  valid : Bool
  message : String
  deriving DecidableEq, Repr

/-- The query `Assignment.findOne` by `teamId`. -/
def findAssignmentByTeam (st : State) (teamId : Id) : Option Assignment :=
  st.assignments.find? (fun a => a.teamId = teamId)

/-- The service `validateAssignment(teamId, evaluatorIds)`.  The argument is
an array: the controller `assignEvaluators` passes nothing else. -/
def validateAssignment (st : State) (teamId : Id) (evaluatorIds : List Id) :
    ValidationResult :=
  if evaluatorIds.length ≠ 3 then
    ⟨false, "Must provide exactly 3 evaluators"⟩
  else if evaluatorIds.dedup.length ≠ 3 then
    ⟨false, "All 3 evaluators must be unique"⟩
  else
    match findUserById st teamId with
    | none => ⟨false, "Team not found"⟩
    | some team =>
      if team.role ≠ Role.team then
        ⟨false, "Specified user is not a team"⟩
      else if (findAssignmentByTeam st teamId).isSome then
        ⟨false, "Team already has an assignment"⟩
      else
        let evaluators :=
          st.users.filter (fun u => decide (u.id ∈ evaluatorIds) && u.role = Role.evaluator)
        if evaluators.length ≠ 3 then
          ⟨false, "One or more evaluators not found or not evaluator role"⟩
        else if (evaluators.filter (fun e => !e.approved)).length > 0 then
          ⟨false, "One or more evaluators are not approved"⟩
        else
          ⟨true, "Assignment is valid"⟩

/-- Replace the first element satisfying `p` by its image under `f`: the
write of `doc.save()` for a document obtained by `findOne`. -/
def updateFirst {α : Type} (p : α → Bool) (f : α → α) : List α → List α
  | [] => []
  | x :: xs => if p x then f x :: xs else x :: updateFirst p f xs

/-- The object returned by `manualAssign`. -/
structure ManualAssignResult where
  message : String
  assignment : Assignment
  isUpdate : Bool
  deriving DecidableEq, Repr

/-- The service `manualAssign(teamId, evaluatorIds, adminId)`.  Both calls of
`assignment.save()` run the schema validator of `evaluatorIds`; the save of
a new document also meets the unique index on `teamId`. -/
def manualAssign (st : State) (teamId : Id) (evaluatorIds : List Id) (adminId : Id) :
    State × Except String ManualAssignResult :=
  let validation := validateAssignment st teamId evaluatorIds
  if !validation.valid then
    (st, Except.error validation.message)
  else
    match findAssignmentByTeam st teamId with
    | some assignment =>
      let updated : Assignment :=
        { assignment with evaluatorIds := evaluatorIds, assignedBy := adminId }
      if evaluatorIdsValidator evaluatorIds then
        ({ st with assignments :=
            updateFirst (fun a => a.teamId = teamId) (fun _ => updated) st.assignments },
          Except.ok ⟨"Assignment updated successfully", updated, true⟩)
      else
        (st, Except.error ("Assignment validation failed: evaluatorIds: " ++
          evaluatorIdsValidatorMessage))
    | none =>
      let created : Assignment := ⟨teamId, evaluatorIds, adminId, Status.active⟩
      if evaluatorIdsValidator evaluatorIds then
        if st.assignments.any (fun a => a.teamId = teamId) then
          (st, Except.error "E11000 duplicate key error")
        else
          ({ st with assignments := st.assignments ++ [created] },
            Except.ok ⟨"Assignment created successfully", created, false⟩)
      else
        (st, Except.error ("Assignment validation failed: evaluatorIds: " ++
          evaluatorIdsValidatorMessage))

/-! ## Evaluation model -/

/-- The array `requiredCriteria` of `submitEvaluation`. -/
def requiredCriteria : List Criterion :=
  [Criterion.relevanceToLearning, Criterion.innovationCreativity,
   Criterion.clarityAccessibility, Criterion.depth, Criterion.interactivityEngagement,
   Criterion.useOfTechnology, Criterion.scalabilityAdaptability,
   Criterion.ethicalStandards, Criterion.practicalApplication, Criterion.videoQuality]

/-- The key of a criterion, as a string. -/
def Criterion.key : Criterion → String
  | Criterion.relevanceToLearning => "relevanceToLearning"
  | Criterion.innovationCreativity => "innovationCreativity"
  | Criterion.clarityAccessibility => "clarityAccessibility"
  | Criterion.depth => "depth"
  | Criterion.interactivityEngagement => "interactivityEngagement"
  | Criterion.useOfTechnology => "useOfTechnology"
  | Criterion.scalabilityAdaptability => "scalabilityAdaptability"
  | Criterion.ethicalStandards => "ethicalStandards"
  | Criterion.practicalApplication => "practicalApplication"
  | Criterion.videoQuality => "videoQuality"

/-- The upper bound in the validator of each criterion of `evaluationSchema`. -/
def Criterion.maxScore : Criterion → ℚ
  | Criterion.relevanceToLearning => 5
  | Criterion.innovationCreativity => 15
  | Criterion.clarityAccessibility => 10
  | Criterion.depth => 5
  | Criterion.interactivityEngagement => 25
  | Criterion.useOfTechnology => 5
  | Criterion.scalabilityAdaptability => 10
  | Criterion.ethicalStandards => 5
  | Criterion.practicalApplication => 10
  | Criterion.videoQuality => 10

/-- The message of the validator of each criterion of `evaluationSchema`. -/
def Criterion.validatorMessage : Criterion → String
  | Criterion.relevanceToLearning => "Relevance to Learning score must be between 0 and 5"
  | Criterion.innovationCreativity => "Innovation & Creativity score must be between 0 and 15"
  | Criterion.clarityAccessibility => "Clarity & Accessibility score must be between 0 and 10"
  | Criterion.depth => "Depth score must be between 0 and 5"
  | Criterion.interactivityEngagement =>
    "Interactivity & Engagement score must be between 0 and 25"
  | Criterion.useOfTechnology => "Use of Technology score must be between 0 and 5"
  | Criterion.scalabilityAdaptability =>
    "Scalability & Adaptability score must be between 0 and 10"
  | Criterion.ethicalStandards => "Ethical Standards score must be between 0 and 5"
  | Criterion.practicalApplication => "Practical Application score must be between 0 and 10"
  | Criterion.videoQuality => "Video Quality score must be between 0 and 10"

/-- The entry `scores[criterion]` of a stored Evaluation. -/
def Scores.get (s : Scores) : Criterion → CriterionEntry
  | Criterion.relevanceToLearning => s.relevanceToLearning
  | Criterion.innovationCreativity => s.innovationCreativity
  | Criterion.clarityAccessibility => s.clarityAccessibility
  | Criterion.depth => s.depth
  | Criterion.interactivityEngagement => s.interactivityEngagement
  | Criterion.useOfTechnology => s.useOfTechnology
  | Criterion.scalabilityAdaptability => s.scalabilityAdaptability
  | Criterion.ethicalStandards => s.ethicalStandards
  | Criterion.practicalApplication => s.practicalApplication
  | Criterion.videoQuality => s.videoQuality

/-- The validator of one criterion: `score >= 0 && score <= max`. -/
def criterionValidator (c : Criterion) (entry : CriterionEntry) : Bool :=
  decide (0 ≤ entry.score) && decide (entry.score ≤ c.maxScore)

/-- The criteria whose validator rejects the document, in schema order. -/
def failedCriteria (s : Scores) : List Criterion :=
  requiredCriteria.filter (fun c => !criterionValidator c (s.get c))

/-! ## JavaScript numbers -/

/-- The loop behind `bitLength`, with `fuel` steps left. -/
def bitLengthLoop : Nat → Nat → Nat
  | 0, _ => 0
  | fuel + 1, n => if n = 0 then 0 else bitLengthLoop fuel (n / 2) + 1

/-- The number of binary digits of a natural number (0 for 0). -/
def bitLength (n : Nat) : Nat :=
  bitLengthLoop n n

/-- The binary exponent of the positive rational `num / den`: the integer `e`
with `2 ^ e ≤ num / den < 2 ^ (e + 1)`. -/
def binaryExponent (num den : Nat) : Int :=
  let e : Int := (bitLength num : Int) - (bitLength den : Int)
  if 0 ≤ e then (if 2 ^ e.toNat * den ≤ num then e else e - 1)
  else (if den ≤ num * 2 ^ (-e).toNat then e else e - 1)

/-- The integer nearest to `a / b`, a tie going to the even one. -/
def roundHalfEven (a b : Nat) : Nat :=
  if 2 * (a % b) < b then a / b
  else if b < 2 * (a % b) then a / b + 1
  else if (a / b) % 2 = 0 then a / b
  else a / b + 1

/-- The IEEE 754 double nearest to a rational number (round to nearest, ties
to even; 53 significant bits, the exponent of the last bit not below -1074),
as the rational it is: the number a decimal literal denotes, and the value an
arithmetic operation returns for an exact result.  A magnitude that rounds to
`2 ^ 1024` or more is `Infinity` in JavaScript, which is not represented. -/
def toDouble (q : ℚ) : ℚ :=
  if q = 0 then 0
  else
    let num := q.num.natAbs
    let den := q.den
    let s : Int := 52 - max (binaryExponent num den) (-1022)
    let v : ℚ :=
      if 0 ≤ s then
        ((roundHalfEven (num * 2 ^ s.toNat) den : Nat) : ℚ) / ((2 ^ s.toNat : Nat) : ℚ)
      else ((roundHalfEven num (den * 2 ^ (-s).toNat) * 2 ^ (-s).toNat : Nat) : ℚ)
    if q < 0 then -v else v

/-- The operator `+` on two numbers. -/
def jsAdd (a b : ℚ) : ℚ :=
  toDouble (toDouble a + toDouble b)

/-- The operator `*` on two numbers. -/
def jsMul (a b : ℚ) : ℚ :=
  toDouble (toDouble a * toDouble b)

/-- The operator `/` on two numbers, the divisor not zero. -/
def jsDiv (a b : ℚ) : ℚ :=
  toDouble (toDouble a / toDouble b)

/-- The hook `evaluationSchema.pre("save")`: the ten scores added from left to
right. -/
def preSaveTotal (scores : Scores) : ℚ :=
  jsAdd (jsAdd (jsAdd (jsAdd (jsAdd (jsAdd (jsAdd (jsAdd (jsAdd
    scores.relevanceToLearning.score
    scores.innovationCreativity.score)
    scores.clarityAccessibility.score)
    scores.depth.score)
    scores.interactivityEngagement.score)
    scores.useOfTechnology.score)
    scores.scalabilityAdaptability.score)
    scores.ethicalStandards.score)
    scores.practicalApplication.score)
    scores.videoQuality.score

/-- The value of `parseFloat(x.toFixed(2))` for a double `x`: the multiple of
1/100 nearest to the exact value of `x`, a tie going away from zero; the
result is written as that decimal. -/
def toFixed2 (x : ℚ) : ℚ :=
  if x < 0 then -(((⌊(-x) * 100 + 1 / 2⌋ : ℤ) : ℚ) / 100)
  else ((⌊x * 100 + 1 / 2⌋ : ℤ) : ℚ) / 100

/-! ## submitEvaluation -/

/-- What a request carries at `scores[criterion]` when that is truthy:
`score` is `some q` exactly when `typeof score` is `"number"`; `comment` is
the text, if any. -/
structure CriterionInput where
  score : Option ℚ
  comment : Option String

/-- The object `req.body.scores`: the lookup `scores[criterion]` (`none` for
an absent or falsy entry) and a `totalScore` key the caller may have added. -/
structure ScoresBody where
  get : Criterion → Option CriterionInput
  totalScore : Option ℚ

/-- The body of the request of `submitEvaluation`: `scores` (`none` when
absent or falsy) and a top-level `totalScore` the caller may have added. -/
structure EvaluationBody where
  scores : Option ScoresBody
  totalScore : Option ℚ

/-- The test of the loop over `requiredCriteria`:
`!scores[criterion] || typeof scores[criterion].score !== "number"`. -/
def criterionMissing (scores : ScoresBody) (c : Criterion) : Bool :=
  match scores.get c with
  | none => true
  | some entry => entry.score.isNone

/-- The sub-document `{ score: scores.c.score, comment: scores.c.comment || "" }`
passed to `Evaluation.create`.  The `trim` of the stored comment is left out:
no statement below reads a comment. -/
def readCriterion (scores : ScoresBody) (c : Criterion) : Option CriterionEntry :=
  match scores.get c with
  | none => none
  | some entry =>
    match entry.score with
    | none => none
    | some q => some ⟨q, entry.comment.getD ""⟩

/-- The `scores` object passed to `Evaluation.create`. -/
def buildScores (scores : ScoresBody) : Option Scores := do
  let relevanceToLearning ← readCriterion scores Criterion.relevanceToLearning
  let innovationCreativity ← readCriterion scores Criterion.innovationCreativity
  let clarityAccessibility ← readCriterion scores Criterion.clarityAccessibility
  let depth ← readCriterion scores Criterion.depth
  let interactivityEngagement ← readCriterion scores Criterion.interactivityEngagement
  let useOfTechnology ← readCriterion scores Criterion.useOfTechnology
  let scalabilityAdaptability ← readCriterion scores Criterion.scalabilityAdaptability
  let ethicalStandards ← readCriterion scores Criterion.ethicalStandards
  let practicalApplication ← readCriterion scores Criterion.practicalApplication
  let videoQuality ← readCriterion scores Criterion.videoQuality
  pure ⟨relevanceToLearning, innovationCreativity, clarityAccessibility, depth,
    interactivityEngagement, useOfTechnology, scalabilityAdaptability, ethicalStandards,
    practicalApplication, videoQuality⟩

/-- The `data` of the 201 response of `submitEvaluation`. -/
structure SubmitData where
  teamId : Id
  totalScore : ℚ
  evaluationCount : Nat
  averageScore : Option ℚ
  deriving DecidableEq

/-- The failed validators of `submissionSchema` at a `submission.save()`,
each as its path and message: `evaluationCount` at most 3 and
`averageScore`, when not `null`, within 0 and 100 (a save validates the
whole document). -/
def submissionValidationErrors (s : Submission) : List String :=
  (if s.evaluationCount ≤ 3 then [] else ["evaluationCount: Maximum 3 evaluations per team"]) ++
    (match s.averageScore with
     | none => []
     | some a =>
       if a < 0 then ["averageScore: Score cannot be negative"]
       else if 100 < a then ["averageScore: Score cannot exceed 100"]
       else [])

/-- The writes at the end of `submitEvaluation`: `Evaluation.create`, the
increment of `evaluationCount`, the average when the count reaches 3, and
`submission.save()` with its validators.

`Evaluation.create` inserts the document the handler built, with the total
of the `pre("save")` hook.  The handler hands the ten entries over inside one
nested `scores` object, for which Mongoose does not run the `validate`
declared on the paths `scores.<criterion>`, and the `min` and `max` of
`totalScore` are checked before the hook fills the field: the range of a
score does not stop the insert (the handler has already made sure that every
score is a number).

A `ValidationError` of `submission.save()` is answered with 400
`VALIDATION_ERROR`; the Evaluation inserted before it stays, and the
Submission keeps what it held. -/
def recordEvaluation (st : State) (evaluatorId teamId : Id) (submission : Submission)
    (doc : Scores) : State × Except ApiError SubmitData :=
  let evaluation : Evaluation :=
    ⟨evaluatorId, teamId, submission.id, doc, preSaveTotal doc⟩
  let st1 : State := { st with evaluations := st.evaluations ++ [evaluation] }
  let evaluationCount := submission.evaluationCount + 1
  let averageScore :=
    if evaluationCount = 3 then
      some (toFixed2
        (jsDiv (((st1.evaluations.filter (fun e => e.teamId = teamId)).map
          (fun e => e.totalScore)).foldl jsAdd 0) 3))
    else submission.averageScore
  let saved : Submission :=
    { submission with
      evaluationCount := evaluationCount, averageScore := averageScore }
  if submissionValidationErrors saved = [] then
    ({ st1 with submissions :=
        updateFirst (fun s => s.teamId = teamId) (fun _ => saved) st1.submissions },
      Except.ok ⟨teamId, evaluation.totalScore, evaluationCount, averageScore⟩)
  else
    (st1, Except.error
      ⟨400, "VALIDATION_ERROR", "Submission validation failed: " ++
        ", ".intercalate (submissionValidationErrors saved)⟩)

/-- The handler `submitEvaluation` of `evaluatorController.js`, for the
authenticated evaluator `evaluatorId` (`req.user._id`), the route parameter
`teamId` and the request body. -/
def submitEvaluation (st : State) (evaluatorId teamId : Id) (body : EvaluationBody) :
    State × Except ApiError SubmitData :=
  match body.scores with
  | none => (st, Except.error ⟨400, "MISSING_SCORES", "Scores are required"⟩)
  | some scores =>
    match st.assignments.find? (fun a =>
      a.teamId = teamId && decide (evaluatorId ∈ a.evaluatorIds) && a.status = Status.active) with
    | none =>
      (st, Except.error ⟨403, "NOT_ASSIGNED", "You are not assigned to evaluate this team"⟩)
    | some _ =>
      match st.users.find? (fun u => u.id = teamId && u.role = Role.team) with
      | none => (st, Except.error ⟨404, "TEAM_NOT_FOUND", "Team not found"⟩)
      | some _ =>
        match st.submissions.find? (fun s => s.teamId = teamId) with
        | none =>
          (st, Except.error
            ⟨400, "NO_SUBMISSION", "Team has not submitted their video yet"⟩)
        | some submission =>
          if st.evaluations.any (fun e => e.evaluatorId = evaluatorId && e.teamId = teamId) then
            (st, Except.error
              ⟨409, "DUPLICATE_EVALUATION", "You have already evaluated this team"⟩)
          else
            match requiredCriteria.find? (criterionMissing scores) with
            | some criterion =>
              (st, Except.error
                ⟨400, "MISSING_CRITERION", "Score for " ++ criterion.key ++ " is required"⟩)
            | none =>
              match buildScores scores with
              | none => (st, Except.error ⟨500, "EVALUATION_ERROR", "Failed to submit evaluation"⟩)
              | some doc => recordEvaluation st evaluatorId teamId submission doc

/-! ## approveEvaluator and deleteUser -/

/-- The handler `approveEvaluator` of `adminController.js`; `approved` is
`none` when `req.body.approved` is not a boolean.  On success the message of
the response is returned. -/
def approveEvaluator (st : State) (evaluatorId : Id) (approved : Option Bool) :
    State × Except ApiError String :=
  match approved with
  | none =>
    (st, Except.error
      ⟨400, "INVALID_INPUT", "Please provide approved status as boolean (true or false)"⟩)
  | some approved =>
    match findUserById st evaluatorId with
    | none => (st, Except.error ⟨404, "EVALUATOR_NOT_FOUND", "Evaluator not found"⟩)
    | some evaluator =>
      if evaluator.role ≠ Role.evaluator then
        (st, Except.error ⟨400, "INVALID_ROLE", "User is not an evaluator"⟩)
      else if evaluator.approved = approved then
        (st, Except.error ⟨400, "ALREADY_PROCESSED",
          "Evaluator is already " ++ (if approved then "approved" else "rejected")⟩)
      else if approved then
        ({ st with users :=
            (updateFirst (fun u => u.id = evaluatorId) (fun u => { u with approved := true })
              st.users) },
          Except.ok "Evaluator approved successfully")
      else
        ({ st with users := st.users.eraseP (fun u => u.id = evaluatorId) },
          Except.ok "Evaluator rejected and removed from system")

/-- The handler `deleteUser` of `adminController.js`: an evaluator is pulled
out of every Assignment that lists it, the Assignments of a team are
deleted, then the user is deleted. -/
def deleteUser (st : State) (userId : Id) : State × Except ApiError String :=
  match findUserById st userId with
  | none => (st, Except.error ⟨404, "USER_NOT_FOUND", "User not found"⟩)
  | some user =>
    if user.role = Role.admin then
      (st, Except.error ⟨403, "FORBIDDEN", "Cannot delete admin users"⟩)
    else
      let pulled :=
        if user.role = Role.evaluator then
          st.assignments.map (fun a =>
            if userId ∈ a.evaluatorIds then
              { a with evaluatorIds := a.evaluatorIds.filter (fun i => i ≠ userId) }
            else a)
        else st.assignments
      let kept :=
        if user.role = Role.team then pulled.filter (fun a => a.teamId ≠ userId)
        else pulled
      ({ st with assignments := kept, users := st.users.eraseP (fun u => u.id = userId) },
        Except.ok ((if user.role = Role.team then "Team" else "Evaluator") ++
          " deleted successfully"))

/-! ## The operations that populate the store -/

/-- Every id the store mentions; a new `ObjectId` is none of them. -/
def mentionedIds (st : State) : List Id :=
  st.users.map (fun u => u.id) ++
  st.assignments.map (fun a => a.teamId) ++
  (st.assignments.map (fun a => a.evaluatorIds)).flatten ++
  st.assignments.map (fun a => a.assignedBy) ++
  st.submissions.map (fun s => s.id) ++
  st.submissions.map (fun s => s.teamId) ++
  st.evaluations.map (fun e => e.evaluatorId) ++
  st.evaluations.map (fun e => e.teamId) ++
  st.evaluations.map (fun e => e.submissionId)

/-- The script `scripts/seedAdmin.js`: create the administrator account
unless it exists; `newId` is the `_id` of the new document.  The unique
index on `email` refuses the insert when another account has the address. -/
def seedAdmin (st : State) (newId : Id) : State :=
  if st.users.any (fun u => u.email = "admin@evalynx.com") then st
  else
    { st with users :=
        st.users ++ [⟨newId, "System Administrator", "admin@evalynx.com", Role.admin, true⟩] }

/-- The body of the request of `register`; `role` is `none` when absent and
`email` is the address in lower case (the handler and the schema lower-case
it before use). -/
structure RegisterBody where
  role : Option Role
  name : String
  email : String
  password : String
  teamMembers : Option (List String)
  expertise : String

/-- The handler `register` of `authController.js`; `newId` is the `_id` of
the new document and `schemaOk` the outcome of the validators of
`userSchema` on name, email and password.  On success the new user is
returned. -/
def register (st : State) (newId : Id) (body : RegisterBody) (schemaOk : Bool) :
    State × Except ApiError User :=
  match body.role with
  | none =>
    (st, Except.error ⟨400, "MISSING_FIELDS",
      "Please provide all required fields: role, name, email, password"⟩)
  | some role =>
    if body.name = "" ∨ body.email = "" ∨ body.password = "" then
      (st, Except.error ⟨400, "MISSING_FIELDS",
        "Please provide all required fields: role, name, email, password"⟩)
    else if role ≠ Role.team ∧ role ≠ Role.evaluator then
      (st, Except.error ⟨400, "INVALID_ROLE",
        "Invalid role. Only team and evaluator registration is allowed."⟩)
    else if decide (role = Role.team) &&
        (match body.teamMembers with
         | none => true
         | some members => decide (members.length < 1 ∨ members.length > 5)) then
      (st, Except.error ⟨400, "INVALID_TEAM_MEMBERS", "Team must have between 1 and 5 members"⟩)
    else if role = Role.evaluator ∧ body.expertise = "" then
      (st, Except.error ⟨400, "MISSING_EXPERTISE",
        "Expertise is required for evaluator registration"⟩)
    else if st.users.any (fun u => u.email = body.email) then
      (st, Except.error ⟨409, "EMAIL_EXISTS", "Email is already registered"⟩)
    else if !schemaOk then
      (st, Except.error ⟨400, "VALIDATION_ERROR", "User validation failed"⟩)
    else
      let user : User := ⟨newId, body.name, body.email, role, decide (role = Role.team)⟩
      ({ st with users := st.users ++ [user] }, Except.ok user)

/-- The handler `saveSubmission` of `teamController.js` for the
authenticated team `teamId`; `newId` is the `_id` of a new document and
`urlOk` the outcome of the validator of `videoUrl` (the URL parser).  On
success the stored Submission is returned. -/
def saveSubmission (st : State) (teamId : Id) (videoUrl : String) (urlOk : Bool)
    (newId : Id) : State × Except ApiError Submission :=
  if videoUrl = "" then
    (st, Except.error ⟨400, "MISSING_VIDEO_URL", "Video URL is required"⟩)
  else
    match st.submissions.find? (fun s => s.teamId = teamId) with
    | some submission =>
      if urlOk then
        let saved : Submission := { submission with videoUrl := videoUrl }
        if submissionValidationErrors saved = [] then
          ({ st with submissions :=
              updateFirst (fun s => s.teamId = teamId) (fun _ => saved) st.submissions },
            Except.ok saved)
        else
          (st, Except.error ⟨400, "VALIDATION_ERROR", "Submission validation failed: " ++
            ", ".intercalate (submissionValidationErrors saved)⟩)
      else
        (st, Except.error ⟨400, "VALIDATION_ERROR",
          "Submission validation failed: videoUrl: Please provide a valid video URL"⟩)
    | none =>
      if urlOk then
        let created : Submission := ⟨newId, teamId, videoUrl, 0, none⟩
        ({ st with submissions := st.submissions ++ [created] }, Except.ok created)
      else
        (st, Except.error ⟨400, "VALIDATION_ERROR",
          "Submission validation failed: videoUrl: Please provide a valid video URL"⟩)

/-! ## Reachable stores -/

/-- The guard of `requireRole`: the caller is an existing user with this
role, and an evaluator is approved. -/
def authorized (st : State) (role : Role) (userId : Id) : Prop :=
  st.users.any (fun u =>
    decide (u.id = userId) && decide (u.role = role) &&
      (decide (role ≠ Role.evaluator) || u.approved)) = true

instance (st : State) (role : Role) (userId : Id) : Decidable (authorized st role userId) :=
  inferInstanceAs (Decidable (st.users.any (fun (u : User) =>
    decide (u.id = userId) && decide (u.role = role) &&
      (decide (role ≠ Role.evaluator) || u.approved)) = true))

/-- The stores the application can be in: the empty database, then any
sequence of the seeding script and of the handlers that write users,
Assignments, Submissions or Evaluations, each handler called by a user its
route admits.  The maintenance scripts that reset collections are not steps. -/
inductive Reachable : State → Prop
  | empty : Reachable ⟨[], [], [], []⟩
  | seedAdmin (st : State) (newId : Id) :
      Reachable st → newId ∉ mentionedIds st → Reachable (Evalynx.seedAdmin st newId)
  | register (st : State) (newId : Id) (body : RegisterBody) (schemaOk : Bool) :
      Reachable st → newId ∉ mentionedIds st →
      Reachable (Evalynx.register st newId body schemaOk).1
  | saveSubmission (st : State) (teamId : Id) (videoUrl : String) (urlOk : Bool) (newId : Id) :
      Reachable st → authorized st Role.team teamId → newId ∉ mentionedIds st →
      Reachable (Evalynx.saveSubmission st teamId videoUrl urlOk newId).1
  | autoAssign (st : State) (adminId : Id) :
      Reachable st → authorized st Role.admin adminId →
      Reachable (Evalynx.autoAssign st adminId).1
  | manualAssign (st : State) (teamId : Id) (evaluatorIds : List Id) (adminId : Id) :
      Reachable st → authorized st Role.admin adminId →
      Reachable (Evalynx.manualAssign st teamId evaluatorIds adminId).1
  | submitEvaluation (st : State) (evaluatorId teamId : Id) (body : EvaluationBody) :
      Reachable st → authorized st Role.evaluator evaluatorId →
      Reachable (Evalynx.submitEvaluation st evaluatorId teamId body).1
  | approveEvaluator (st : State) (adminId evaluatorId : Id) (approved : Option Bool) :
      Reachable st → authorized st Role.admin adminId →
      Reachable (Evalynx.approveEvaluator st evaluatorId approved).1
  | deleteUser (st : State) (adminId userId : Id) :
      Reachable st → authorized st Role.admin adminId →
      Reachable (Evalynx.deleteUser st userId).1

/-! ## Closed form of the round-robin allocation -/

/-- The id of the evaluator at cursor position `k` modulo the number of
evaluators (0 when the list is empty). -/
def slotId (evaluators : List User) (k : Nat) : Id :=
  match evaluators[k % evaluators.length]? with
  | some e => e.id
  | none => 0

/-- The Assignments the round-robin makes for the teams, the cursor having
advanced by `c` so far: team number `i` gets positions `c + 3 i`,
`c + 3 i + 1` and `c + 3 i + 2`. -/
def roundRobin (evaluators : List User) (adminId : Id) : Nat → List User → List Assignment
  | _, [] => []
  | c, team :: rest =>
    ⟨team.id, [slotId evaluators c, slotId evaluators (c + 1), slotId evaluators (c + 2)],
      adminId, Status.active⟩ :: roundRobin evaluators adminId (c + 3) rest

/-- The ids of the users of a store are pairwise distinct (`_id` is unique). -/
def userIdsDistinct (st : State) : Prop :=
  (st.users.map (fun u => u.id)).Nodup

instance (st : State) : Decidable (userIdsDistinct st) :=
  inferInstanceAs (Decidable (st.users.map (fun (u : User) => u.id)).Nodup)

/-! ## Sample stores -/

/-- A store with an administrator, four approved evaluators and two teams. -/
def sampleStore : State :=
  ⟨[⟨0, "Admin", "admin@evalynx.com", Role.admin, true⟩,
    ⟨1, "Eva", "eva@x.org", Role.evaluator, true⟩,
    ⟨2, "Eli", "eli@x.org", Role.evaluator, true⟩,
    ⟨3, "Eve", "eve@x.org", Role.evaluator, true⟩,
    ⟨4, "Edo", "edo@x.org", Role.evaluator, true⟩,
    ⟨5, "Team A", "a@x.org", Role.team, true⟩,
    ⟨6, "Team B", "b@x.org", Role.team, true⟩], [], [], []⟩

/-- A store with an administrator, two approved evaluators and one team. -/
def twoEvaluatorStore : State :=
  ⟨[⟨0, "Admin", "admin@evalynx.com", Role.admin, true⟩,
    ⟨1, "Eva", "eva@x.org", Role.evaluator, true⟩,
    ⟨2, "Eli", "eli@x.org", Role.evaluator, true⟩,
    ⟨5, "Team A", "a@x.org", Role.team, true⟩], [], [], []⟩

/-- The store after `autoAssign` on the sample store: team 5 has evaluators
1, 2, 3 and team 6 has evaluators 4, 1, 2. -/
def assignedStore : State :=
  (autoAssign sampleStore 0).1

/-- An id names an existing user with role evaluator. -/
def namesEvaluator (st : State) (i : Id) : Bool :=
  st.users.any (fun u => u.id = i && u.role = Role.evaluator)

/-- An id names an existing user with role evaluator that is not approved. -/
def namesUnapprovedEvaluator (st : State) (i : Id) : Bool :=
  st.users.any (fun u => u.id = i && u.role = Role.evaluator && !u.approved)

/-- The invariant of the Assignment collection: every Assignment lists
exactly 3 pairwise distinct ids, each naming an existing approved evaluator. -/
def assignmentInvariant (st : State) : Prop :=
  ∀ a ∈ st.assignments, a.evaluatorIds.length = 3 ∧ a.evaluatorIds.Nodup ∧
    ∀ i ∈ a.evaluatorIds, ∃ u ∈ st.users,
      u.id = i ∧ u.role = Role.evaluator ∧ u.approved = true

/-- The request body registering an evaluator. -/
def evaluatorBody (name email : String) : RegisterBody :=
  ⟨some Role.evaluator, name, email, "secret-password", none, "pedagogy"⟩

/-- The request body registering a team. -/
def teamBody (name email : String) : RegisterBody :=
  ⟨some Role.team, name, email, "secret-password", some ["Ann", "Bob"], ""⟩

/-- A run of the application: the administrator is seeded, three evaluators
register and are approved, a team registers, the administrator runs
`autoAssign`. -/
def runStore : State :=
  let s1 := seedAdmin ⟨[], [], [], []⟩ 0
  let s2 := (register s1 1 (evaluatorBody "Eva" "eva@x.org") true).1
  let s3 := (register s2 2 (evaluatorBody "Eli" "eli@x.org") true).1
  let s4 := (register s3 3 (evaluatorBody "Eve" "eve@x.org") true).1
  let s5 := (approveEvaluator s4 1 (some true)).1
  let s6 := (approveEvaluator s5 2 (some true)).1
  let s7 := (approveEvaluator s6 3 (some true)).1
  let s8 := (register s7 5 (teamBody "Team A" "a@x.org") true).1
  (autoAssign s8 0).1

/-- The run continued: the administrator deletes evaluator 1. -/
def brokenStore : State :=
  (deleteUser runStore 1).1

/-- The numeric score a request carries for a criterion, if any. -/
def requestScore (body : EvaluationBody) (c : Criterion) : Option ℚ :=
  match body.scores with
  | none => none
  | some scores => (readCriterion scores c).map (fun entry => entry.score)

/-- Every criterion of the request carries a numeric score within 0 and the
maximum of the criterion. -/
def scoresInRange (body : EvaluationBody) : Prop :=
  ∀ c : Criterion, ∃ q, requestScore body c = some q ∧ 0 ≤ q ∧ q ≤ c.maxScore

/-- An active Assignment links the evaluator to the team. -/
def assignedTo (st : State) (evaluatorId teamId : Id) : Prop :=
  ∃ a ∈ st.assignments,
    a.teamId = teamId ∧ evaluatorId ∈ a.evaluatorIds ∧ a.status = Status.active

/-- The team has a Submission. -/
def hasSubmission (st : State) (teamId : Id) : Prop :=
  ∃ s ∈ st.submissions, s.teamId = teamId

/-- An Evaluation exists for the pair of evaluator and team. -/
def alreadyEvaluated (st : State) (evaluatorId teamId : Id) : Prop :=
  ∃ e ∈ st.evaluations, e.evaluatorId = evaluatorId ∧ e.teamId = teamId

instance (st : State) (evaluatorId teamId : Id) : Decidable (assignedTo st evaluatorId teamId) :=
  inferInstanceAs (Decidable (∃ a ∈ st.assignments,
    a.teamId = teamId ∧ evaluatorId ∈ a.evaluatorIds ∧ a.status = Status.active))

instance (st : State) (teamId : Id) : Decidable (hasSubmission st teamId) :=
  inferInstanceAs (Decidable (∃ s ∈ st.submissions, s.teamId = teamId))

instance (st : State) (evaluatorId teamId : Id) :
    Decidable (alreadyEvaluated st evaluatorId teamId) :=
  inferInstanceAs (Decidable (∃ e ∈ st.evaluations,
    e.evaluatorId = evaluatorId ∧ e.teamId = teamId))

/-- The ids of the users are pairwise distinct and the team of every
Assignment is an existing user with role team. -/
def storeInvariant (st : State) : Prop :=
  userIdsDistinct st ∧
    ∀ a ∈ st.assignments, ∃ u ∈ st.users, u.id = a.teamId ∧ u.role = Role.team

/-- The run continued differently: team 5 submits its video. -/
def submittedStore : State :=
  (saveSubmission runStore 5 "https://video.example/a" true 9).1

/-- The run continued: a fourth evaluator registers after the assignment and
is approved; no Assignment lists it. -/
def lateStore : State :=
  (approveEvaluator
    (register submittedStore 4 (evaluatorBody "Edo" "edo@x.org") true).1 4 (some true)).1

/-- A request giving every criterion its maximum. -/
def maxBody : EvaluationBody :=
  ⟨some ⟨fun c => some ⟨some c.maxScore, none⟩, none⟩, none⟩

/-- A request giving 6 to relevanceToLearning (maximum 5) and its maximum to
every other criterion. -/
def sixBody : EvaluationBody :=
  ⟨some ⟨fun c =>
    if c = Criterion.relevanceToLearning then some ⟨some 6, none⟩
    else some ⟨some c.maxScore, none⟩, none⟩, none⟩

/-! ## calculateAverageScore -/

/-- The query `Evaluation.find` by `teamId`: the Evaluation rows of a team. -/
def rowsOf (st : State) (teamId : Id) : List Evaluation :=
  st.evaluations.filter (fun e => e.teamId = teamId)

/-- The object returned by `calculateAverageScore`. -/
structure AverageReport where
  averageScore : Option ℚ
  evaluationCount : Nat
  message : String
  deriving DecidableEq

/-- The service `calculateAverageScore(teamId)` of `evaluationService.js`.
With no Evaluation row it returns at once; otherwise it adds the totals of
the rows from 0, divides by their number, stores the count and that quotient
in the Submission of the team, if there is one, and returns the quotient
written with two decimals.  A failure of `submission.save()` is
rethrown with the text "Error calculating average score: " in front. -/
def calculateAverageScore (st : State) (teamId : Id) : State × Except String AverageReport :=
  let evaluations := rowsOf st teamId
  if evaluations.length = 0 then
    (st, Except.ok ⟨none, 0, "No evaluations found for this team"⟩)
  else
    let totalScore := (evaluations.map (fun e => e.totalScore)).foldl jsAdd 0
    let averageScore := jsDiv totalScore (evaluations.length : ℚ)
    let evaluationCount := evaluations.length
    let report : AverageReport :=
      ⟨some (toFixed2 averageScore), evaluationCount,
        if evaluationCount = 3 then "All evaluations complete"
        else toString evaluationCount ++ "/3 evaluations complete"⟩
    match st.submissions.find? (fun s => s.teamId = teamId) with
    | some submission =>
      let saved : Submission :=
        { submission with evaluationCount := evaluationCount, averageScore := some averageScore }
      if submissionValidationErrors saved = [] then
        ({ st with submissions :=
            updateFirst (fun s => s.teamId = teamId) (fun _ => saved) st.submissions },
          Except.ok report)
      else
        (st, Except.error ("Error calculating average score: Submission validation failed: " ++
          ", ".intercalate (submissionValidationErrors saved)))
    | none => (st, Except.ok report)

/-! ## Leaderboard -/

/-- An entry of the leaderboard (`leaderboardEntrySchema` of `models/Result.js`). -/
structure LeaderboardEntry where
  rank : Nat
  teamId : Id
  teamName : String
  averageScore : ℚ
  evaluationCount : Nat
  deriving DecidableEq

/-- The query of `generateLeaderboard`: the Submissions whose `averageScore`
is not `null`, each with that average, sorted by descending average (equal
averages keep the order of the collection). -/
def rankedSubmissions (st : State) : List (Submission × ℚ) :=
  (st.submissions.filterMap (fun s => s.averageScore.map (fun a => (s, a)))).insertionSort
    (fun x y => y.2 ≤ x.2)

/-- The loop of `generateLeaderboard` from index `i`, with the variables
`currentRank` and `previousScore`.  The populated `teamId` of a Submission
whose team no longer exists is `null`, and reading its `_id` is a
`TypeError`. -/
def rankLoop (st : State) :
    List (Submission × ℚ) → Nat → Nat → Option ℚ → Except String (List LeaderboardEntry)
  | [], _, _, _ => Except.ok []
  | (submission, averageScore) :: rest, i, currentRank, previousScore =>
    let currentRank' := if previousScore = some averageScore then currentRank else i + 1
    match findUserById st submission.teamId with
    | none => Except.error "Cannot read properties of null (reading '_id')"
    | some team =>
      match rankLoop st rest (i + 1) currentRank' (some averageScore) with
      | Except.error e => Except.error e
      | Except.ok entries =>
        Except.ok (⟨currentRank', team.id, team.name, toFixed2 averageScore,
          submission.evaluationCount⟩ :: entries)

/-- The service `generateLeaderboard()` of `leaderboardService.js`. -/
def generateLeaderboard (st : State) : Except String (List LeaderboardEntry) :=
  match rankLoop st (rankedSubmissions st) 0 1 none with
  | Except.error e => Except.error ("Error generating leaderboard: " ++ e)
  | Except.ok leaderboard => Except.ok leaderboard

/-! ## Result store: publishResults, loadLeaderboard, getLeaderboard -/

/-- A document of `models/Result.js`; `publishedAt` is a time stamp. -/
structure Result where
  published : Bool
  publishedAt : Option Nat
  publishedBy : Option Id
  leaderboard : List LeaderboardEntry
  deriving DecidableEq

/-- The validators of `leaderboardEntrySchema`: rank at least 1, a team
name, an average within 0 and 100, a count of at most 3. -/
def entryValidator (e : LeaderboardEntry) : Bool :=
  decide (1 ≤ e.rank) && decide (e.teamName ≠ "") &&
    decide (0 ≤ e.averageScore) && decide (e.averageScore ≤ 100) &&
    decide (e.evaluationCount ≤ 3)

/-- An element of `incompleteAssignments` in `publishResults`. -/
structure IncompleteTeam where
  teamId : Id
  teamName : String
  evaluationCount : Nat
  deriving DecidableEq

/-- The list `incompleteAssignments` of `publishResults`: for every
Assignment whose team has fewer than 3 Evaluation rows, the team, its name
("Unknown Team" when the user is gone) and the number of rows. -/
def incompleteAssignments (st : State) : List IncompleteTeam :=
  st.assignments.filterMap (fun a =>
    if (rowsOf st a.teamId).length < 3 then
      some ⟨a.teamId,
        (match findUserById st a.teamId with
         | some team => team.name
         | none => "Unknown Team"),
        (rowsOf st a.teamId).length⟩
    else none)

/-- The item of an incomplete team in the message of `publishResults`. -/
def IncompleteTeam.item (t : IncompleteTeam) : String :=
  t.teamName ++ " (" ++ toString t.evaluationCount ++ "/3)"

/-- The object returned by `publishResults`. -/
structure PublishData where
  message : String
  publishedAt : Option Nat
  leaderboard : List LeaderboardEntry
  totalTeams : Nat
  deriving DecidableEq

/-- The service `publishResults(adminId)` of `leaderboardService.js` on the
Result collection `results`, at time `now`.  Every thrown error is rethrown
with the text "Error publishing results: " in front. -/
def publishResults (st : State) (results : List Result) (adminId : Id) (now : Nat) :
    List Result × Except String PublishData :=
  if st.assignments.length = 0 then
    (results, Except.error ("Error publishing results: " ++
      "No assignments found. Cannot publish results without team assignments."))
  else
    let incomplete := incompleteAssignments st
    if incomplete.length > 0 then
      (results, Except.error ("Error publishing results: " ++
        "Cannot publish results. " ++ toString incomplete.length ++
        " team(s) do not have 3 completed evaluations. " ++
        "Incomplete teams: " ++ ", ".intercalate (incomplete.map IncompleteTeam.item)))
    else
      match generateLeaderboard st with
      | Except.error e => (results, Except.error ("Error publishing results: " ++ e))
      | Except.ok leaderboard =>
        if leaderboard.length = 0 then
          (results, Except.error ("Error publishing results: " ++
            "Cannot publish results. No teams have completed evaluations."))
        else if leaderboard.all entryValidator then
          match results with
          | result :: rest =>
            let saved : Result :=
              { result with
                published := true, publishedAt := some now, publishedBy := some adminId,
                leaderboard := leaderboard }
            (saved :: rest,
              Except.ok ⟨"Results published successfully", saved.publishedAt,
                saved.leaderboard, leaderboard.length⟩)
          | [] =>
            let created : Result := ⟨true, some now, some adminId, leaderboard⟩
            ([created],
              Except.ok ⟨"Results published successfully", created.publishedAt,
                created.leaderboard, leaderboard.length⟩)
        else
          (results, Except.error ("Error publishing results: " ++ "Result validation failed"))

/-- The object returned by `loadLeaderboard`. -/
structure LoadedLeaderboard where
  published : Bool
  publishedAt : Option Nat
  publishedBy : Option User
  leaderboard : List LeaderboardEntry
  totalTeams : Nat
  deriving DecidableEq

/-- The service `loadLeaderboard()`: the first Result with `published` true,
its `publishedBy` populated, or `none` for `null`. -/
def loadLeaderboard (st : State) (results : List Result) : Option LoadedLeaderboard :=
  match results.find? (fun r => r.published) with
  | none => none
  | some result =>
    some ⟨result.published, result.publishedAt, result.publishedBy.bind (findUserById st),
      result.leaderboard, result.leaderboard.length⟩

/-- The body of the response of `getLeaderboard` of `publicController.js`. -/
structure LeaderboardResponse where
  published : Bool
  publishedAt : Option Nat
  leaderboard : List LeaderboardEntry
  totalTeams : Option Nat
  message : Option String
  deriving DecidableEq

/-- The handler `getLeaderboard` of `publicController.js`. -/
def getLeaderboard (st : State) (results : List Result) : LeaderboardResponse :=
  match loadLeaderboard st results with
  | none =>
    ⟨false, none, [], none,
      some "Results have not been published yet. Please check back later."⟩
  | some result =>
    ⟨true, result.publishedAt, result.leaderboard, some result.totalTeams, none⟩


/-! ## The ledger invariant -/

/-- The Evaluation `Evaluation.create` stores in `submitEvaluation`. -/
def newEvaluation (evaluatorId teamId : Id) (submission : Submission) (doc : Scores) :
    Evaluation :=
  ⟨evaluatorId, teamId, submission.id, doc, preSaveTotal doc⟩

/-- The Submission `submission.save()` stores in `submitEvaluation`: the
count incremented and, when it reaches 3, the totals of the rows of the team
(the new one included) added from 0, divided by 3 and written with two
decimals. -/
def savedSubmission (st : State) (evaluatorId teamId : Id) (submission : Submission)
    (doc : Scores) : Submission :=
  { submission with
    evaluationCount := submission.evaluationCount + 1,
    averageScore :=
      if submission.evaluationCount + 1 = 3 then
        some (toFixed2
          (jsDiv ((((st.evaluations ++ [newEvaluation evaluatorId teamId submission doc]).filter
            (fun e => e.teamId = teamId)).map (fun e => e.totalScore)).foldl jsAdd 0) 3))
      else submission.averageScore }

/-- The invariant of the evaluation ledger: one Assignment and one
Submission per team, one Evaluation per pair of evaluator and team, every
Assignment drawn from a panel of at most 3 ids that also holds the
evaluators of the rows of its team, every evaluated team that still exists
has its Assignment, every evaluated team has a Submission, the counter of a
Submission is at most the number of rows of its team, every row carries the
total of its scores, the average of a Submission is `null` unless the counter
is 3 and then lies within 0 and 100, no team has more than 3 rows, and every
user has a name. -/
structure LedgerInvariant (st : State) : Prop where
  assignmentTeams : (st.assignments.map (fun a => a.teamId)).Nodup
  submissionTeams : (st.submissions.map (fun s => s.teamId)).Nodup
  pairs : (st.evaluations.map (fun e => (e.evaluatorId, e.teamId))).Nodup
  panel : ∀ a ∈ st.assignments, ∃ S : List Id, S.length ≤ 3 ∧
    (∀ i ∈ a.evaluatorIds, i ∈ S) ∧
    ∀ e ∈ st.evaluations, e.teamId = a.teamId → e.evaluatorId ∈ S
  assigned : ∀ e ∈ st.evaluations, (∃ u ∈ st.users, u.id = e.teamId) →
    ∃ a ∈ st.assignments, a.teamId = e.teamId
  submitted : ∀ e ∈ st.evaluations, ∃ s ∈ st.submissions, s.teamId = e.teamId
  counter : ∀ s ∈ st.submissions, s.evaluationCount ≤ (rowsOf st s.teamId).length
  scored : ∀ e ∈ st.evaluations, e.totalScore = preSaveTotal e.scores
  average : ∀ s ∈ st.submissions, ∀ a, s.averageScore = some a →
    s.evaluationCount = 3 ∧ 0 ≤ a ∧ a ≤ 100
  bound : ∀ t, (rowsOf st t).length ≤ 3
  named : ∀ u ∈ st.users, u.name ≠ ""

/-! ## Decidable outcomes and further sample stores -/

/-- Equality of two outcomes is decidable when that of errors and of results
is. -/
instance {ε α : Type} [DecidableEq ε] [DecidableEq α] : DecidableEq (Except ε α)
  | Except.ok a, Except.ok b =>
    if h : a = b then isTrue (by rw [h]) else isFalse (fun h2 => h (Except.ok.inj h2))
  | Except.error a, Except.error b =>
    if h : a = b then isTrue (by rw [h]) else isFalse (fun h2 => h (Except.error.inj h2))
  | Except.ok _, Except.error _ => isFalse (fun h => Except.noConfusion h)
  | Except.error _, Except.ok _ => isFalse (fun h => Except.noConfusion h)

/-- The run continued: evaluator 1 gives team 5 the maximum for every
criterion. -/
def onceStore : State :=
  (submitEvaluation submittedStore 1 5 maxBody).1

/-- The run continued: evaluator 2 does the same. -/
def twiceStore : State :=
  (submitEvaluation onceStore 2 5 maxBody).1

/-- The run continued: evaluator 3 does the same, which completes team 5. -/
def completeStore : State :=
  (submitEvaluation twiceStore 3 5 maxBody).1

/-- After the first Evaluation the administrator deletes team 5. -/
def orphanStore : State :=
  (deleteUser onceStore 5).1

/-- A store in need of reconciliation: the Submission of team 5 still says 2
evaluations with average 50, and no Evaluation row exists. -/
def staleStore : State :=
  ⟨[⟨5, "Team A", "a@x.org", Role.team, true⟩], [],
    [⟨9, 5, "https://video.example/a", 2, some 50⟩], []⟩

/-- A store with five teams and their Submissions: averages 90, 85, 85, 70 and
one team with a single evaluation and no average yet. -/
def rankingStore : State :=
  ⟨[⟨1, "Team A", "a@x.org", Role.team, true⟩, ⟨2, "Team B", "b@x.org", Role.team, true⟩,
      ⟨3, "Team C", "c@x.org", Role.team, true⟩, ⟨4, "Team D", "d@x.org", Role.team, true⟩,
      ⟨5, "Team E", "e@x.org", Role.team, true⟩],
    [],
    [⟨11, 4, "https://video.example/d", 3, some 70⟩,
      ⟨12, 2, "https://video.example/b", 3, some 85⟩,
      ⟨13, 5, "https://video.example/e", 1, none⟩,
      ⟨14, 1, "https://video.example/a", 3, some 90⟩,
      ⟨15, 3, "https://video.example/c", 3, some 85⟩],
    []⟩

/-! ## checkEvaluationCompletion -/

/-- An element of `assignmentDetails` in the object returned by
`checkEvaluationCompletion`. -/
structure AssignmentDetail where
  teamId : Id
  teamName : String
  evaluationCount : Nat
  isComplete : Bool
  deriving DecidableEq

/-- The object returned by `checkEvaluationCompletion`; `assignmentDetails`
is absent (`none`) in the object returned when there is no Assignment. -/
structure CompletionStatus where
  totalAssignments : Nat
  completedAssignments : Nat
  pendingAssignments : Nat
  completionPercentage : ℚ
  totalEvaluationsRequired : Nat
  totalEvaluationsCompleted : Nat
  assignmentDetails : Option (List AssignmentDetail)
  message : String
  deriving DecidableEq

/-- The loop of `checkEvaluationCompletion` over the Assignments, carrying
`completedAssignments`, `totalEvaluationsCompleted` and `assignmentDetails`. -/
def completionLoop (st : State) :
    List Assignment → Nat → Nat → List AssignmentDetail → Nat × Nat × List AssignmentDetail
  | [], completedAssignments, totalEvaluationsCompleted, assignmentDetails =>
    (completedAssignments, totalEvaluationsCompleted, assignmentDetails)
  | assignment :: rest, completedAssignments, totalEvaluationsCompleted, assignmentDetails =>
    let evaluationCount := (rowsOf st assignment.teamId).length
    completionLoop st rest
      (if evaluationCount = 3 then completedAssignments + 1 else completedAssignments)
      (totalEvaluationsCompleted + evaluationCount)
      (assignmentDetails ++ [⟨assignment.teamId,
        (match findUserById st assignment.teamId with
          | some team => team.name
          | none => "Unknown Team"),
        evaluationCount, decide (evaluationCount = 3)⟩])

/-- The service `checkEvaluationCompletion()` of `leaderboardService.js`: it
only reads, so the store it leaves is the store it was given. -/
def checkEvaluationCompletion (st : State) : State × CompletionStatus :=
  let totalAssignments := st.assignments.length
  if totalAssignments = 0 then
    (st, ⟨0, 0, 0, 0, 0, 0, none, "No assignments found"⟩)
  else
    match completionLoop st st.assignments 0 0 [] with
    | (completedAssignments, totalEvaluationsCompleted, assignmentDetails) =>
      let pendingAssignments := totalAssignments - completedAssignments
      let totalEvaluationsRequired := totalAssignments * 3
      let completionPercentage : ℚ :=
        if totalAssignments > 0 then
          toFixed2 (jsMul (jsDiv (completedAssignments : ℚ) (totalAssignments : ℚ)) 100)
        else 0
      (st, ⟨totalAssignments, completedAssignments, pendingAssignments, completionPercentage,
        totalEvaluationsRequired, totalEvaluationsCompleted, some assignmentDetails,
        if completedAssignments = totalAssignments then
          "All evaluations complete. Ready to publish results."
        else toString pendingAssignments ++ " team(s) still pending evaluation completion."⟩)

/-! ## getEvaluatorWorkload -/

/-- A value of `workloadMap` in `getEvaluatorWorkload`. -/
structure WorkloadEntry where
  evaluatorId : Id
  name : String
  email : String
  assignedTeams : Nat
  deriving DecidableEq

/-- The populated `evaluatorIds` of an Assignment: the users the ids name, in
order; an id that names no user is dropped. -/
def populateEvaluators (st : State) (assignment : Assignment) : List User :=
  assignment.evaluatorIds.filterMap (findUserById st)

/-- The body of the inner loop of `getEvaluatorWorkload`: the entry of the
evaluator is created with 0 when absent, then increased by 1.  The map keeps
its keys in insertion order. -/
def tallyEvaluator (workloadMap : List WorkloadEntry) (evaluator : User) : List WorkloadEntry :=
  let workloadMap' :=
    if workloadMap.any (fun w => w.evaluatorId = evaluator.id) then workloadMap
    else workloadMap ++ [⟨evaluator.id, evaluator.name, evaluator.email, 0⟩]
  updateFirst (fun w => w.evaluatorId = evaluator.id)
    (fun w => { w with assignedTeams := w.assignedTeams + 1 }) workloadMap'

/-- The object returned by `getEvaluatorWorkload`; `averageWorkload` is the
number the code writes with `toFixed(2)`. -/
structure WorkloadReport where
  totalEvaluators : Nat
  workload : List WorkloadEntry
  averageWorkload : ℚ
  deriving DecidableEq

/-- The service `getEvaluatorWorkload()` of `assignmentService.js`: the tally
over the active Assignments, sorted by descending `assignedTeams` (the sort is
stable), and the average. -/
def getEvaluatorWorkload (st : State) : WorkloadReport :=
  let assignments := st.assignments.filter (fun a => a.status = Status.active)
  let workloadMap :=
    assignments.foldl (fun workloadMap assignment =>
      (populateEvaluators st assignment).foldl tallyEvaluator workloadMap) []
  let workloadArray :=
    workloadMap.insertionSort (fun a b => b.assignedTeams ≤ a.assignedTeams)
  ⟨workloadArray.length, workloadArray,
    if workloadArray.length > 0 then
      toFixed2 (jsDiv (((workloadArray.map (fun e => e.assignedTeams)).sum : Nat) : ℚ)
        (workloadArray.length : ℚ))
    else 0⟩

/-! ## assignEvaluators -/

/-- An element of `req.body.manual`: `teamId` is `none` when it is falsy,
`evaluatorIds` is `none` when it is falsy or not an array. -/
structure ManualItem where
  teamId : Option Id
  evaluatorIds : Option (List Id)
  deriving DecidableEq

/-- An element of `results` in the response of the manual mode. -/
structure ItemResult where
  teamId : Id
  message : String
  assignment : Assignment
  deriving DecidableEq

/-- An element of `errors` in the response of the manual mode; `teamId` is
`none` where the code writes "unknown". -/
structure ItemError where
  teamId : Option Id
  error : String
  deriving DecidableEq

/-- The loop of the manual mode of `assignEvaluators`: each item goes to
`manualAssign` on the store the earlier items left, a thrown error is caught
and recorded, and the loop goes on. -/
def manualLoop (adminId : Id) :
    State → List ManualItem → List ItemResult → List ItemError →
      State × List ItemResult × List ItemError
  | st, [], results, errors => (st, results, errors)
  | st, assignment :: rest, results, errors =>
    match assignment.teamId, assignment.evaluatorIds with
    | some teamId, some evaluatorIds =>
      match manualAssign st teamId evaluatorIds adminId with
      | (st', Except.ok result) =>
        manualLoop adminId st' rest
          (results ++ [⟨teamId, result.message, result.assignment⟩]) errors
      | (st', Except.error message) =>
        manualLoop adminId st' rest results (errors ++ [⟨some teamId, message⟩])
    | teamId, _ =>
      manualLoop adminId st rest results
        (errors ++ [⟨teamId,
          "Invalid assignment data: teamId and evaluatorIds array required"⟩])

/-- The `summary` of the response of the manual mode. -/
structure ManualSummary where
  total : Nat
  successful : Nat
  failed : Nat
  deriving DecidableEq

/-- The body of the 200 response of `assignEvaluators`, per mode. -/
inductive AssignResponse where
  | auto (message : String) (statistics : AutoAssignStatistics)
  | manual (results : List ItemResult) (errors : List ItemError) (summary : ManualSummary)
  deriving DecidableEq

/-- The handler `assignEvaluators` of `adminController.js`; `mode` and
`manual` are `req.body.mode` and `req.body.manual` (`none` when `manual` is
falsy or not an array), `adminId` is `req.user._id`. -/
def assignEvaluators (st : State) (mode : Option String) (manual : Option (List ManualItem))
    (adminId : Id) : State × Except ApiError AssignResponse :=
  match mode with
  | none =>
    (st, Except.error ⟨400, "INVALID_MODE", "Please provide valid mode: \"auto\" or \"manual\""⟩)
  | some mode =>
    if mode = "auto" then
      match autoAssign st adminId with
      | (st', Except.ok statistics) =>
        (st', Except.ok (AssignResponse.auto "Evaluators assigned successfully" statistics))
      | (st', Except.error message) => (st', Except.error ⟨500, "ASSIGNMENT_ERROR", message⟩)
    else if mode = "manual" then
      match manual with
      | none =>
        (st, Except.error ⟨400, "INVALID_MANUAL_DATA",
          "Please provide manual assignment data as array of \x7bteamId, evaluatorIds\x7d"⟩)
      | some manual =>
        if manual.length = 0 then
          (st, Except.error ⟨400, "INVALID_MANUAL_DATA",
            "Please provide manual assignment data as array of \x7bteamId, evaluatorIds\x7d"⟩)
        else
          match manualLoop adminId st manual [] [] with
          | (st', results, errors) =>
            (st', Except.ok (AssignResponse.manual results errors
              ⟨manual.length, results.length, errors.length⟩))
    else
      (st, Except.error ⟨400, "INVALID_MODE", "Please provide valid mode: \"auto\" or \"manual\""⟩)

/-! ## Sequences of publishResults calls -/

/-- The Result collection after a sequence of `publishResults` calls, each
with the store of its moment, the administrator and the time. -/
def publishAll : List Result → List (State × Id × Nat) → List Result
  | results, [] => results
  | results, (st, adminId, now) :: rest =>
    publishAll (publishResults st results adminId now).1 rest

/-! ## Sample stores with uneven totals and with two teams -/

/-- A request giving videoQuality one point less than its maximum and every
other criterion its maximum: total 99. -/
def nearBody : EvaluationBody :=
  ⟨some ⟨fun c =>
    if c = Criterion.videoQuality then some ⟨some (c.maxScore - 1), none⟩
    else some ⟨some c.maxScore, none⟩, none⟩, none⟩

/-- The run of team 5 completed with totals 100, 100 and 99. -/
def unevenStore : State :=
  (submitEvaluation twiceStore 3 5 nearBody).1

/-- The users of the run and no Assignment yet: the store before `autoAssign`. -/
def readyStore : State :=
  { runStore with assignments := [] }

/-- A run with two teams: after the three evaluators are approved, teams 5 and
6 register, `autoAssign` runs, both teams submit a video and the three
evaluators evaluate both teams, team 6 getting 99 from evaluator 3. -/
def pairStore : State :=
  let s0 := (register readyStore 6 (teamBody "Team B" "b@x.org") true).1
  let s1 := (autoAssign s0 0).1
  let s2 := (saveSubmission s1 5 "https://video.example/a" true 9).1
  let s3 := (saveSubmission s2 6 "https://video.example/b" true 10).1
  let s4 := (submitEvaluation s3 1 5 maxBody).1
  let s5 := (submitEvaluation s4 2 5 maxBody).1
  let s6 := (submitEvaluation s5 3 5 maxBody).1
  let s7 := (submitEvaluation s6 1 6 maxBody).1
  let s8 := (submitEvaluation s7 2 6 maxBody).1
  (submitEvaluation s8 3 6 nearBody).1

/-- The two-team run continued: the administrator deletes team 5. -/
def widowStore : State :=
  (deleteUser pairStore 5).1

/-! ## Sample requests and stores with fractional and out-of-range scores -/

/-- A request giving 0.1 to relevanceToLearning, 0.2 to innovationCreativity
and 0 to every other criterion. -/
def tenthsBody : EvaluationBody :=
  ⟨some ⟨fun c =>
    if c = Criterion.relevanceToLearning then some ⟨some (1 / 10), none⟩
    else if c = Criterion.innovationCreativity then some ⟨some (2 / 10), none⟩
    else some ⟨some 0, none⟩, none⟩, none⟩

/-- A request giving 0.155 to relevanceToLearning and its maximum to every
other criterion: total 95.155. -/
def fineBody : EvaluationBody :=
  ⟨some ⟨fun c =>
    if c = Criterion.relevanceToLearning then some ⟨some (155 / 1000), none⟩
    else some ⟨some c.maxScore, none⟩, none⟩, none⟩

/-- A run with two teams evaluated by the same three evaluators: team 5 gets
the maximum from evaluators 1 and 2 and then, from evaluator 3, 6 for
relevanceToLearning with the maximum elsewhere; team 6 gets the maximum from
all three. -/
def skewStore : State :=
  let s0 := (register readyStore 6 (teamBody "Team B" "b@x.org") true).1
  let s1 := (autoAssign s0 0).1
  let s2 := (saveSubmission s1 5 "https://video.example/a" true 9).1
  let s3 := (saveSubmission s2 6 "https://video.example/b" true 10).1
  let s4 := (submitEvaluation s3 1 5 maxBody).1
  let s5 := (submitEvaluation s4 2 5 maxBody).1
  let s6 := (submitEvaluation s5 3 5 sixBody).1
  let s7 := (submitEvaluation s6 1 6 maxBody).1
  let s8 := (submitEvaluation s7 2 6 maxBody).1
  (submitEvaluation s8 3 6 maxBody).1

/-- A `scores` object with 0 for every criterion. -/
def zeroScores : Scores :=
  ⟨⟨0, ""⟩, ⟨0, ""⟩, ⟨0, ""⟩, ⟨0, ""⟩, ⟨0, ""⟩, ⟨0, ""⟩, ⟨0, ""⟩, ⟨0, ""⟩, ⟨0, ""⟩, ⟨0, ""⟩⟩

/-- A store with 160 Assignments (teams 100 to 259, evaluators 1, 2, 3), the
first 23 of them with their 3 Evaluation rows. -/
def censusStore : State :=
  ⟨[], (List.range 160).map (fun t => ⟨t + 100, [1, 2, 3], 0, Status.active⟩), [],
    (List.range 23).flatMap (fun t => [1, 2, 3].map (fun i => ⟨i, t + 100, 0, zeroScores, 0⟩))⟩

/-- A store with an administrator, 40 approved evaluators (ids 1 to 40) and 17
teams (ids 101 to 117), after `autoAssign`: 51 slots over 40 evaluators. -/
def fleetStore : State :=
  (autoAssign
    ⟨⟨0, "Admin", "admin@evalynx.com", Role.admin, true⟩ ::
      ((List.range 40).map (fun i => ⟨i + 1, "Evaluator", "e@x.org", Role.evaluator, true⟩) ++
        (List.range 17).map (fun t => ⟨t + 101, "Team", "t@x.org", Role.team, true⟩)),
      [], [], []⟩ 0).1

/-! ## Theorems: the round-robin loop -/

theorem fillSlots_succ (evaluators : List User) (n : Nat) (acc : List Id) (k : Nat)
    (hE : 0 < evaluators.length) :
    fillSlots evaluators (n + 1) acc (k % evaluators.length) =
      fillSlots evaluators n (acc ++ [slotId evaluators k]) ((k + 1) % evaluators.length) := by
  have hlt : k % evaluators.length < evaluators.length := Nat.mod_lt _ hE
  have hget : evaluators[k % evaluators.length]? = some (evaluators[k % evaluators.length]) :=
    List.getElem?_eq_getElem hlt
  simp only [fillSlots, slotId, hget, Nat.mod_add_mod]

theorem fillSlots_three (evaluators : List User) (k : Nat) (hE : 0 < evaluators.length) :
    fillSlots evaluators 3 [] (k % evaluators.length) =
      some ([slotId evaluators k, slotId evaluators (k + 1), slotId evaluators (k + 2)],
        (k + 3) % evaluators.length) := by
  rw [fillSlots_succ _ _ _ _ hE, fillSlots_succ _ _ _ _ hE, fillSlots_succ _ _ _ _ hE]
  simp [fillSlots]

theorem assignLoop_eq (evaluators : List User) (adminId : Id) (hE : 0 < evaluators.length)
    (teams : List User) (c : Nat) (acc : List Assignment) :
    assignLoop evaluators adminId teams (c % evaluators.length) acc =
      some (acc ++ roundRobin evaluators adminId c teams) := by
  induction teams generalizing c acc with
  | nil => simp [assignLoop, roundRobin]
  | cons t ts ih =>
    simp only [assignLoop, fillSlots_three _ _ hE, roundRobin]
    rw [ih]
    simp

theorem evaluatorIdsValidator_iff (ids : List Id) :
    evaluatorIdsValidator ids = true ↔ ids.length = 3 ∧ ids.Nodup := by
  unfold evaluatorIdsValidator
  by_cases hlen : ids.length = 3
  · simp only [hlen, ne_eq, not_true_eq_false, if_false, decide_eq_true_eq, true_and]
    constructor
    · intro h
      have hsub : List.Sublist ids.dedup ids := List.dedup_sublist ids
      have heq : ids.dedup = ids := hsub.eq_of_length (by omega)
      rw [← heq]
      exact List.nodup_dedup ids
    · intro h
      rw [h.dedup, hlen]
  · simp [hlen]

theorem add_mod_ne_self (c d n : Nat) (hd : 0 < d) (hdn : d < n) :
    (c + d) % n ≠ c % n := by
  intro h
  have h1 : c + d ≡ c + 0 [MOD n] := by simpa [Nat.ModEq] using h
  have h2 : d ≡ 0 [MOD n] := Nat.ModEq.add_left_cancel' c h1
  have h3 : n ∣ d := (Nat.modEq_zero_iff_dvd).1 h2
  have := Nat.le_of_dvd hd h3
  omega

theorem slotId_eq_iff (evaluators : List User)
    (hnd : (evaluators.map (fun u => u.id)).Nodup) (hE : 0 < evaluators.length) (a b : Nat) :
    slotId evaluators a = slotId evaluators b ↔
      a % evaluators.length = b % evaluators.length := by
  have ha : a % evaluators.length < evaluators.length := Nat.mod_lt _ hE
  have hb : b % evaluators.length < evaluators.length := Nat.mod_lt _ hE
  have hga : evaluators[a % evaluators.length]? = some (evaluators[a % evaluators.length]) :=
    List.getElem?_eq_getElem ha
  have hgb : evaluators[b % evaluators.length]? = some (evaluators[b % evaluators.length]) :=
    List.getElem?_eq_getElem hb
  have ha2 : a % evaluators.length < (evaluators.map (fun u => u.id)).length := by simpa using ha
  have hb2 : b % evaluators.length < (evaluators.map (fun u => u.id)).length := by simpa using hb
  have hinj := @List.Nodup.getElem_inj_iff _ _ hnd _ ha2 _ hb2
  simp only [List.getElem_map] at hinj
  simp only [slotId, hga, hgb]
  exact hinj

theorem slotId_mem (evaluators : List User) (hE : 0 < evaluators.length) (k : Nat) :
    ∃ e ∈ evaluators, e.id = slotId evaluators k := by
  have hk : k % evaluators.length < evaluators.length := Nat.mod_lt _ hE
  have hg : evaluators[k % evaluators.length]? = some (evaluators[k % evaluators.length]) :=
    List.getElem?_eq_getElem hk
  refine ⟨evaluators[k % evaluators.length], List.getElem_mem hk, ?_⟩
  simp only [slotId, hg]

theorem slots_nodup (evaluators : List User)
    (hnd : (evaluators.map (fun u => u.id)).Nodup) (hE : 3 ≤ evaluators.length) (c : Nat) :
    [slotId evaluators c, slotId evaluators (c + 1), slotId evaluators (c + 2)].Nodup := by
  have h0 : 0 < evaluators.length := by omega
  have h01 := add_mod_ne_self c 1 evaluators.length (by omega) (by omega)
  have h02 := add_mod_ne_self c 2 evaluators.length (by omega) (by omega)
  have h12 := add_mod_ne_self (c + 1) 1 evaluators.length (by omega) (by omega)
  simp only [List.nodup_cons, List.mem_cons, List.mem_singleton, List.not_mem_nil,
    not_false_eq_true, List.nodup_nil, and_true, not_or, slotId_eq_iff _ hnd h0]
  exact ⟨⟨fun h => h01 h.symm, fun h => h02 h.symm⟩, fun h => h12 h.symm⟩

theorem roundRobin_teamIds (evaluators : List User) (adminId : Id) (c : Nat)
    (teams : List User) :
    (roundRobin evaluators adminId c teams).map (fun a => a.teamId) =
      teams.map (fun u => u.id) := by
  induction teams generalizing c with
  | nil => simp [roundRobin]
  | cons t ts ih => simp [roundRobin, ih]

theorem roundRobin_length (evaluators : List User) (adminId : Id) (c : Nat)
    (teams : List User) :
    (roundRobin evaluators adminId c teams).length = teams.length := by
  induction teams generalizing c with
  | nil => simp [roundRobin]
  | cons t ts ih => simp [roundRobin, ih]

theorem roundRobin_mem (evaluators : List User) (adminId : Id) (c : Nat)
    (teams : List User) (a : Assignment) (ha : a ∈ roundRobin evaluators adminId c teams) :
    ∃ k, a.evaluatorIds =
        [slotId evaluators k, slotId evaluators (k + 1), slotId evaluators (k + 2)] ∧
      a.assignedBy = adminId ∧ a.status = Status.active := by
  induction teams generalizing c with
  | nil => simp [roundRobin] at ha
  | cons t ts ih =>
    simp only [roundRobin, List.mem_cons] at ha
    rcases ha with h | h
    · exact ⟨c, by rw [h], by rw [h], by rw [h]⟩
    · exact ih (c + 3) h

theorem insertOrdered_nodup (coll docs : List Assignment)
    (h : ((coll ++ docs).map (fun a => a.teamId)).Nodup) :
    insertOrdered coll docs = (coll ++ docs, true) := by
  induction docs generalizing coll with
  | nil => simp [insertOrdered]
  | cons d ds ih =>
    have hnot : coll.any (fun a => decide (a.teamId = d.teamId)) = false := by
      rw [Bool.eq_false_iff]
      intro hany
      rw [List.any_eq_true] at hany
      obtain ⟨a, ha, hEq⟩ := hany
      simp only [decide_eq_true_eq] at hEq
      rw [List.map_append, List.nodup_append] at h
      have hdis := h.2.2
      exact hdis (List.mem_map.2 ⟨a, ha, rfl⟩) (by rw [hEq]; simp)
    simp only [insertOrdered, hnot, Bool.false_eq_true, if_false]
    rw [ih]
    · simp
    · simpa using h

/-! ## Theorems: autoAssign -/

theorem approvedEvaluators_ids_nodup (st : State) (hU : userIdsDistinct st) :
    ((approvedEvaluators st).map (fun u => u.id)).Nodup :=
  List.Nodup.sublist (List.Sublist.map _ (List.filter_sublist _)) hU

theorem teams_ids_nodup (st : State) (hU : userIdsDistinct st) :
    ((teams st).map (fun u => u.id)).Nodup :=
  List.Nodup.sublist (List.Sublist.map _ (List.filter_sublist _)) hU

theorem roundRobin_all_valid (evaluators : List User) (adminId : Id)
    (hnd : (evaluators.map (fun u => u.id)).Nodup) (hE : 3 ≤ evaluators.length)
    (teams : List User) :
    (roundRobin evaluators adminId 0 teams).all
      (fun d => evaluatorIdsValidator d.evaluatorIds) = true := by
  rw [List.all_eq_true]
  intro a ha
  obtain ⟨k, hk, -, -⟩ := roundRobin_mem evaluators adminId 0 teams a ha
  rw [evaluatorIdsValidator_iff, hk]
  exact ⟨rfl, slots_nodup evaluators hnd hE k⟩

/-- The successful run of `autoAssign` in closed form: the Assignments
written are those of the round-robin from cursor 0. -/
theorem autoAssign_success (st : State) (adminId : Id) (hU : userIdsDistinct st)
    (hE : 3 ≤ (approvedEvaluators st).length) (hT : (teams st).length ≠ 0)
    (hA : st.assignments.length = 0) :
    autoAssign st adminId =
      ({ st with assignments := roundRobin (approvedEvaluators st) adminId 0 (teams st) },
        Except.ok ⟨(teams st).length, (approvedEvaluators st).length, (teams st).length, 3⟩) := by
  have hE0 : 0 < (approvedEvaluators st).length := by omega
  have hnil : st.assignments = [] := List.length_eq_zero.1 hA
  have hloop := assignLoop_eq (approvedEvaluators st) adminId hE0 (teams st) 0 []
  rw [Nat.zero_mod, List.nil_append] at hloop
  have hvalid := roundRobin_all_valid (approvedEvaluators st) adminId
    (approvedEvaluators_ids_nodup st hU) hE (teams st)
  have hins : insertOrdered [] (roundRobin (approvedEvaluators st) adminId 0 (teams st)) =
      (roundRobin (approvedEvaluators st) adminId 0 (teams st), true) := by
    have := insertOrdered_nodup [] (roundRobin (approvedEvaluators st) adminId 0 (teams st))
      (by rw [List.nil_append, roundRobin_teamIds]; exact teams_ids_nodup st hU)
    simpa using this
  unfold autoAssign
  simp only [Nat.not_lt.2 hE, if_false, hT, hA, Nat.lt_irrefl, gt_iff_lt, hloop, insertMany,
    hnil, hvalid, if_true, hins, roundRobin_length, List.length_nil]

/-- C1. For every run of autoAssign on a store with pairwise distinct user
ids, at least 3 approved evaluators, at least 1 team and no Assignment, the
run succeeds, the store afterwards holds exactly one Assignment per team
(and none for anything else), and every Assignment holds exactly 3 pairwise
distinct evaluator ids. -/
theorem autoAssign_three_distinct_per_team (st : State) (adminId : Id)
    (hU : userIdsDistinct st) (hE : 3 ≤ (approvedEvaluators st).length)
    (hT : 1 ≤ (teams st).length) (hA : st.assignments = []) :
    (∃ stats, (autoAssign st adminId).2 = Except.ok stats ∧
      stats.assignmentsCreated = (teams st).length) ∧
    (autoAssign st adminId).1.assignments.map (fun a => a.teamId) =
      (teams st).map (fun u => u.id) ∧
    (∀ t ∈ teams st,
      ((autoAssign st adminId).1.assignments.filter (fun a => a.teamId = t.id)).length = 1) ∧
    (∀ a ∈ (autoAssign st adminId).1.assignments,
      a.evaluatorIds.length = 3 ∧ a.evaluatorIds.Nodup) := by
  have hsucc := autoAssign_success st adminId hU hE (by omega) (by simp [hA])
  have hmap := roundRobin_teamIds (approvedEvaluators st) adminId 0 (teams st)
  rw [hsucc]
  refine ⟨⟨_, rfl, rfl⟩, hmap, ?_, ?_⟩
  · intro t ht
    have hnd : ((roundRobin (approvedEvaluators st) adminId 0 (teams st)).map
        (fun a => a.teamId)).Nodup := by
      rw [hmap]; exact teams_ids_nodup st hU
    have hmem : t.id ∈ (roundRobin (approvedEvaluators st) adminId 0 (teams st)).map
        (fun a => a.teamId) := by
      rw [hmap]; exact List.mem_map.2 ⟨t, ht, rfl⟩
    have hcount := List.count_eq_one_of_mem hnd hmem
    rw [List.count_eq_countP, List.countP_map, List.countP_eq_length_filter] at hcount
    rw [← hcount]
    show (List.filter (fun a => decide (a.teamId = t.id))
      (roundRobin (approvedEvaluators st) adminId 0 (teams st))).length = _
    congr 1
  · intro a ha
    obtain ⟨k, hk, -, -⟩ := roundRobin_mem (approvedEvaluators st) adminId 0 (teams st) a ha
    rw [hk]
    exact ⟨rfl, slots_nodup _ (approvedEvaluators_ids_nodup st hU) hE k⟩

theorem autoAssign_three_distinct_per_team_witness :
    userIdsDistinct sampleStore ∧ 3 ≤ (approvedEvaluators sampleStore).length ∧
    (autoAssign sampleStore 0).1.assignments.map (fun a => a.teamId) = [5, 6] ∧
    (∀ a ∈ (autoAssign sampleStore 0).1.assignments,
      a.evaluatorIds.length = 3 ∧ a.evaluatorIds.Nodup) :=
  ⟨by decide, by decide,
    (autoAssign_three_distinct_per_team sampleStore 0 (by decide) (by decide) (by decide)
      rfl).2.1,
    (autoAssign_three_distinct_per_team sampleStore 0 (by decide) (by decide) (by decide)
      rfl).2.2.2⟩

/-- The statistics of a run of `autoAssign` are returned only when the three
preconditions hold. -/
theorem autoAssign_ok_conditions (st : State) (adminId : Id) (stats : AutoAssignStatistics)
    (hok : (autoAssign st adminId).2 = Except.ok stats) :
    3 ≤ (approvedEvaluators st).length ∧ (teams st).length ≠ 0 ∧ st.assignments.length = 0 := by
  unfold autoAssign at hok
  by_cases hE : (approvedEvaluators st).length < 3
  · simp [hE] at hok
  · by_cases hT : (teams st).length = 0
    · simp [hE, hT] at hok
    · by_cases hA : st.assignments.length > 0
      · simp [hE, hT, hA] at hok
      · exact ⟨by omega, hT, by omega⟩

/-- C3. On a store with pairwise distinct user ids, autoAssign is rejected
if and only if fewer than 3 approved evaluators exist, or no team exists, or
an Assignment exists; the message is the one of the first failing check in
this order. -/
theorem autoAssign_rejected_iff (st : State) (adminId : Id) (hU : userIdsDistinct st) :
    ((∃ msg, (autoAssign st adminId).2 = Except.error msg) ↔
      ((approvedEvaluators st).length < 3 ∨ (teams st).length = 0 ∨
        0 < st.assignments.length)) ∧
    ((approvedEvaluators st).length < 3 →
      (autoAssign st adminId).2 = Except.error
        "Insufficient evaluators: At least 3 approved evaluators are required for assignment") ∧
    (3 ≤ (approvedEvaluators st).length → (teams st).length = 0 →
      (autoAssign st adminId).2 = Except.error
        "No teams found: At least one team must be registered for assignment") ∧
    (3 ≤ (approvedEvaluators st).length → (teams st).length ≠ 0 → 0 < st.assignments.length →
      (autoAssign st adminId).2 = Except.error
        "Assignments already exist: Please clear existing assignments before running auto-assignment") := by
  have h1 : (approvedEvaluators st).length < 3 →
      (autoAssign st adminId).2 = Except.error
        "Insufficient evaluators: At least 3 approved evaluators are required for assignment" := by
    intro hE
    simp [autoAssign, hE]
  have h2 : 3 ≤ (approvedEvaluators st).length → (teams st).length = 0 →
      (autoAssign st adminId).2 = Except.error
        "No teams found: At least one team must be registered for assignment" := by
    intro hE hT
    simp [autoAssign, Nat.not_lt.2 hE, hT]
  have h3 : 3 ≤ (approvedEvaluators st).length → (teams st).length ≠ 0 →
      0 < st.assignments.length →
      (autoAssign st adminId).2 = Except.error
        "Assignments already exist: Please clear existing assignments before running auto-assignment" := by
    intro hE hT hA
    simp [autoAssign, Nat.not_lt.2 hE, hT, hA]
  refine ⟨⟨?_, ?_⟩, h1, h2, h3⟩
  · rintro ⟨msg, hmsg⟩
    by_contra hcon
    simp only [not_or, not_lt, Nat.le_zero] at hcon
    obtain ⟨hE, hT, hA⟩ := hcon
    rw [autoAssign_success st adminId hU hE hT hA] at hmsg
    cases hmsg
  · intro h
    by_cases hE : (approvedEvaluators st).length < 3
    · exact ⟨_, h1 hE⟩
    · by_cases hT : (teams st).length = 0
      · exact ⟨_, h2 (by omega) hT⟩
      · rcases h with h | h | h
        · exact absurd h hE
        · exact absurd h hT
        · exact ⟨_, h3 (by omega) hT h⟩

theorem autoAssign_rejected_iff_witness :
    userIdsDistinct twoEvaluatorStore ∧
    (autoAssign twoEvaluatorStore 0).2 = Except.error
      "Insufficient evaluators: At least 3 approved evaluators are required for assignment" :=
  ⟨by decide, (autoAssign_rejected_iff twoEvaluatorStore 0 (by decide)).2.1 (by decide)⟩

/-- C4. On a store with pairwise distinct user ids, a run of autoAssign that
is rejected leaves the store as it was: no Assignment row is created. -/
theorem autoAssign_rejected_unchanged (st : State) (adminId : Id) (msg : String)
    (hU : userIdsDistinct st) (hrej : (autoAssign st adminId).2 = Except.error msg) :
    (autoAssign st adminId).1 = st := by
  by_cases hE : (approvedEvaluators st).length < 3
  · simp [autoAssign, hE]
  · by_cases hT : (teams st).length = 0
    · simp [autoAssign, hE, hT]
    · by_cases hA : st.assignments.length > 0
      · simp [autoAssign, hE, hT, hA]
      · rw [autoAssign_success st adminId hU (by omega) hT (by omega)] at hrej
        cases hrej

theorem autoAssign_rejected_unchanged_witness :
    (approvedEvaluators twoEvaluatorStore).length = 2 ∧ (teams twoEvaluatorStore).length = 1 ∧
    (autoAssign twoEvaluatorStore 0).1.assignments = [] :=
  ⟨by decide, by decide,
    congrArg State.assignments
      (autoAssign_rejected_unchanged twoEvaluatorStore 0
        "Insufficient evaluators: At least 3 approved evaluators are required for assignment"
        (by decide) rfl)⟩

/-! ## Theorems: fairness of the round-robin -/

/-- The tally of one evaluator over a list of Assignments. -/
theorem roundRobin_tally (evaluators : List User) (adminId : Id) (x : Id) (teams : List User)
    (c : Nat) :
    ((roundRobin evaluators adminId c teams).map
      (fun a => (a.evaluatorIds.filter (fun i => i = x)).length)).sum =
    ((List.range' c (3 * teams.length)).filter (fun k => slotId evaluators k = x)).length := by
  induction teams generalizing c with
  | nil => simp [roundRobin]
  | cons t ts ih =>
    have h3 : 3 * (t :: ts).length = (3 * ts.length + 1 + 1) + 1 := by
      simp only [List.length_cons]; ring
    rw [h3, List.range'_succ, List.range'_succ, List.range'_succ]
    simp only [roundRobin, List.map_cons, List.sum_cons, ih (c + 3)]
    have e1 : c + 1 + 1 = c + 2 := rfl
    have e2 : c + 1 + 1 + 1 = c + 3 := rfl
    simp only [e1, e2, List.filter_cons, List.filter_nil]
    by_cases h0 : slotId evaluators c = x <;> by_cases h1 : slotId evaluators (c + 1) = x <;>
      by_cases h2 : slotId evaluators (c + 2) = x <;>
      simp [h0, h1, h2] <;> omega

theorem range_filter_mod_bounds (n E j : Nat) (hE : 0 < E) :
    n / E ≤ ((List.range' 0 n).filter (fun k => k % E = j % E)).length ∧
    ((List.range' 0 n).filter (fun k => k % E = j % E)).length ≤ n / E + 1 := by
  have hcount : ((List.range' 0 n).filter (fun k => k % E = j % E)).length =
      Nat.count (fun k => k ≡ j [MOD E]) n := by
    rw [← List.range_eq_range', ← List.countP_eq_length_filter]
    simp only [Nat.count, Nat.ModEq]
  rw [hcount, Nat.count_modEq_card n hE j]
  constructor
  · omega
  · split_ifs <;> omega

theorem tally_eq_filter_length (l : List Assignment) (x : Id)
    (h : ∀ a ∈ l, a.evaluatorIds.Nodup) :
    (l.map (fun a => (a.evaluatorIds.filter (fun i => i = x)).length)).sum =
      (l.filter (fun a => decide (x ∈ a.evaluatorIds))).length := by
  induction l with
  | nil => simp
  | cons a as ih =>
    have hnd := h a (List.mem_cons_self _ _)
    have ih2 := ih (fun b hb => h b (List.mem_cons_of_mem _ hb))
    have hc : (a.evaluatorIds.filter (fun i => i = x)).length = a.evaluatorIds.count x := by
      rw [List.count_eq_countP, List.countP_eq_length_filter]
      congr 1
    simp only [List.map_cons, List.sum_cons, ih2, hc, List.filter_cons]
    by_cases hx : x ∈ a.evaluatorIds
    · rw [List.count_eq_one_of_mem hnd hx]
      simp [hx]
      omega
    · rw [List.count_eq_zero_of_not_mem hx]
      simp [hx]

/-- C2. After a successful autoAssign (pairwise distinct user ids, at least 3
approved evaluators, at least 1 team, no Assignment before) the workload
tally of any approved evaluator exceeds that of any other by at most 1, and
the tally of an evaluator is the number of Assignments that list it. -/
theorem autoAssign_workload_fair (st : State) (adminId : Id)
    (hU : userIdsDistinct st) (hE : 3 ≤ (approvedEvaluators st).length)
    (hT : 1 ≤ (teams st).length) (hA : st.assignments = []) :
    (∀ e1 ∈ approvedEvaluators st, ∀ e2 ∈ approvedEvaluators st,
      assignedTeams (autoAssign st adminId).1 e1.id ≤
        assignedTeams (autoAssign st adminId).1 e2.id + 1) ∧
    (∀ e ∈ approvedEvaluators st,
      assignedTeams (autoAssign st adminId).1 e.id =
        ((autoAssign st adminId).1.assignments.filter
          (fun a => decide (e.id ∈ a.evaluatorIds))).length) := by
  have hE0 : 0 < (approvedEvaluators st).length := by omega
  have hnd := approvedEvaluators_ids_nodup st hU
  rw [autoAssign_success st adminId hU hE (by omega) (by simp [hA])]
  dsimp only
  -- the tally on the store after the call, without the populate filter
  have htally : ∀ x, assignedTeams
      { st with assignments := roundRobin (approvedEvaluators st) adminId 0 (teams st) } x =
      ((roundRobin (approvedEvaluators st) adminId 0 (teams st)).map
        (fun a => (a.evaluatorIds.filter (fun i => i = x)).length)).sum := by
    intro x
    unfold assignedTeams
    have hact : (roundRobin (approvedEvaluators st) adminId 0 (teams st)).filter
        (fun a => decide (a.status = Status.active)) =
        roundRobin (approvedEvaluators st) adminId 0 (teams st) := by
      rw [List.filter_eq_self]
      intro a ha
      obtain ⟨k, -, -, hs⟩ := roundRobin_mem _ _ _ _ a ha
      simp [hs]
    simp only [hact]
    congr 1
    apply List.map_congr_left
    intro a ha
    obtain ⟨k, hk, -, -⟩ := roundRobin_mem _ _ _ _ a ha
    have hpop : a.evaluatorIds.filter (fun i => (findUserById
        { st with assignments := roundRobin (approvedEvaluators st) adminId 0 (teams st) }
        i).isSome) = a.evaluatorIds := by
      rw [List.filter_eq_self]
      intro i hi
      rw [hk] at hi
      have hex : ∃ e ∈ approvedEvaluators st, e.id = i := by
        simp only [List.mem_cons, List.mem_singleton, List.not_mem_nil, or_false] at hi
        rcases hi with h | h | h <;> rw [h] <;> exact slotId_mem _ hE0 _
      obtain ⟨e, he, hei⟩ := hex
      have heu : e ∈ st.users := List.mem_of_mem_filter he
      simp only [findUserById, List.find?_isSome, decide_eq_true_eq]
      exact ⟨e, heu, hei⟩
    rw [hpop]
  have hbounds : ∀ e ∈ approvedEvaluators st,
      3 * (teams st).length / (approvedEvaluators st).length ≤ assignedTeams
        { st with assignments := roundRobin (approvedEvaluators st) adminId 0 (teams st) } e.id ∧
      assignedTeams
        { st with assignments := roundRobin (approvedEvaluators st) adminId 0 (teams st) } e.id ≤
        3 * (teams st).length / (approvedEvaluators st).length + 1 := by
    intro e he
    obtain ⟨j, hj, hje⟩ := List.getElem_of_mem he
    have hslot : ∀ k, (slotId (approvedEvaluators st) k = e.id) ↔
        k % (approvedEvaluators st).length = j % (approvedEvaluators st).length := by
      intro k
      have hej : slotId (approvedEvaluators st) j = e.id := by
        have hg : (approvedEvaluators st)[j % (approvedEvaluators st).length]? = some e := by
          rw [Nat.mod_eq_of_lt hj, List.getElem?_eq_getElem hj, hje]
        simp only [slotId, hg]
      rw [← hej]
      exact slotId_eq_iff _ hnd hE0 k j
    rw [htally, roundRobin_tally]
    have hfilter : (List.range' 0 (3 * (teams st).length)).filter
        (fun k => decide (slotId (approvedEvaluators st) k = e.id)) =
        (List.range' 0 (3 * (teams st).length)).filter
        (fun k => decide (k % (approvedEvaluators st).length =
          j % (approvedEvaluators st).length)) := by
      apply List.filter_congr
      intro k _
      simp only [hslot k]
    rw [hfilter]
    exact range_filter_mod_bounds _ _ j hE0
  constructor
  · intro e1 he1 e2 he2
    have b1 := hbounds e1 he1
    have b2 := hbounds e2 he2
    omega
  · intro e _
    rw [htally]
    apply tally_eq_filter_length
    intro a ha
    obtain ⟨k, hk, -, -⟩ := roundRobin_mem _ _ _ _ a ha
    rw [hk]
    exact slots_nodup _ hnd hE k

theorem autoAssign_workload_fair_witness :
    assignedTeams (autoAssign sampleStore 0).1 1 = 2 ∧
    assignedTeams (autoAssign sampleStore 0).1 4 = 1 ∧
    assignedTeams (autoAssign sampleStore 0).1 1 ≤
      assignedTeams (autoAssign sampleStore 0).1 4 + 1 :=
  ⟨by decide, by decide,
    (autoAssign_workload_fair sampleStore 0 (by decide) (by decide) (by decide) rfl).1
      ⟨1, "Eva", "eva@x.org", Role.evaluator, true⟩ (by decide)
      ⟨4, "Edo", "edo@x.org", Role.evaluator, true⟩ (by decide)⟩

/-! ## Theorems: validateAssignment and manualAssign -/

theorem dedup_length_three_iff (ids : List Id) (hlen : ids.length = 3) :
    ids.dedup.length = 3 ↔ ids.Nodup := by
  have h := evaluatorIdsValidator_iff ids
  simp only [evaluatorIdsValidator, hlen, ne_eq, not_true_eq_false, if_false,
    decide_eq_true_eq, true_and] at h
  exact h

/-- The update branch of `manualAssign` is never taken: a successful call
always reports `isUpdate = false`. -/
theorem manualAssign_never_update (st : State) (teamId : Id) (evaluatorIds : List Id)
    (adminId : Id) (r : ManualAssignResult)
    (hok : (manualAssign st teamId evaluatorIds adminId).2 = Except.ok r) :
    r.isUpdate = false := by
  unfold manualAssign at hok
  by_cases hv : (validateAssignment st teamId evaluatorIds).valid = true
  · have hnone : findAssignmentByTeam st teamId = none := by
      unfold validateAssignment at hv
      by_contra hsome
      have hs : (findAssignmentByTeam st teamId).isSome = true := by
        cases h : findAssignmentByTeam st teamId with
        | none => exact absurd h hsome
        | some a => rfl
      split_ifs at hv
      split at hv
      · simp at hv
      · split_ifs at hv
    simp only [hv, Bool.not_true, Bool.false_eq_true, if_false, hnone] at hok
    split_ifs at hok
    cases hok
    rfl
  · simp [hv] at hok

/-- C5 (the code at the failing input). Team 5 of the sample store has an
Assignment, and 2, 3, 4 are pairwise distinct ids of approved evaluators;
`manualAssign` refuses the call with "Team already has an assignment" and
leaves the store as it was. -/
theorem manualAssign_existing_rejected :
    (findAssignmentByTeam assignedStore 5).isSome = true ∧
    [2, 3, 4].Nodup ∧
    (∀ i ∈ [2, 3, 4], ∃ u ∈ assignedStore.users,
      u.id = i ∧ u.role = Role.evaluator ∧ u.approved = true) ∧
    manualAssign assignedStore 5 [2, 3, 4] 0 =
      (assignedStore, Except.error "Team already has an assignment") := by
  refine ⟨by decide, by decide, by decide, ?_⟩
  rfl

/-- With pairwise distinct user ids and pairwise distinct requested ids, the
users found by the `$in` query with role evaluator are as many as the
requested ids that name an evaluator. -/
theorem found_evaluators_length (st : State) (ids : List Id) (hU : userIdsDistinct st)
    (hnd : ids.Nodup) :
    (st.users.filter (fun u => decide (u.id ∈ ids) && decide (u.role = Role.evaluator))).length =
      (ids.filter (namesEvaluator st)).length := by
  have h1 : ((st.users.filter (fun u => decide (u.id ∈ ids) &&
      decide (u.role = Role.evaluator))).map (fun u => u.id)).Nodup :=
    List.Nodup.sublist (List.Sublist.map _ (List.filter_sublist _)) hU
  have h2 : (ids.filter (namesEvaluator st)).Nodup := hnd.filter _
  have hperm : List.Perm ((st.users.filter (fun u => decide (u.id ∈ ids) &&
      decide (u.role = Role.evaluator))).map (fun u => u.id)) (ids.filter (namesEvaluator st)) := by
    rw [List.perm_ext_iff_of_nodup h1 h2]
    intro i
    simp only [List.mem_map, List.mem_filter, Bool.and_eq_true, decide_eq_true_eq,
      namesEvaluator, List.any_eq_true]
    constructor
    · rintro ⟨u, ⟨hu, hin, hr⟩, rfl⟩
      exact ⟨hin, u, hu, rfl, hr⟩
    · rintro ⟨hin, u, hu, hid, hr⟩
      exact ⟨u, ⟨hu, by rw [hid]; exact hin, hr⟩, hid⟩
  rw [← hperm.length_eq, List.length_map]

theorem unapproved_found_iff (st : State) (ids : List Id) :
    ((st.users.filter (fun u => decide (u.id ∈ ids) && decide (u.role = Role.evaluator))).filter
      (fun e => !e.approved)).length > 0 ↔ ∃ i ∈ ids, namesUnapprovedEvaluator st i = true := by
  rw [gt_iff_lt, List.length_pos_iff_exists_mem]
  simp only [List.mem_filter, Bool.and_eq_true, decide_eq_true_eq, Bool.not_eq_true',
    namesUnapprovedEvaluator, List.any_eq_true]
  constructor
  · rintro ⟨u, ⟨hu, hin, hr⟩, ha⟩
    exact ⟨u.id, hin, u, hu, ⟨rfl, hr⟩, ha⟩
  · rintro ⟨i, hin, u, hu, ⟨hid, hr⟩, ha⟩
    exact ⟨u, ⟨hu, by rw [hid]; exact hin, hr⟩, ha⟩

/-- The outcome of `validateAssignment` for a team without an Assignment, as
a decision list over the six failure conditions. -/
theorem validateAssignment_unassigned (st : State) (teamId : Id) (ids : List Id)
    (hU : userIdsDistinct st) (hno : findAssignmentByTeam st teamId = none) :
    validateAssignment st teamId ids =
      if ids.length ≠ 3 then ⟨false, "Must provide exactly 3 evaluators"⟩
      else if ¬ ids.Nodup then ⟨false, "All 3 evaluators must be unique"⟩
      else if findUserById st teamId = none then ⟨false, "Team not found"⟩
      else if (∃ u, findUserById st teamId = some u ∧ u.role ≠ Role.team) then
        ⟨false, "Specified user is not a team"⟩
      else if (ids.filter (namesEvaluator st)).length < 3 then
        ⟨false, "One or more evaluators not found or not evaluator role"⟩
      else if (∃ i ∈ ids, namesUnapprovedEvaluator st i = true) then
        ⟨false, "One or more evaluators are not approved"⟩
      else ⟨true, "Assignment is valid"⟩ := by
  unfold validateAssignment
  by_cases hlen : ids.length = 3
  · by_cases hnd : ids.Nodup
    · have hd : ids.dedup.length = 3 := (dedup_length_three_iff ids hlen).2 hnd
      simp only [hlen, ne_eq, not_true_eq_false, if_false, hd, hnd]
      cases hteam : findUserById st teamId with
      | none => simp
      | some team =>
        by_cases hrole : team.role = Role.team
        · have hf := found_evaluators_length st ids hU hnd
          have hle : (ids.filter (namesEvaluator st)).length ≤ 3 := by
            rw [← hlen]; exact List.length_filter_le _ _
          have hun := unapproved_found_iff st ids
          simp only [hrole, not_true_eq_false, if_false, hno, Option.isSome_none,
            Bool.false_eq_true, reduceCtorEq, Option.some.injEq, exists_eq_left', hf]
          by_cases h5 : (ids.filter (namesEvaluator st)).length < 3
          · have : (ids.filter (namesEvaluator st)).length ≠ 3 := by omega
            simp [h5, this]
          · have h3 : (ids.filter (namesEvaluator st)).length = 3 := by omega
            simp only [h3, not_true_eq_false, if_false, lt_irrefl]
            by_cases h6 : ∃ i ∈ ids, namesUnapprovedEvaluator st i = true
            · simp only [h6, if_true, hun.2 h6]
            · have : ¬ ((st.users.filter (fun u => decide (u.id ∈ ids) &&
                  decide (u.role = Role.evaluator))).filter (fun e => !e.approved)).length > 0 :=
                fun h => h6 (hun.1 h)
              simp only [h6, if_false, this]
        · simp [hrole]
    · have hd : ids.dedup.length ≠ 3 := fun h => hnd ((dedup_length_three_iff ids hlen).1 h)
      simp [hlen, hd, hnd]
  · simp [hlen]

/-- C6. For a team without an Assignment (on a store with pairwise distinct
user ids) manualAssign is decided by six checks in order: it fails with the
reason of the first that applies (not 3 ids, ids not pairwise distinct, no
such user, user not a team, fewer than 3 ids naming an evaluator, a named
evaluator not approved) and leaves the store as it was; it fails exactly
when one of the six applies; otherwise it appends an Assignment with exactly
the given ids and reports isUpdate = false.  The six reasons are pairwise
different strings. -/
theorem manualAssign_unassigned_outcome (st : State) (teamId : Id) (ids : List Id)
    (adminId : Id) (hU : userIdsDistinct st) (hno : findAssignmentByTeam st teamId = none) :
    (manualAssign st teamId ids adminId =
      if ids.length ≠ 3 then (st, Except.error "Must provide exactly 3 evaluators")
      else if ¬ ids.Nodup then (st, Except.error "All 3 evaluators must be unique")
      else if findUserById st teamId = none then (st, Except.error "Team not found")
      else if (∃ u, findUserById st teamId = some u ∧ u.role ≠ Role.team) then
        (st, Except.error "Specified user is not a team")
      else if (ids.filter (namesEvaluator st)).length < 3 then
        (st, Except.error "One or more evaluators not found or not evaluator role")
      else if (∃ i ∈ ids, namesUnapprovedEvaluator st i = true) then
        (st, Except.error "One or more evaluators are not approved")
      else
        ({ st with assignments := st.assignments ++ [⟨teamId, ids, adminId, Status.active⟩] },
          Except.ok ⟨"Assignment created successfully",
            ⟨teamId, ids, adminId, Status.active⟩, false⟩)) ∧
    ((∃ msg, (manualAssign st teamId ids adminId).2 = Except.error msg) ↔
      (ids.length ≠ 3 ∨ ¬ ids.Nodup ∨ findUserById st teamId = none ∨
        (∃ u, findUserById st teamId = some u ∧ u.role ≠ Role.team) ∨
        (ids.filter (namesEvaluator st)).length < 3 ∨
        (∃ i ∈ ids, namesUnapprovedEvaluator st i = true))) ∧
    ["Must provide exactly 3 evaluators", "All 3 evaluators must be unique",
      "Team not found", "Specified user is not a team",
      "One or more evaluators not found or not evaluator role",
      "One or more evaluators are not approved"].Nodup := by
  have hany : st.assignments.any (fun a => decide (a.teamId = teamId)) = false := by
    rw [Bool.eq_false_iff]
    intro h
    rw [List.any_eq_true] at h
    obtain ⟨a, ha, hp⟩ := h
    have := List.find?_eq_none.1 hno a ha
    exact this hp
  have heq : manualAssign st teamId ids adminId =
      if ids.length ≠ 3 then (st, Except.error "Must provide exactly 3 evaluators")
      else if ¬ ids.Nodup then (st, Except.error "All 3 evaluators must be unique")
      else if findUserById st teamId = none then (st, Except.error "Team not found")
      else if (∃ u, findUserById st teamId = some u ∧ u.role ≠ Role.team) then
        (st, Except.error "Specified user is not a team")
      else if (ids.filter (namesEvaluator st)).length < 3 then
        (st, Except.error "One or more evaluators not found or not evaluator role")
      else if (∃ i ∈ ids, namesUnapprovedEvaluator st i = true) then
        (st, Except.error "One or more evaluators are not approved")
      else
        ({ st with assignments := st.assignments ++ [⟨teamId, ids, adminId, Status.active⟩] },
          Except.ok ⟨"Assignment created successfully",
            ⟨teamId, ids, adminId, Status.active⟩, false⟩) := by
    unfold manualAssign
    rw [validateAssignment_unassigned st teamId ids hU hno]
    by_cases h1 : ids.length ≠ 3
    · simp [if_pos h1]
    · by_cases h2 : ¬ ids.Nodup
      · simp [if_neg h1, if_pos h2]
      · by_cases h3 : findUserById st teamId = none
        · simp [if_neg h1, if_neg h2, if_pos h3]
        · by_cases h4 : ∃ u, findUserById st teamId = some u ∧ u.role ≠ Role.team
          · simp [if_neg h1, if_neg h2, if_neg h3, if_pos h4]
          · by_cases h5 : (ids.filter (namesEvaluator st)).length < 3
            · simp [if_neg h1, if_neg h2, if_neg h3, if_neg h4, if_pos h5]
            · by_cases h6 : ∃ i ∈ ids, namesUnapprovedEvaluator st i = true
              · simp [if_neg h1, if_neg h2, if_neg h3, if_neg h4, if_neg h5, if_pos h6]
              · have hval : evaluatorIdsValidator ids = true :=
                  (evaluatorIdsValidator_iff ids).2 ⟨not_not.1 h1, not_not.1 h2⟩
                simp [if_neg h1, if_neg h2, if_neg h3, if_neg h4, if_neg h5, if_neg h6,
                  hno, hval, hany]
  refine ⟨heq, ?_, by decide⟩
  rw [heq]
  constructor
  · rintro ⟨msg, hmsg⟩
    by_contra hcon
    simp only [not_or] at hcon
    obtain ⟨h1, h2, h3, h4, h5, h6⟩ := hcon
    rw [if_neg h1, if_neg h2, if_neg h3, if_neg h4, if_neg h5, if_neg h6] at hmsg
    cases hmsg
  · intro h
    by_cases h1 : ids.length ≠ 3
    · exact ⟨_, by rw [if_pos h1]⟩
    · by_cases h2 : ¬ ids.Nodup
      · exact ⟨_, by rw [if_neg h1, if_pos h2]⟩
      · by_cases h3 : findUserById st teamId = none
        · exact ⟨_, by rw [if_neg h1, if_neg h2, if_pos h3]⟩
        · by_cases h4 : ∃ u, findUserById st teamId = some u ∧ u.role ≠ Role.team
          · exact ⟨_, by rw [if_neg h1, if_neg h2, if_neg h3, if_pos h4]⟩
          · by_cases h5 : (ids.filter (namesEvaluator st)).length < 3
            · exact ⟨_, by rw [if_neg h1, if_neg h2, if_neg h3, if_neg h4, if_pos h5]⟩
            · have h6 : ∃ i ∈ ids, namesUnapprovedEvaluator st i = true := by
                rcases h with h | h | h | h | h | h
                · exact absurd h h1
                · exact absurd h h2
                · exact absurd h h3
                · exact absurd h h4
                · exact absurd h h5
                · exact h
              exact ⟨_, by
                rw [if_neg h1, if_neg h2, if_neg h3, if_neg h4, if_neg h5, if_pos h6]⟩

theorem manualAssign_unassigned_outcome_witness :
    userIdsDistinct sampleStore ∧ findAssignmentByTeam sampleStore 5 = none ∧
    manualAssign sampleStore 5 [1, 2, 3] 0 =
      ({ sampleStore with assignments := [⟨5, [1, 2, 3], 0, Status.active⟩] },
        Except.ok ⟨"Assignment created successfully", ⟨5, [1, 2, 3], 0, Status.active⟩, false⟩) ∧
    (∃ msg, (manualAssign sampleStore 5 [1, 2] 0).2 = Except.error msg) :=
  ⟨by decide, rfl, rfl,
    (manualAssign_unassigned_outcome sampleStore 5 [1, 2] 0 (by decide) rfl).2.1.2
      (Or.inl (by decide))⟩

/-! ## Theorems: the Assignment invariant -/

theorem runStore_eq :
    runStore =
      ⟨[⟨0, "System Administrator", "admin@evalynx.com", Role.admin, true⟩,
        ⟨1, "Eva", "eva@x.org", Role.evaluator, true⟩,
        ⟨2, "Eli", "eli@x.org", Role.evaluator, true⟩,
        ⟨3, "Eve", "eve@x.org", Role.evaluator, true⟩,
        ⟨5, "Team A", "a@x.org", Role.team, true⟩],
       [⟨5, [1, 2, 3], 0, Status.active⟩], [], []⟩ := by
  decide

theorem runStore_reachable : Reachable runStore := by
  have r0 : Reachable ⟨[], [], [], []⟩ := Reachable.empty
  have r1 := Reachable.seedAdmin _ 0 r0 (by decide)
  have r2 := Reachable.register _ 1 (evaluatorBody "Eva" "eva@x.org") true r1 (by decide)
  have r3 := Reachable.register _ 2 (evaluatorBody "Eli" "eli@x.org") true r2 (by decide)
  have r4 := Reachable.register _ 3 (evaluatorBody "Eve" "eve@x.org") true r3 (by decide)
  have r5 := Reachable.approveEvaluator _ 0 1 (some true) r4 (by decide)
  have r6 := Reachable.approveEvaluator _ 0 2 (some true) r5 (by decide)
  have r7 := Reachable.approveEvaluator _ 0 3 (some true) r6 (by decide)
  have r8 := Reachable.register _ 5 (teamBody "Team A" "a@x.org") true r7 (by decide)
  exact Reachable.autoAssign _ 0 r8 (by decide)

/-- C7 (the code at the failing input). After the administrator is seeded,
three evaluators register and are approved, a team registers and autoAssign
runs, the Assignment invariant holds; `deleteUser` on evaluator 1 then leaves
the team with an Assignment of 2 evaluators, in a reachable store. -/
theorem deleteUser_breaks_assignment_invariant :
    Reachable runStore ∧ assignmentInvariant runStore ∧
    Reachable brokenStore ∧
    brokenStore.assignments = [⟨5, [2, 3], 0, Status.active⟩] ∧
    ¬ assignmentInvariant brokenStore := by
  have hb : brokenStore.assignments = [⟨5, [2, 3], 0, Status.active⟩] := by decide
  refine ⟨runStore_reachable, ?_, ?_, hb, ?_⟩
  · rw [runStore_eq]
    intro a ha
    simp only [List.mem_singleton] at ha
    subst ha
    refine ⟨rfl, by decide, ?_⟩
    decide
  · exact Reachable.deleteUser runStore 0 1 runStore_reachable (by decide)
  · intro h
    have h2 := (h ⟨5, [2, 3], 0, Status.active⟩ (by rw [hb]; simp)).1
    exact absurd h2 (by decide)

/-! ## Theorems: what the handlers leave untouched -/

theorem submitEvaluation_users (st : State) (evaluatorId teamId : Id) (body : EvaluationBody) :
    (submitEvaluation st evaluatorId teamId body).1.users = st.users ∧
    (submitEvaluation st evaluatorId teamId body).1.assignments = st.assignments := by
  unfold submitEvaluation recordEvaluation
  repeat' (first | (constructor <;> rfl) | split | (dsimp only; split))

theorem saveSubmission_users (st : State) (teamId : Id) (videoUrl : String) (urlOk : Bool)
    (newId : Id) :
    (saveSubmission st teamId videoUrl urlOk newId).1.users = st.users ∧
    (saveSubmission st teamId videoUrl urlOk newId).1.assignments = st.assignments := by
  unfold saveSubmission
  repeat' (first | (constructor <;> rfl) | split | (dsimp only; split))

/-! ## Theorems: the store invariant on reachable stores -/

theorem not_mentioned_not_user (st : State) (newId : Id) (h : newId ∉ mentionedIds st) :
    newId ∉ st.users.map (fun u => u.id) := by
  intro hm
  apply h
  simp only [mentionedIds, List.mem_append]
  repeat (first | exact hm | left)

theorem storeInvariant_addUser (st : State) (u : User) (h : storeInvariant st)
    (hfresh : u.id ∉ st.users.map (fun u => u.id)) :
    storeInvariant { st with users := st.users ++ [u] } := by
  obtain ⟨hU, hA⟩ := h
  constructor
  · unfold userIdsDistinct at hU ⊢
    simp only [List.map_append, List.map_cons, List.map_nil]
    rw [List.nodup_append]
    refine ⟨hU, List.nodup_singleton _, ?_⟩
    intro x hx hx2
    simp only [List.mem_singleton] at hx2
    subst hx2
    exact hfresh hx
  · intro a ha
    obtain ⟨t, ht, hid, hr⟩ := hA a ha
    exact ⟨t, List.mem_append_left _ ht, hid, hr⟩

theorem exists_updateFirst (p : User → Bool) (f : User → User)
    (hf : ∀ u, (f u).id = u.id ∧ (f u).role = u.role) (t : Id) (r : Role) (l : List User)
    (h : ∃ u ∈ l, u.id = t ∧ u.role = r) :
    ∃ u ∈ updateFirst p f l, u.id = t ∧ u.role = r := by
  induction l with
  | nil => simp at h
  | cons x xs ih =>
    obtain ⟨u, hu, hid, hr⟩ := h
    by_cases hp : p x = true
    · simp only [updateFirst, hp, if_true]
      rcases List.mem_cons.1 hu with h1 | h1
      · subst h1
        exact ⟨f u, List.mem_cons_self _ _, by rw [(hf u).1, hid], by rw [(hf u).2, hr]⟩
      · exact ⟨u, List.mem_cons_of_mem _ h1, hid, hr⟩
    · simp only [updateFirst, hp, Bool.false_eq_true, if_false]
      rcases List.mem_cons.1 hu with h1 | h1
      · subst h1
        exact ⟨u, List.mem_cons_self _ _, hid, hr⟩
      · obtain ⟨v, hv, hvid, hvr⟩ := ih ⟨u, h1, hid, hr⟩
        exact ⟨v, List.mem_cons_of_mem _ hv, hvid, hvr⟩

theorem updateFirst_map_id (p : User → Bool) (f : User → User)
    (hf : ∀ u, (f u).id = u.id) (l : List User) :
    (updateFirst p f l).map (fun u => u.id) = l.map (fun u => u.id) := by
  induction l with
  | nil => rfl
  | cons x xs ih =>
    by_cases hp : p x = true
    · simp [updateFirst, hp, hf x]
    · simp [updateFirst, hp, ih]

theorem team_survives_erase (l : List User) (hnd : (l.map (fun u => u.id)).Nodup)
    (x : Id) (v : User) (hv : l.find? (fun u => decide (u.id = x)) = some v)
    (hrole : v.role ≠ Role.team) (t : Id)
    (h : ∃ u ∈ l, u.id = t ∧ u.role = Role.team) :
    ∃ u ∈ l.eraseP (fun u => decide (u.id = x)), u.id = t ∧ u.role = Role.team := by
  obtain ⟨u, hu, hid, hr⟩ := h
  have hvmem : v ∈ l := List.mem_of_find?_eq_some hv
  have hvid : v.id = x := by simpa using List.find?_some hv
  have hne : ¬ (decide (u.id = x) = true) := by
    intro hux
    simp only [decide_eq_true_eq] at hux
    have huv : u = v := List.inj_on_of_nodup_map hnd hu hvmem (by rw [hux, hvid])
    rw [huv] at hr
    exact hrole hr
  exact ⟨u, (List.mem_eraseP_of_neg (p := fun u => decide (u.id = x)) (a := u) hne).2 hu,
    hid, hr⟩

theorem erase_ids_nodup (l : List User) (hnd : (l.map (fun u => u.id)).Nodup) (p : User → Bool) :
    ((l.eraseP p).map (fun u => u.id)).Nodup :=
  List.Nodup.sublist (List.Sublist.map _ (List.eraseP_sublist l)) hnd

theorem validateAssignment_valid (st : State) (teamId : Id) (ids : List Id)
    (hv : (validateAssignment st teamId ids).valid = true) :
    (∃ team, findUserById st teamId = some team ∧ team.role = Role.team) ∧
    findAssignmentByTeam st teamId = none ∧ evaluatorIdsValidator ids = true := by
  unfold validateAssignment at hv
  by_cases h1 : ids.length ≠ 3
  · simp [if_pos h1] at hv
  · by_cases h2 : ids.dedup.length ≠ 3
    · simp [if_neg h1, if_pos h2] at hv
    · cases hteam : findUserById st teamId with
      | none => simp [if_neg h1, if_neg h2, hteam] at hv
      | some team =>
        by_cases h3 : team.role ≠ Role.team
        · simp [if_neg h1, if_neg h2, hteam, if_pos h3] at hv
        · by_cases h4 : (findAssignmentByTeam st teamId).isSome = true
          · simp [if_neg h1, if_neg h2, hteam, if_neg h3, if_pos h4] at hv
          · refine ⟨⟨team, rfl, not_not.1 h3⟩, ?_, ?_⟩
            · cases hfa : findAssignmentByTeam st teamId with
              | none => rfl
              | some a => rw [hfa] at h4; simp at h4
            · unfold evaluatorIdsValidator
              simp only [if_neg h1, not_not.1 h2, decide_True]

/-- The store after `manualAssign`: unchanged, or one Assignment more for an
existing team. -/
theorem manualAssign_state_cases (st : State) (teamId : Id) (ids : List Id) (adminId : Id) :
    (manualAssign st teamId ids adminId).1 = st ∨
    ((∃ team, findUserById st teamId = some team ∧ team.role = Role.team) ∧
      (manualAssign st teamId ids adminId).1 =
        { st with assignments := st.assignments ++ [⟨teamId, ids, adminId, Status.active⟩] }) := by
  by_cases hv : (validateAssignment st teamId ids).valid = true
  · obtain ⟨hteam, hno, hval⟩ := validateAssignment_valid st teamId ids hv
    unfold manualAssign
    simp only [hv, Bool.not_true, Bool.false_eq_true, if_false, hno, hval, if_true]
    split_ifs
    · left; rfl
    · right; exact ⟨hteam, rfl⟩
  · left
    unfold manualAssign
    simp [hv]

/-- The store after `autoAssign` on a store with pairwise distinct user ids:
unchanged, or the Assignments of the round-robin. -/
theorem autoAssign_state_cases (st : State) (adminId : Id) (hU : userIdsDistinct st) :
    (autoAssign st adminId).1 = st ∨
    (autoAssign st adminId).1 =
      { st with assignments := roundRobin (approvedEvaluators st) adminId 0 (teams st) } := by
  by_cases hE : (approvedEvaluators st).length < 3
  · left; simp [autoAssign, hE]
  · by_cases hT : (teams st).length = 0
    · left; simp [autoAssign, hE, hT]
    · by_cases hA : st.assignments.length > 0
      · left; simp [autoAssign, hE, hT, hA]
      · right
        rw [autoAssign_success st adminId hU (by omega) hT (by omega)]

theorem storeInvariant_congr (st st2 : State) (hu : st2.users = st.users)
    (ha : st2.assignments = st.assignments) (h : storeInvariant st) : storeInvariant st2 := by
  unfold storeInvariant userIdsDistinct at *
  rw [hu, ha]
  exact h

theorem storeInvariant_seedAdmin (st : State) (newId : Id) (h : storeInvariant st)
    (hfresh : newId ∉ mentionedIds st) : storeInvariant (seedAdmin st newId) := by
  unfold seedAdmin
  split_ifs
  · exact h
  · exact storeInvariant_addUser st _ h (not_mentioned_not_user st newId hfresh)

theorem storeInvariant_register (st : State) (newId : Id) (body : RegisterBody)
    (schemaOk : Bool) (h : storeInvariant st) (hfresh : newId ∉ mentionedIds st) :
    storeInvariant (register st newId body schemaOk).1 := by
  unfold register
  split
  · exact h
  · split_ifs
    all_goals first
      | exact h
      | exact storeInvariant_addUser st _ h (not_mentioned_not_user st newId hfresh)

theorem storeInvariant_autoAssign (st : State) (adminId : Id) (h : storeInvariant st) :
    storeInvariant (autoAssign st adminId).1 := by
  rcases autoAssign_state_cases st adminId h.1 with hc | hc
  · rw [hc]; exact h
  · rw [hc]
    refine ⟨h.1, ?_⟩
    intro a ha
    have hmem : a.teamId ∈ (roundRobin (approvedEvaluators st) adminId 0 (teams st)).map
        (fun a => a.teamId) := List.mem_map.2 ⟨a, ha, rfl⟩
    rw [roundRobin_teamIds] at hmem
    obtain ⟨t, ht, hid⟩ := List.mem_map.1 hmem
    have ht2 := List.mem_filter.1 ht
    exact ⟨t, ht2.1, hid, by simpa using ht2.2⟩

theorem storeInvariant_manualAssign (st : State) (teamId : Id) (ids : List Id) (adminId : Id)
    (h : storeInvariant st) : storeInvariant (manualAssign st teamId ids adminId).1 := by
  rcases manualAssign_state_cases st teamId ids adminId with hc | ⟨⟨team, hteam, hrole⟩, hc⟩
  · rw [hc]; exact h
  · rw [hc]
    refine ⟨h.1, ?_⟩
    intro a ha
    rcases List.mem_append.1 ha with h1 | h1
    · exact h.2 a h1
    · simp only [List.mem_singleton] at h1
      subst h1
      have hmem : team ∈ st.users := List.mem_of_find?_eq_some hteam
      have hid : team.id = teamId := by simpa using List.find?_some hteam
      exact ⟨team, hmem, hid, hrole⟩

theorem storeInvariant_approveEvaluator (st : State) (evaluatorId : Id)
    (approved : Option Bool) (h : storeInvariant st) :
    storeInvariant (approveEvaluator st evaluatorId approved).1 := by
  unfold approveEvaluator
  cases approved with
  | none => exact h
  | some approved =>
    dsimp only
    cases hfind : findUserById st evaluatorId with
    | none => exact h
    | some evaluator =>
      dsimp only
      by_cases h1 : evaluator.role ≠ Role.evaluator
      · rw [if_pos h1]; exact h
      · rw [if_neg h1]
        by_cases h2 : evaluator.approved = approved
        · rw [if_pos h2]; exact h
        · rw [if_neg h2]
          by_cases h3 : approved = true
          · rw [if_pos h3]
            refine ⟨?_, ?_⟩
            · show ((updateFirst _ _ st.users).map (fun u => u.id)).Nodup
              rw [updateFirst_map_id (fun u => decide (u.id = evaluatorId))
                (fun u => { u with approved := true }) (fun _ => rfl)]
              exact h.1
            · intro a ha
              exact exists_updateFirst (fun u => decide (u.id = evaluatorId))
                (fun u => { u with approved := true }) (fun _ => ⟨rfl, rfl⟩) _ _ _ (h.2 a ha)
          · rw [if_neg h3]
            refine ⟨erase_ids_nodup _ h.1 _, ?_⟩
            intro a ha
            exact team_survives_erase st.users h.1 evaluatorId evaluator hfind
              (by rw [not_not.1 h1]; decide) a.teamId (h.2 a ha)

theorem storeInvariant_deleteUser (st : State) (userId : Id) (h : storeInvariant st) :
    storeInvariant (deleteUser st userId).1 := by
  unfold deleteUser
  cases hfind : findUserById st userId with
  | none => exact h
  | some user =>
    dsimp only
    by_cases hadmin : user.role = Role.admin
    · rw [if_pos hadmin]; exact h
    · rw [if_neg hadmin]
      refine ⟨erase_ids_nodup _ h.1 _, ?_⟩
      intro a ha
      by_cases hteam : user.role = Role.team
      · have hne : ¬ user.role = Role.evaluator := by rw [hteam]; decide
        simp only [if_neg hne, if_pos hteam] at ha
        obtain ⟨ha1, ha2⟩ := List.mem_filter.1 ha
        obtain ⟨u, hu, hid, hr⟩ := h.2 a ha1
        have hneq : ¬ (decide (u.id = userId) = true) := by
          simp only [decide_eq_true_eq, hid]
          simpa using ha2
        exact ⟨u, (List.mem_eraseP_of_neg (p := fun u => decide (u.id = userId)) (a := u)
          hneq).2 hu, hid, hr⟩
      · simp only [if_neg hteam] at ha
        have hex : ∃ a0 ∈ st.assignments, a.teamId = a0.teamId := by
          by_cases hev : user.role = Role.evaluator
          · simp only [if_pos hev] at ha
            obtain ⟨a0, ha0, hEq⟩ := List.mem_map.1 ha
            refine ⟨a0, ha0, ?_⟩
            rw [← hEq]
            split_ifs <;> rfl
          · simp only [if_neg hev] at ha
            exact ⟨a, ha, rfl⟩
        obtain ⟨a0, ha0, hEq⟩ := hex
        rw [hEq]
        exact team_survives_erase st.users h.1 userId user hfind hteam a0.teamId (h.2 a0 ha0)

/-- On every reachable store the user ids are pairwise distinct and the team
of every Assignment is an existing user with role team. -/
theorem reachable_storeInvariant (st : State) (h : Reachable st) : storeInvariant st := by
  induction h with
  | empty =>
    exact ⟨List.nodup_nil, fun a ha => absurd ha (List.not_mem_nil a)⟩
  | seedAdmin st newId _ hfresh ih => exact storeInvariant_seedAdmin st newId ih hfresh
  | register st newId body schemaOk _ hfresh ih =>
    exact storeInvariant_register st newId body schemaOk ih hfresh
  | saveSubmission st teamId videoUrl urlOk newId _ _ _ ih =>
    exact storeInvariant_congr st _ (saveSubmission_users st teamId videoUrl urlOk newId).1
      (saveSubmission_users st teamId videoUrl urlOk newId).2 ih
  | autoAssign st adminId _ _ ih => exact storeInvariant_autoAssign st adminId ih
  | manualAssign st teamId ids adminId _ _ ih =>
    exact storeInvariant_manualAssign st teamId ids adminId ih
  | submitEvaluation st evaluatorId teamId body _ _ ih =>
    exact storeInvariant_congr st _ (submitEvaluation_users st evaluatorId teamId body).1
      (submitEvaluation_users st evaluatorId teamId body).2 ih
  | approveEvaluator st _ evaluatorId approved _ _ ih =>
    exact storeInvariant_approveEvaluator st evaluatorId approved ih
  | deleteUser st _ userId _ _ ih => exact storeInvariant_deleteUser st userId ih

/-! ## Theorems: submitEvaluation -/

theorem mem_requiredCriteria (c : Criterion) : c ∈ requiredCriteria := by
  cases c <;> simp [requiredCriteria]

theorem readCriterion_isSome_iff (scores : ScoresBody) (c : Criterion) :
    (∃ entry, readCriterion scores c = some entry) ↔ criterionMissing scores c = false := by
  unfold readCriterion criterionMissing
  cases scores.get c with
  | none => simp
  | some entry =>
    cases hq : entry.score with
    | none => simp [hq]
    | some q => simp [hq]

theorem find_missing_none_iff (scores : ScoresBody) :
    requiredCriteria.find? (criterionMissing scores) = none ↔
      ∀ c, criterionMissing scores c = false := by
  rw [List.find?_eq_none]
  constructor
  · intro h c
    simpa using h c (mem_requiredCriteria c)
  · intro h c _
    simp [h c]

theorem buildScores_get (scores : ScoresBody) (doc : Scores)
    (h : buildScores scores = some doc) (c : Criterion) :
    readCriterion scores c = some (doc.get c) := by
  unfold buildScores at h
  simp only [Option.bind_eq_bind, Option.bind_eq_some, Option.pure_def, Option.some.injEq] at h
  obtain ⟨a1, h1, a2, h2, a3, h3, a4, h4, a5, h5, a6, h6, a7, h7, a8, h8, a9, h9, a10, h10,
    hd⟩ := h
  subst hd
  cases c <;> simp only [Scores.get] <;> assumption

theorem buildScores_some (scores : ScoresBody)
    (h : ∀ c, criterionMissing scores c = false) : ∃ doc, buildScores scores = some doc := by
  have hr := fun c => (readCriterion_isSome_iff scores c).2 (h c)
  obtain ⟨a1, h1⟩ := hr Criterion.relevanceToLearning
  obtain ⟨a2, h2⟩ := hr Criterion.innovationCreativity
  obtain ⟨a3, h3⟩ := hr Criterion.clarityAccessibility
  obtain ⟨a4, h4⟩ := hr Criterion.depth
  obtain ⟨a5, h5⟩ := hr Criterion.interactivityEngagement
  obtain ⟨a6, h6⟩ := hr Criterion.useOfTechnology
  obtain ⟨a7, h7⟩ := hr Criterion.scalabilityAdaptability
  obtain ⟨a8, h8⟩ := hr Criterion.ethicalStandards
  obtain ⟨a9, h9⟩ := hr Criterion.practicalApplication
  obtain ⟨a10, h10⟩ := hr Criterion.videoQuality
  exact ⟨⟨a1, a2, a3, a4, a5, a6, a7, a8, a9, a10⟩, by
    simp [buildScores, h1, h2, h3, h4, h5, h6, h7, h8, h9, h10]⟩

/-- A whole number up to 1000 is a double. -/
theorem toDouble_whole : ∀ n : Fin 1001, toDouble ((n : ℕ) : ℚ) = ((n : ℕ) : ℚ) := by
  decide!

theorem toDouble_natCast (n : ℕ) (h : n ≤ 1000) : toDouble (n : ℚ) = (n : ℚ) :=
  toDouble_whole ⟨n, by omega⟩

/-- The operator `+` is exact on whole numbers whose sum is at most 1000. -/
theorem jsAdd_natCast (a b : ℕ) (h : a + b ≤ 1000) :
    jsAdd (a : ℚ) (b : ℚ) = ((a + b : ℕ) : ℚ) := by
  unfold jsAdd
  rw [toDouble_natCast a (by omega), toDouble_natCast b (by omega), ← Nat.cast_add,
    toDouble_natCast _ h]

/-- The hook adds whole scores of at most 100 each without rounding. -/
theorem preSaveTotal_whole (doc : Scores)
    (h : ∀ c, ∃ n : ℕ, n ≤ 100 ∧ (doc.get c).score = (n : ℚ)) :
    preSaveTotal doc = (requiredCriteria.map (fun c => (doc.get c).score)).sum := by
  obtain ⟨n1, b1, h1⟩ := h Criterion.relevanceToLearning
  obtain ⟨n2, b2, h2⟩ := h Criterion.innovationCreativity
  obtain ⟨n3, b3, h3⟩ := h Criterion.clarityAccessibility
  obtain ⟨n4, b4, h4⟩ := h Criterion.depth
  obtain ⟨n5, b5, h5⟩ := h Criterion.interactivityEngagement
  obtain ⟨n6, b6, h6⟩ := h Criterion.useOfTechnology
  obtain ⟨n7, b7, h7⟩ := h Criterion.scalabilityAdaptability
  obtain ⟨n8, b8, h8⟩ := h Criterion.ethicalStandards
  obtain ⟨n9, b9, h9⟩ := h Criterion.practicalApplication
  obtain ⟨n10, b10, h10⟩ := h Criterion.videoQuality
  simp only [Scores.get] at h1 h2 h3 h4 h5 h6 h7 h8 h9 h10
  simp only [preSaveTotal, requiredCriteria, Scores.get, List.map_cons, List.map_nil,
    List.sum_cons, List.sum_nil, h1, h2, h3, h4, h5, h6, h7, h8, h9, h10]
  rw [jsAdd_natCast _ _ (by omega), jsAdd_natCast _ _ (by omega),
    jsAdd_natCast _ _ (by omega), jsAdd_natCast _ _ (by omega),
    jsAdd_natCast _ _ (by omega), jsAdd_natCast _ _ (by omega),
    jsAdd_natCast _ _ (by omega), jsAdd_natCast _ _ (by omega),
    jsAdd_natCast _ _ (by omega)]
  push_cast
  ring

/-- The writes of `recordEvaluation`: the Evaluation is appended whatever
`submission.save()` answers, and a 201 response carries its total. -/
theorem recordEvaluation_appends (st : State) (evaluatorId teamId : Id)
    (submission : Submission) (doc : Scores) :
    (recordEvaluation st evaluatorId teamId submission doc).1.evaluations =
      st.evaluations ++ [⟨evaluatorId, teamId, submission.id, doc, preSaveTotal doc⟩] ∧
    ∀ r, (recordEvaluation st evaluatorId teamId submission doc).2 = Except.ok r →
      r.totalScore = preSaveTotal doc := by
  unfold recordEvaluation
  dsimp only
  constructor
  · split_ifs <;> rfl
  · intro r hr
    split_ifs at hr <;> (cases hr; rfl)

theorem submittedStore_reachable : Reachable submittedStore :=
  Reachable.saveSubmission runStore 5 "https://video.example/a" true 9 runStore_reachable
    (by decide) (by decide)

theorem maxBody_inRange : scoresInRange maxBody := by
  intro c
  refine ⟨c.maxScore, rfl, ?_, le_refl _⟩
  cases c <;> norm_num [Criterion.maxScore]

theorem tenthsBody_inRange : scoresInRange tenthsBody := by
  intro c
  cases c <;>
    first
    | exact ⟨1 / 10, rfl, by norm_num, by norm_num [Criterion.maxScore]⟩
    | exact ⟨2 / 10, rfl, by norm_num, by norm_num [Criterion.maxScore]⟩
    | exact ⟨0, rfl, le_refl _, by norm_num [Criterion.maxScore]⟩

theorem fineBody_inRange : scoresInRange fineBody := by
  intro c
  cases c <;>
    first
    | exact ⟨155 / 1000, rfl, by norm_num, by norm_num [Criterion.maxScore]⟩
    | exact ⟨_, rfl, by norm_num [Criterion.maxScore], le_refl _⟩

/-- C8 (counterexample). In a reachable store the assigned evaluator 1 sends
team 5 the scores 0.1 for relevanceToLearning, 0.2 for innovationCreativity
and 0 for the other eight criteria, all within range.  The Evaluation is
stored with totalScore 0.30000000000000004 (the double
1351079888211149 / 2 ^ 52), which is not the sum 0.3 of the ten sub-scores, nor
the exact sum of the doubles nearest to them. -/
theorem submitEvaluation_total_not_exact :
    Reachable submittedStore ∧ authorized submittedStore Role.evaluator 1 ∧
    scoresInRange tenthsBody ∧
    (submitEvaluation submittedStore 1 5 tenthsBody).2 =
      Except.ok ⟨5, 1351079888211149 / 4503599627370496, 1, none⟩ ∧
    (submitEvaluation submittedStore 1 5 tenthsBody).1.evaluations.map
        (fun e => (e.totalScore,
          (requiredCriteria.map (fun c => (e.scores.get c).score)).sum,
          (requiredCriteria.map (fun c => toDouble (e.scores.get c).score)).sum)) =
      [(1351079888211149 / 4503599627370496, 3 / 10,
        10808639105689191 / 36028797018963968)] ∧
    (1351079888211149 / 4503599627370496 : ℚ) ≠ 3 / 10 ∧
    (1351079888211149 / 4503599627370496 : ℚ) ≠ 10808639105689191 / 36028797018963968 :=
  ⟨submittedStore_reachable, by decide, tenthsBody_inRange, by decide!, by decide!,
    by norm_num, by norm_num⟩

/-- C8 (amended). A call of submitEvaluation either leaves the store as it was
(with an error), or appends exactly one Evaluation whose sub-scores are the
scores of the request and whose totalScore is the total of the pre-save hook:
the ten sub-scores added from left to right in double arithmetic.  That total
is their exact sum when every sub-score is a whole number of at most 100, and a
201 response reports it.  The outcome does not depend on a totalScore the
caller put in the body or inside scores. -/
theorem submitEvaluation_total_is_double_sum (st : State) (evaluatorId teamId : Id)
    (body : EvaluationBody) :
    (((submitEvaluation st evaluatorId teamId body).1 = st ∧
        ∃ err, (submitEvaluation st evaluatorId teamId body).2 = Except.error err) ∨
      ∃ e, (submitEvaluation st evaluatorId teamId body).1.evaluations = st.evaluations ++ [e] ∧
        e.totalScore = preSaveTotal e.scores ∧
        ((∀ c, ∃ n : ℕ, n ≤ 100 ∧ (e.scores.get c).score = (n : ℚ)) →
          e.totalScore = (requiredCriteria.map (fun c => (e.scores.get c).score)).sum) ∧
        (∀ c, requestScore body c = some (e.scores.get c).score) ∧
        ∀ r, (submitEvaluation st evaluatorId teamId body).2 = Except.ok r →
          r.totalScore = e.totalScore) ∧
    (∀ t1 t2 : Option ℚ,
      submitEvaluation st evaluatorId teamId
        ⟨body.scores.map (fun s => ⟨s.get, t1⟩), t2⟩ =
      submitEvaluation st evaluatorId teamId body) := by
  constructor
  · unfold submitEvaluation
    cases hs : body.scores with
    | none => left; exact ⟨rfl, _, rfl⟩
    | some scores =>
      dsimp only
      cases ha : st.assignments.find? (fun a => decide (a.teamId = teamId) &&
          decide (evaluatorId ∈ a.evaluatorIds) && decide (a.status = Status.active)) with
      | none => left; exact ⟨rfl, _, rfl⟩
      | some a =>
        dsimp only
        cases ht : st.users.find? (fun u => decide (u.id = teamId) &&
            decide (u.role = Role.team)) with
        | none => left; exact ⟨rfl, _, rfl⟩
        | some u =>
          dsimp only
          cases hsub : st.submissions.find? (fun s => decide (s.teamId = teamId)) with
          | none => left; exact ⟨rfl, _, rfl⟩
          | some submission =>
            dsimp only
            by_cases hd : st.evaluations.any (fun e => decide (e.evaluatorId = evaluatorId) &&
                decide (e.teamId = teamId)) = true
            · rw [if_pos hd]; left; exact ⟨rfl, _, rfl⟩
            · rw [if_neg hd]
              cases hm : requiredCriteria.find? (criterionMissing scores) with
              | some c => left; exact ⟨rfl, _, rfl⟩
              | none =>
                dsimp only
                cases hb : buildScores scores with
                | none => left; exact ⟨rfl, _, rfl⟩
                | some doc =>
                  dsimp only
                  have hv := recordEvaluation_appends st evaluatorId teamId submission doc
                  right
                  refine ⟨⟨evaluatorId, teamId, submission.id, doc, preSaveTotal doc⟩,
                    hv.1, rfl, fun hw => preSaveTotal_whole doc hw, ?_, hv.2⟩
                  intro c
                  simp only [requestScore, hs, buildScores_get scores doc hb c, Option.map_some']
  · intro t1 t2
    cases body with
    | mk scores ts =>
      cases scores with
      | none => rfl
      | some s => rfl

theorem maxScore_whole (c : Criterion) : ∃ n : ℕ, n ≤ 100 ∧ c.maxScore = (n : ℚ) := by
  cases c
  · exact ⟨5, by norm_num, by norm_num [Criterion.maxScore]⟩
  · exact ⟨15, by norm_num, by norm_num [Criterion.maxScore]⟩
  · exact ⟨10, by norm_num, by norm_num [Criterion.maxScore]⟩
  · exact ⟨5, by norm_num, by norm_num [Criterion.maxScore]⟩
  · exact ⟨25, by norm_num, by norm_num [Criterion.maxScore]⟩
  · exact ⟨5, by norm_num, by norm_num [Criterion.maxScore]⟩
  · exact ⟨10, by norm_num, by norm_num [Criterion.maxScore]⟩
  · exact ⟨5, by norm_num, by norm_num [Criterion.maxScore]⟩
  · exact ⟨10, by norm_num, by norm_num [Criterion.maxScore]⟩
  · exact ⟨10, by norm_num, by norm_num [Criterion.maxScore]⟩

theorem submitEvaluation_total_is_double_sum_witness :
    ∃ e, (submitEvaluation submittedStore 1 5 maxBody).1.evaluations =
        submittedStore.evaluations ++ [e] ∧
      e.totalScore = (requiredCriteria.map (fun c => (e.scores.get c).score)).sum ∧
      (submitEvaluation submittedStore 1 5 maxBody).2 = Except.ok ⟨5, 100, 1, none⟩ := by
  rcases (submitEvaluation_total_is_double_sum submittedStore 1 5 maxBody).1 with
    ⟨h, -⟩ | ⟨e, he, -, hw, hreq, -⟩
  · exact absurd h (by decide!)
  · refine ⟨e, he, hw ?_, by decide!⟩
    intro c
    have h1 := hreq c
    have h2 : requestScore maxBody c = some c.maxScore := rfl
    rw [h2] at h1
    simp only [Option.some.injEq] at h1
    rw [← h1]
    exact maxScore_whole c

theorem find_assignment_of_assignedTo (st : State) (evaluatorId teamId : Id)
    (h : assignedTo st evaluatorId teamId) :
    ∃ a, st.assignments.find? (fun a => decide (a.teamId = teamId) &&
      decide (evaluatorId ∈ a.evaluatorIds) && decide (a.status = Status.active)) = some a ∧
      a ∈ st.assignments ∧ a.teamId = teamId := by
  obtain ⟨a, ha, h1, h2, h3⟩ := h
  cases hf : st.assignments.find? (fun a => decide (a.teamId = teamId) &&
      decide (evaluatorId ∈ a.evaluatorIds) && decide (a.status = Status.active)) with
  | none =>
    have := List.find?_eq_none.1 hf a ha
    simp [h1, h2, h3] at this
  | some b =>
    have hb := List.find?_some hf
    simp only [Bool.and_eq_true, decide_eq_true_eq] at hb
    exact ⟨b, rfl, List.mem_of_find?_eq_some hf, hb.1.1⟩

theorem find_assignment_none (st : State) (evaluatorId teamId : Id)
    (h : ¬ assignedTo st evaluatorId teamId) :
    st.assignments.find? (fun a => decide (a.teamId = teamId) &&
      decide (evaluatorId ∈ a.evaluatorIds) && decide (a.status = Status.active)) = none := by
  rw [List.find?_eq_none]
  intro a ha hp
  simp only [Bool.and_eq_true, decide_eq_true_eq] at hp
  exact h ⟨a, ha, hp.1.1, hp.1.2, hp.2⟩

theorem find_team_of_invariant (st : State) (evaluatorId teamId : Id)
    (hI : storeInvariant st) (h : assignedTo st evaluatorId teamId) :
    ∃ u, st.users.find? (fun u => decide (u.id = teamId) && decide (u.role = Role.team)) =
      some u := by
  obtain ⟨a, ha, h1, -, -⟩ := h
  obtain ⟨u, hu, hid, hr⟩ := hI.2 a ha
  cases hf : st.users.find? (fun u => decide (u.id = teamId) && decide (u.role = Role.team)) with
  | none =>
    have := List.find?_eq_none.1 hf u hu
    simp [hid, h1, hr] at this
  | some v => exact ⟨v, rfl⟩

theorem find_submission_iff (st : State) (teamId : Id) :
    hasSubmission st teamId ↔
      ∃ s, st.submissions.find? (fun s => decide (s.teamId = teamId)) = some s := by
  constructor
  · rintro ⟨s, hs, hid⟩
    cases hf : st.submissions.find? (fun s => decide (s.teamId = teamId)) with
    | none =>
      have := List.find?_eq_none.1 hf s hs
      simp [hid] at this
    | some v => exact ⟨v, rfl⟩
  · rintro ⟨s, hs⟩
    exact ⟨s, List.mem_of_find?_eq_some hs, by simpa using List.find?_some hs⟩

theorem any_duplicate_iff (st : State) (evaluatorId teamId : Id) :
    st.evaluations.any (fun e => decide (e.evaluatorId = evaluatorId) &&
      decide (e.teamId = teamId)) = true ↔ alreadyEvaluated st evaluatorId teamId := by
  simp [alreadyEvaluated, List.any_eq_true]

/-- The handler after its first four checks have passed. -/
theorem submitEvaluation_past_checks (st : State) (evaluatorId teamId : Id)
    (body : EvaluationBody) (scores : ScoresBody) (hs : body.scores = some scores)
    (hI : storeInvariant st) (hA : assignedTo st evaluatorId teamId)
    (hS : hasSubmission st teamId) (hD : ¬ alreadyEvaluated st evaluatorId teamId) :
    ∃ submission,
      st.submissions.find? (fun s => decide (s.teamId = teamId)) = some submission ∧
      submitEvaluation st evaluatorId teamId body =
        match requiredCriteria.find? (criterionMissing scores) with
        | some criterion =>
          (st, Except.error
            ⟨400, "MISSING_CRITERION", "Score for " ++ criterion.key ++ " is required"⟩)
        | none =>
          match buildScores scores with
          | none => (st, Except.error ⟨500, "EVALUATION_ERROR", "Failed to submit evaluation"⟩)
          | some doc => recordEvaluation st evaluatorId teamId submission doc := by
  obtain ⟨a, ha, -, -⟩ := find_assignment_of_assignedTo st evaluatorId teamId hA
  obtain ⟨u, hu⟩ := find_team_of_invariant st evaluatorId teamId hI hA
  obtain ⟨submission, hsub⟩ := (find_submission_iff st teamId).1 hS
  have hd : ¬ (st.evaluations.any (fun e => decide (e.evaluatorId = evaluatorId) &&
      decide (e.teamId = teamId)) = true) := fun h => hD ((any_duplicate_iff _ _ _).1 h)
  refine ⟨submission, hsub, ?_⟩
  unfold submitEvaluation
  simp only [hs, ha, hu, hsub, if_neg hd]

theorem not_scoresInRange_of_missing (body : EvaluationBody) (c : Criterion)
    (h : requestScore body c = none) : ¬ scoresInRange body := by
  intro hr
  obtain ⟨q, hq, -⟩ := hr c
  rw [h] at hq
  cases hq

/-- The two outcomes of `submitEvaluation` once assignment, team, submission
and no-duplicate checks pass: a rejection with status 400 and the store
unchanged when some criterion lacks a numeric score, or the writes of
`recordEvaluation` on the document holding the scores of the request. -/
theorem submitEvaluation_gate_cases (st : State) (evaluatorId teamId : Id)
    (body : EvaluationBody) (hI : storeInvariant st) (hA : assignedTo st evaluatorId teamId)
    (hS : hasSubmission st teamId) (hD : ¬ alreadyEvaluated st evaluatorId teamId) :
    ((∃ c, requestScore body c = none) ∧
      ∃ err, submitEvaluation st evaluatorId teamId body = (st, Except.error err) ∧
        err.status = 400 ∧ (body.scores ≠ none → err.code = "MISSING_CRITERION")) ∨
    ((∀ c, ∃ q, requestScore body c = some q) ∧
      ∃ submission doc,
        st.submissions.find? (fun s => decide (s.teamId = teamId)) = some submission ∧
        (∀ c, requestScore body c = some (doc.get c).score) ∧
        submitEvaluation st evaluatorId teamId body =
          recordEvaluation st evaluatorId teamId submission doc) := by
  cases hs : body.scores with
  | none =>
    left
    have hnone : requestScore body Criterion.relevanceToLearning = none := by
      simp [requestScore, hs]
    refine ⟨⟨_, hnone⟩, ⟨400, "MISSING_SCORES", "Scores are required"⟩, ?_, rfl,
      fun h => absurd rfl h⟩
    unfold submitEvaluation
    simp only [hs]
  | some scores =>
    obtain ⟨submission, hfind, heq⟩ :=
      submitEvaluation_past_checks st evaluatorId teamId body scores hs hI hA hS hD
    cases hm : requiredCriteria.find? (criterionMissing scores) with
    | some c0 =>
      left
      have hmiss : criterionMissing scores c0 = true := List.find?_some hm
      have hnone : requestScore body c0 = none := by
        cases hr : readCriterion scores c0 with
        | none => simp [requestScore, hs, hr]
        | some entry =>
          have := (readCriterion_isSome_iff scores c0).1 ⟨entry, hr⟩
          rw [hmiss] at this
          cases this
      refine ⟨⟨_, hnone⟩,
        ⟨400, "MISSING_CRITERION", "Score for " ++ c0.key ++ " is required"⟩, ?_, rfl,
        fun _ => rfl⟩
      rw [heq, hm]
    | none =>
      have hall := (find_missing_none_iff scores).1 hm
      obtain ⟨doc, hdoc⟩ := buildScores_some scores hall
      rw [hm, hdoc] at heq
      dsimp only at heq
      have hreq : ∀ c, requestScore body c = some (doc.get c).score := by
        intro c
        simp only [requestScore, hs, buildScores_get scores doc hdoc c, Option.map_some']
      right
      exact ⟨fun c => ⟨_, hreq c⟩, submission, doc, hfind, hreq, heq⟩

/-- C9 (the code at the failing input). In a reachable store the assigned
evaluator 1 sends team 5, which has a Submission and no Evaluation yet, the
score 6 for relevanceToLearning (maximum 5) and the maximum for every other
criterion.  The validator the schema declares for relevanceToLearning rejects
such an entry, with a message of its own, yet the request is answered 201: the
Evaluation is stored with the score 6 and totalScore 101, and the Submission
counter goes from 0 to 1. -/
theorem submitEvaluation_out_of_range_stored :
    Reachable submittedStore ∧ authorized submittedStore Role.evaluator 1 ∧
    assignedTo submittedStore 1 5 ∧ hasSubmission submittedStore 5 ∧
    ¬ alreadyEvaluated submittedStore 1 5 ∧
    requestScore sixBody Criterion.relevanceToLearning = some 6 ∧
    Criterion.relevanceToLearning.maxScore = 5 ∧
    criterionValidator Criterion.relevanceToLearning ⟨6, ""⟩ = false ∧
    Criterion.relevanceToLearning.validatorMessage =
      "Relevance to Learning score must be between 0 and 5" ∧
    submittedStore.submissions = [⟨9, 5, "https://video.example/a", 0, none⟩] ∧
    submittedStore.evaluations = [] ∧
    (submitEvaluation submittedStore 1 5 sixBody).2 = Except.ok ⟨5, 101, 1, none⟩ ∧
    (submitEvaluation submittedStore 1 5 sixBody).1.evaluations.map
        (fun e => (e.evaluatorId, e.teamId, e.scores.relevanceToLearning.score,
          failedCriteria e.scores, e.totalScore)) =
      [(1, 5, 6, [Criterion.relevanceToLearning], 101)] ∧
    (submitEvaluation submittedStore 1 5 sixBody).1.submissions =
      [⟨9, 5, "https://video.example/a", 1, none⟩] :=
  ⟨submittedStore_reachable, by decide, by decide, by decide, by decide, rfl, rfl,
    by decide!, rfl, by decide!, by decide!, by decide!, by decide!, by decide!⟩

theorem lateStore_reachable : Reachable lateStore :=
  Reachable.approveEvaluator _ 0 4 (some true)
    (Reachable.register submittedStore 4 (evaluatorBody "Edo" "edo@x.org") true
      submittedStore_reachable (by decide))
    (by decide)

/-- C10 (counterexample). In a reachable store, approved evaluator 4 is not
assigned to team 5 and sends a request without `scores`: the request violates
precondition (a) and precondition (d), and the failure reported is
MISSING_SCORES, not NOT_ASSIGNED. -/
theorem submitEvaluation_missing_scores_first :
    Reachable lateStore ∧ authorized lateStore Role.evaluator 4 ∧
    ¬ assignedTo lateStore 4 5 ∧ ¬ scoresInRange ⟨none, none⟩ ∧
    submitEvaluation lateStore 4 5 ⟨none, none⟩ =
      (lateStore, Except.error ⟨400, "MISSING_SCORES", "Scores are required"⟩) ∧
    "MISSING_SCORES" ≠ "NOT_ASSIGNED" :=
  ⟨lateStore_reachable, by decide, by decide,
    not_scoresInRange_of_missing _ Criterion.relevanceToLearning rfl, rfl, by decide⟩

/-- C10 (amended). On a reachable store submitEvaluation first rejects a
request without `scores` (MISSING_SCORES), whatever else it violates.  For a
request with `scores` it checks in order: (a) an active Assignment links
evaluator and team, else NOT_ASSIGNED; (b) the team has a Submission, else
NO_SUBMISSION; (c) no Evaluation exists for the pair, else
DUPLICATE_EVALUATION; (d) each of the ten criteria carries a numeric score,
else MISSING_CRITERION.  The failure reported is that of the earliest violated
check, the store is unchanged, and the codes are pairwise distinct. -/
theorem submitEvaluation_check_order (st : State) (evaluatorId teamId : Id)
    (body : EvaluationBody) (hR : Reachable st) :
    (body.scores = none →
      submitEvaluation st evaluatorId teamId body =
        (st, Except.error ⟨400, "MISSING_SCORES", "Scores are required"⟩)) ∧
    (body.scores ≠ none → ¬ assignedTo st evaluatorId teamId →
      submitEvaluation st evaluatorId teamId body =
        (st, Except.error
          ⟨403, "NOT_ASSIGNED", "You are not assigned to evaluate this team"⟩)) ∧
    (body.scores ≠ none → assignedTo st evaluatorId teamId → ¬ hasSubmission st teamId →
      submitEvaluation st evaluatorId teamId body =
        (st, Except.error
          ⟨400, "NO_SUBMISSION", "Team has not submitted their video yet"⟩)) ∧
    (body.scores ≠ none → assignedTo st evaluatorId teamId → hasSubmission st teamId →
      alreadyEvaluated st evaluatorId teamId →
      submitEvaluation st evaluatorId teamId body =
        (st, Except.error
          ⟨409, "DUPLICATE_EVALUATION", "You have already evaluated this team"⟩)) ∧
    (body.scores ≠ none → assignedTo st evaluatorId teamId → hasSubmission st teamId →
      ¬ alreadyEvaluated st evaluatorId teamId → (∃ c, requestScore body c = none) →
      ∃ err, submitEvaluation st evaluatorId teamId body = (st, Except.error err) ∧
        err.status = 400 ∧ err.code = "MISSING_CRITERION") ∧
    ["MISSING_SCORES", "NOT_ASSIGNED", "NO_SUBMISSION", "DUPLICATE_EVALUATION",
      "MISSING_CRITERION"].Nodup := by
  have hI := reachable_storeInvariant st hR
  refine ⟨?_, ?_, ?_, ?_, ?_, by decide⟩
  · intro hs
    unfold submitEvaluation
    simp only [hs]
  · intro hs hA
    obtain ⟨scores, hsc⟩ := Option.ne_none_iff_exists'.1 hs
    unfold submitEvaluation
    simp only [hsc, find_assignment_none st evaluatorId teamId hA]
  · intro hs hA hS
    obtain ⟨scores, hsc⟩ := Option.ne_none_iff_exists'.1 hs
    obtain ⟨a, ha, -, -⟩ := find_assignment_of_assignedTo st evaluatorId teamId hA
    obtain ⟨u, hu⟩ := find_team_of_invariant st evaluatorId teamId hI hA
    have hsub : st.submissions.find? (fun s => decide (s.teamId = teamId)) = none := by
      cases hf : st.submissions.find? (fun s => decide (s.teamId = teamId)) with
      | none => rfl
      | some s => exact absurd ((find_submission_iff st teamId).2 ⟨s, hf⟩) hS
    unfold submitEvaluation
    simp only [hsc, ha, hu, hsub]
  · intro hs hA hS hD
    obtain ⟨scores, hsc⟩ := Option.ne_none_iff_exists'.1 hs
    obtain ⟨a, ha, -, -⟩ := find_assignment_of_assignedTo st evaluatorId teamId hA
    obtain ⟨u, hu⟩ := find_team_of_invariant st evaluatorId teamId hI hA
    obtain ⟨s, hsub⟩ := (find_submission_iff st teamId).1 hS
    have hd := (any_duplicate_iff st evaluatorId teamId).2 hD
    unfold submitEvaluation
    simp only [hsc, ha, hu, hsub, if_pos hd]
  · intro hs hA hS hD hmiss
    rcases submitEvaluation_gate_cases st evaluatorId teamId body hI hA hS hD with
      ⟨-, err, herr, hstatus, hcode⟩ | ⟨hall, -⟩
    · exact ⟨err, herr, hstatus, hcode hs⟩
    · obtain ⟨c, hc⟩ := hmiss
      obtain ⟨q, hq⟩ := hall c
      rw [hc] at hq
      cases hq

theorem submitEvaluation_check_order_witness :
    maxBody.scores ≠ none ∧ ¬ assignedTo lateStore 4 5 ∧
    submitEvaluation lateStore 4 5 maxBody =
      (lateStore, Except.error
        ⟨403, "NOT_ASSIGNED", "You are not assigned to evaluate this team"⟩) :=
  ⟨by simp [maxBody], by decide,
    (submitEvaluation_check_order lateStore 4 5 maxBody lateStore_reachable).2.1
      (by simp [maxBody]) (by decide)⟩

/-! ## Theorems: the ledger invariant on reachable stores -/

theorem mem_updateFirst {α : Type} (p : α → Bool) (f : α → α) (l : List α) (s : α)
    (h : s ∈ updateFirst p f l) : s ∈ l ∨ ∃ x ∈ l, p x = true ∧ s = f x := by
  induction l with
  | nil => simp [updateFirst] at h
  | cons x xs ih =>
    by_cases hp : p x = true
    · simp only [updateFirst, hp, if_true, List.mem_cons] at h
      rcases h with h | h
      · exact Or.inr ⟨x, List.mem_cons_self _ _, hp, h⟩
      · exact Or.inl (List.mem_cons_of_mem _ h)
    · simp only [updateFirst, hp, Bool.false_eq_true, if_false, List.mem_cons] at h
      rcases h with h | h
      · exact Or.inl (h ▸ List.mem_cons_self _ _)
      · rcases ih h with h1 | ⟨y, hy, hpy, hs⟩
        · exact Or.inl (List.mem_cons_of_mem _ h1)
        · exact Or.inr ⟨y, List.mem_cons_of_mem _ hy, hpy, hs⟩

theorem updateFirst_map_key {α β : Type} (p : α → Bool) (f : α → α) (key : α → β)
    (l : List α) (h : ∀ x ∈ l, p x = true → key (f x) = key x) :
    (updateFirst p f l).map key = l.map key := by
  induction l with
  | nil => rfl
  | cons x xs ih =>
    by_cases hp : p x = true
    · simp [updateFirst, hp, h x (List.mem_cons_self _ _) hp]
    · simp [updateFirst, hp, ih (fun y hy => h y (List.mem_cons_of_mem _ hy))]

/-- With pairwise distinct team ids, replacing the Submission of a team
leaves every other Submission and touches no second one of that team. -/
theorem mem_updateFirst_team (l : List Submission) (t : Id) (y : Submission)
    (hnd : (l.map (fun s => s.teamId)).Nodup) (s : Submission)
    (h : s ∈ updateFirst (fun s => decide (s.teamId = t)) (fun _ => y) l) :
    s = y ∨ (s ∈ l ∧ s.teamId ≠ t) := by
  induction l with
  | nil => simp [updateFirst] at h
  | cons x xs ih =>
    simp only [List.map_cons, List.nodup_cons] at hnd
    by_cases hp : x.teamId = t
    · simp only [updateFirst, hp, decide_True, if_true, List.mem_cons] at h
      rcases h with h | h
      · exact Or.inl h
      · right
        refine ⟨List.mem_cons_of_mem _ h, ?_⟩
        intro hs
        exact hnd.1 (List.mem_map.2 ⟨s, h, by rw [hs, hp]⟩)
    · simp only [updateFirst, hp, decide_False, Bool.false_eq_true, if_false,
        List.mem_cons] at h
      rcases h with h | h
      · exact Or.inr ⟨h ▸ List.mem_cons_self _ _, h ▸ hp⟩
      · rcases ih hnd.2 h with h1 | ⟨h1, h2⟩
        · exact Or.inl h1
        · exact Or.inr ⟨List.mem_cons_of_mem _ h1, h2⟩

theorem find_updateFirst {α : Type} (p : α → Bool) (y x : α) (l : List α)
    (hf : l.find? p = some x) (hy : p y = true) :
    (updateFirst p (fun _ => y) l).find? p = some y := by
  induction l with
  | nil => simp at hf
  | cons z zs ih =>
    by_cases hp : p z = true
    · simp [updateFirst, hp, List.find?, hy]
    · have hp2 : p z = false := by simpa using hp
      simp only [List.find?, hp2] at hf
      simp [updateFirst, hp2, List.find?, ih hf]

theorem mem_updateFirst_const {α : Type} (p : α → Bool) (y x : α) (l : List α)
    (hf : l.find? p = some x) : y ∈ updateFirst p (fun _ => y) l := by
  induction l with
  | nil => simp at hf
  | cons z zs ih =>
    by_cases hp : p z = true
    · simp [updateFirst, hp]
    · have hp2 : p z = false := by simpa using hp
      simp only [List.find?, hp2] at hf
      simp [updateFirst, hp2, ih hf]

theorem not_mentioned_not_team (st : State) (newId : Id) (h : newId ∉ mentionedIds st)
    (e : Evaluation) (he : e ∈ st.evaluations) : e.teamId ≠ newId := by
  intro hEq
  apply h
  have hm : newId ∈ st.evaluations.map (fun e => e.teamId) :=
    List.mem_map.2 ⟨e, he, hEq⟩
  simp only [mentionedIds, List.mem_append]
  exact Or.inl (Or.inr hm)

theorem ledger_addUser (st : State) (u : User) (h : LedgerInvariant st)
    (hfresh : u.id ∉ mentionedIds st) (hname : u.name ≠ "") :
    LedgerInvariant { st with users := st.users ++ [u] } where
  assignmentTeams := h.assignmentTeams
  submissionTeams := h.submissionTeams
  pairs := h.pairs
  panel := h.panel
  assigned := by
    intro e he ⟨v, hv, hid⟩
    rcases List.mem_append.1 hv with h1 | h1
    · exact h.assigned e he ⟨v, h1, hid⟩
    · simp only [List.mem_singleton] at h1
      subst h1
      exact absurd hid.symm (not_mentioned_not_team st _ hfresh e he)
  submitted := h.submitted
  counter := h.counter
  scored := h.scored
  average := h.average
  bound := h.bound
  named := by
    intro v hv
    rcases List.mem_append.1 hv with h1 | h1
    · exact h.named v h1
    · simp only [List.mem_singleton] at h1
      subst h1
      exact hname

/-- The invariant survives a change of users and Assignments that adds no
user, no Assignment and no evaluator id, and keeps the Assignment of every
team that remains a user. -/
theorem ledger_prune (st : State) (users2 : List User) (assignments2 : List Assignment)
    (h : LedgerInvariant st)
    (hu : ∀ v ∈ users2, ∃ u ∈ st.users, v.id = u.id ∧ v.name = u.name)
    (hsub : List.Sublist (assignments2.map (fun a => a.teamId))
      (st.assignments.map (fun a => a.teamId)))
    (ha : ∀ b ∈ assignments2, ∃ a ∈ st.assignments,
      b.teamId = a.teamId ∧ ∀ i ∈ b.evaluatorIds, i ∈ a.evaluatorIds)
    (hk : ∀ a ∈ st.assignments, (∃ v ∈ users2, v.id = a.teamId) →
      ∃ b ∈ assignments2, b.teamId = a.teamId) :
    LedgerInvariant { st with users := users2, assignments := assignments2 } where
  assignmentTeams := List.Nodup.sublist hsub h.assignmentTeams
  submissionTeams := h.submissionTeams
  pairs := h.pairs
  panel := by
    intro b hb
    obtain ⟨a, ha1, hteam, hids⟩ := ha b hb
    obtain ⟨S, hS, hin, hev⟩ := h.panel a ha1
    refine ⟨S, hS, fun i hi => hin i (hids i hi), ?_⟩
    intro e he het
    exact hev e he (by rw [het, hteam])
  assigned := by
    intro e he ⟨v, hv, hid⟩
    obtain ⟨u, hu1, hid2, -⟩ := hu v hv
    obtain ⟨a, ha1, hteam⟩ := h.assigned e he ⟨u, hu1, by rw [← hid2, hid]⟩
    obtain ⟨b, hb, hb2⟩ := hk a ha1 ⟨v, hv, by rw [hid, hteam]⟩
    exact ⟨b, hb, by rw [hb2, hteam]⟩
  submitted := h.submitted
  counter := h.counter
  scored := h.scored
  average := h.average
  bound := h.bound
  named := by
    intro v hv
    obtain ⟨u, hu1, -, hname⟩ := hu v hv
    rw [hname]
    exact h.named u hu1

/-- The invariant survives new Assignments for existing users without one,
each of at most 3 evaluator ids. -/
theorem ledger_addAssignments (st : State) (new : List Assignment) (h : LedgerInvariant st)
    (hnd : ((st.assignments ++ new).map (fun a => a.teamId)).Nodup)
    (hnew : ∀ a ∈ new, a.evaluatorIds.length ≤ 3 ∧ ∃ u ∈ st.users, u.id = a.teamId) :
    LedgerInvariant { st with assignments := st.assignments ++ new } where
  assignmentTeams := hnd
  submissionTeams := h.submissionTeams
  pairs := h.pairs
  panel := by
    intro a ha
    rcases List.mem_append.1 ha with h1 | h1
    · exact h.panel a h1
    · obtain ⟨hlen, u, hu, hid⟩ := hnew a h1
      refine ⟨a.evaluatorIds, hlen, fun i hi => hi, ?_⟩
      intro e he het
      exfalso
      obtain ⟨b, hb, hbt⟩ := h.assigned e he ⟨u, hu, by rw [hid, het]⟩
      rw [List.map_append, List.nodup_append] at hnd
      exact hnd.2.2 (List.mem_map.2 ⟨b, hb, rfl⟩)
        (List.mem_map.2 ⟨a, h1, by rw [hbt, het]⟩)
  assigned := by
    intro e he hu
    obtain ⟨a, ha, hteam⟩ := h.assigned e he hu
    exact ⟨a, List.mem_append_left _ ha, hteam⟩
  submitted := h.submitted
  counter := h.counter
  scored := h.scored
  average := h.average
  bound := h.bound
  named := h.named

theorem ledger_seedAdmin (st : State) (newId : Id) (h : LedgerInvariant st)
    (hfresh : newId ∉ mentionedIds st) : LedgerInvariant (seedAdmin st newId) := by
  unfold seedAdmin
  split_ifs
  · exact h
  · exact ledger_addUser st _ h hfresh (by show "System Administrator" ≠ ""; decide)

theorem ledger_register (st : State) (newId : Id) (body : RegisterBody) (schemaOk : Bool)
    (h : LedgerInvariant st) (hfresh : newId ∉ mentionedIds st) :
    LedgerInvariant (register st newId body schemaOk).1 := by
  unfold register
  cases hrole : body.role with
  | none => exact h
  | some role =>
    dsimp only
    by_cases h1 : body.name = "" ∨ body.email = "" ∨ body.password = ""
    · rw [if_pos h1]; exact h
    · rw [if_neg h1]
      have hname : body.name ≠ "" := fun hn => h1 (Or.inl hn)
      split_ifs
      all_goals first
        | exact h
        | exact ledger_addUser st _ h hfresh hname

theorem erase_id_ne (l : List User) (hnd : (l.map (fun u => u.id)).Nodup) (x : Id)
    (v : User) (hv : v ∈ l.eraseP (fun u => decide (u.id = x))) : v.id ≠ x := by
  induction l with
  | nil => simp at hv
  | cons z zs ih =>
    simp only [List.map_cons, List.nodup_cons] at hnd
    by_cases hz : z.id = x
    · have he : (z :: zs).eraseP (fun u => decide (u.id = x)) = zs := by
        simp [List.eraseP_cons, hz]
      rw [he] at hv
      intro hvx
      exact hnd.1 (List.mem_map.2 ⟨v, hv, by rw [hvx, hz]⟩)
    · have he : (z :: zs).eraseP (fun u => decide (u.id = x)) =
          z :: zs.eraseP (fun u => decide (u.id = x)) := by
        simp [List.eraseP_cons, hz]
      rw [he] at hv
      rcases List.mem_cons.1 hv with h1 | h1
      · rw [h1]; exact hz
      · exact ih hnd.2 h1

theorem ledger_approveEvaluator (st : State) (evaluatorId : Id) (approved : Option Bool)
    (h : LedgerInvariant st) : LedgerInvariant (approveEvaluator st evaluatorId approved).1 := by
  have hkeep : ∀ a ∈ st.assignments,
      List.Sublist (st.assignments.map (fun a => a.teamId))
        (st.assignments.map (fun a => a.teamId)) ∧
      ∃ b ∈ st.assignments, a.teamId = b.teamId ∧ ∀ i ∈ a.evaluatorIds, i ∈ b.evaluatorIds :=
    fun a ha => ⟨List.Sublist.refl _, a, ha, rfl, fun i hi => hi⟩
  unfold approveEvaluator
  cases approved with
  | none => exact h
  | some approved =>
    dsimp only
    cases hfind : findUserById st evaluatorId with
    | none => exact h
    | some evaluator =>
      dsimp only
      by_cases h1 : evaluator.role ≠ Role.evaluator
      · rw [if_pos h1]; exact h
      · rw [if_neg h1]
        by_cases h2 : evaluator.approved = approved
        · rw [if_pos h2]; exact h
        · rw [if_neg h2]
          by_cases h3 : approved = true
          · rw [if_pos h3]
            refine ledger_prune st _ st.assignments h ?_ (List.Sublist.refl _)
              (fun a ha => (hkeep a ha).2) ?_
            · intro v hv
              rcases mem_updateFirst _ _ _ _ hv with hv1 | ⟨u, hu, -, hvu⟩
              · exact ⟨v, hv1, rfl, rfl⟩
              · exact ⟨u, hu, by rw [hvu], by rw [hvu]⟩
            · intro a ha _
              exact ⟨a, ha, rfl⟩
          · rw [if_neg h3]
            refine ledger_prune st _ st.assignments h ?_ (List.Sublist.refl _)
              (fun a ha => (hkeep a ha).2) ?_
            · intro v hv
              exact ⟨v, List.mem_of_mem_eraseP hv, rfl, rfl⟩
            · intro a ha _
              exact ⟨a, ha, rfl⟩

/-- The Assignment `deleteUser` leaves of one that listed the deleted
evaluator. -/
theorem pull_teamId (userId : Id) (a : Assignment) :
    (if userId ∈ a.evaluatorIds then
        { a with evaluatorIds := a.evaluatorIds.filter (fun i => decide (i ≠ userId)) }
      else a).teamId = a.teamId ∧
    ∀ i ∈ (if userId ∈ a.evaluatorIds then
        { a with evaluatorIds := a.evaluatorIds.filter (fun i => decide (i ≠ userId)) }
      else a).evaluatorIds, i ∈ a.evaluatorIds := by
  split_ifs
  · exact ⟨rfl, fun i hi => (List.mem_filter.1 hi).1⟩
  · exact ⟨rfl, fun i hi => hi⟩

theorem ledger_deleteUser (st : State) (userId : Id) (hS : storeInvariant st)
    (h : LedgerInvariant st) : LedgerInvariant (deleteUser st userId).1 := by
  unfold deleteUser
  cases hfind : findUserById st userId with
  | none => exact h
  | some user =>
    dsimp only
    by_cases hadmin : user.role = Role.admin
    · rw [if_pos hadmin]; exact h
    · rw [if_neg hadmin]
      have hu : ∀ v ∈ st.users.eraseP (fun u => decide (u.id = userId)),
          ∃ u ∈ st.users, v.id = u.id ∧ v.name = u.name :=
        fun v hv => ⟨v, List.mem_of_mem_eraseP hv, rfl, rfl⟩
      have hne : ∀ a ∈ st.assignments,
          (∃ v ∈ st.users.eraseP (fun u => decide (u.id = userId)), v.id = a.teamId) →
          a.teamId ≠ userId := by
        rintro a - ⟨v, hv, hid⟩
        rw [← hid]
        exact erase_id_ne st.users hS.1 userId v hv
      have hmapEq : (st.assignments.map (fun a =>
          if userId ∈ a.evaluatorIds then
            { a with evaluatorIds := a.evaluatorIds.filter (fun i => decide (i ≠ userId)) }
          else a)).map (fun a => a.teamId) = st.assignments.map (fun a => a.teamId) := by
        rw [List.map_map]
        apply List.map_congr_left
        intro a _
        exact (pull_teamId userId a).1
      by_cases hteam : user.role = Role.team
      · have hnev : ¬ user.role = Role.evaluator := by rw [hteam]; decide
        simp only [if_neg hnev, if_pos hteam]
        refine ledger_prune st _ _ h hu (List.Sublist.map _ (List.filter_sublist _)) ?_ ?_
        · intro b hb
          exact ⟨b, (List.mem_filter.1 hb).1, rfl, fun i hi => hi⟩
        · intro a ha hex
          refine ⟨a, List.mem_filter.2 ⟨ha, ?_⟩, rfl⟩
          simpa using hne a ha hex
      · simp only [if_neg hteam]
        by_cases hev : user.role = Role.evaluator
        · simp only [if_pos hev]
          refine ledger_prune st _ _ h hu (by rw [hmapEq]) ?_ ?_
          · intro b hb
            obtain ⟨a, ha, hEq⟩ := List.mem_map.1 hb
            rw [← hEq]
            exact ⟨a, ha, (pull_teamId userId a).1, (pull_teamId userId a).2⟩
          · intro a ha _
            exact ⟨_, List.mem_map.2 ⟨a, ha, rfl⟩, (pull_teamId userId a).1⟩
        · simp only [if_neg hev]
          refine ledger_prune st _ _ h hu (List.Sublist.refl _) ?_ ?_
          · intro b hb
            exact ⟨b, hb, rfl, fun i hi => hi⟩
          · intro a ha _
            exact ⟨a, ha, rfl⟩

/-- The store after `autoAssign` on a store with pairwise distinct user ids:
unchanged, or the Assignments of the round-robin in a collection that was
empty. -/
theorem autoAssign_state_cases_empty (st : State) (adminId : Id) (hU : userIdsDistinct st) :
    (autoAssign st adminId).1 = st ∨
    (st.assignments = [] ∧ 3 ≤ (approvedEvaluators st).length ∧
      (autoAssign st adminId).1 =
        { st with assignments := roundRobin (approvedEvaluators st) adminId 0 (teams st) }) := by
  by_cases hE : (approvedEvaluators st).length < 3
  · left; simp [autoAssign, hE]
  · by_cases hT : (teams st).length = 0
    · left; simp [autoAssign, hE, hT]
    · by_cases hA : st.assignments.length > 0
      · left; simp [autoAssign, hE, hT, hA]
      · right
        refine ⟨List.length_eq_zero.1 (by omega), by omega, ?_⟩
        rw [autoAssign_success st adminId hU (by omega) hT (by omega)]

theorem ledger_autoAssign (st : State) (adminId : Id) (hS : storeInvariant st)
    (h : LedgerInvariant st) : LedgerInvariant (autoAssign st adminId).1 := by
  rcases autoAssign_state_cases_empty st adminId hS.1 with hc | ⟨hA, hE, hc⟩
  · rw [hc]; exact h
  · rw [hc]
    have hmain := ledger_addAssignments st
      (roundRobin (approvedEvaluators st) adminId 0 (teams st)) h
      (by
        rw [hA, List.nil_append, roundRobin_teamIds]
        exact teams_ids_nodup st hS.1)
      (by
        intro a ha
        obtain ⟨k, hk, -, -⟩ := roundRobin_mem _ _ _ _ a ha
        refine ⟨by rw [hk]; simp, ?_⟩
        have hmem : a.teamId ∈ (roundRobin (approvedEvaluators st) adminId 0 (teams st)).map
            (fun a => a.teamId) := List.mem_map.2 ⟨a, ha, rfl⟩
        rw [roundRobin_teamIds] at hmem
        obtain ⟨t, ht, hid⟩ := List.mem_map.1 hmem
        exact ⟨t, (List.mem_filter.1 ht).1, hid⟩)
    rw [hA, List.nil_append] at hmain
    exact hmain

/-- The store after `manualAssign`: unchanged, or one valid Assignment more
for an existing team that had none. -/
theorem manualAssign_state_cases_new (st : State) (teamId : Id) (ids : List Id)
    (adminId : Id) :
    (manualAssign st teamId ids adminId).1 = st ∨
    ((∃ team, findUserById st teamId = some team ∧ team.role = Role.team) ∧
      findAssignmentByTeam st teamId = none ∧ evaluatorIdsValidator ids = true ∧
      (manualAssign st teamId ids adminId).1 =
        { st with assignments := st.assignments ++ [⟨teamId, ids, adminId, Status.active⟩] }) := by
  by_cases hv : (validateAssignment st teamId ids).valid = true
  · obtain ⟨hteam, hno, hval⟩ := validateAssignment_valid st teamId ids hv
    unfold manualAssign
    simp only [hv, Bool.not_true, Bool.false_eq_true, if_false, hno, hval, if_true]
    split_ifs
    · left; rfl
    · right; exact ⟨hteam, trivial, trivial, rfl⟩
  · left
    unfold manualAssign
    simp [hv]

theorem ledger_manualAssign (st : State) (teamId : Id) (ids : List Id) (adminId : Id)
    (h : LedgerInvariant st) : LedgerInvariant (manualAssign st teamId ids adminId).1 := by
  rcases manualAssign_state_cases_new st teamId ids adminId with
    hc | ⟨⟨team, hteam, -⟩, hno, hval, hc⟩
  · rw [hc]; exact h
  · rw [hc]
    apply ledger_addAssignments st _ h
    · rw [List.map_append, List.nodup_append]
      refine ⟨h.assignmentTeams, List.nodup_singleton _, ?_⟩
      intro x hx hx2
      simp only [List.map_cons, List.map_nil, List.mem_singleton] at hx2
      obtain ⟨a, ha, hat⟩ := List.mem_map.1 hx
      have := List.find?_eq_none.1 hno a ha
      simp only [decide_eq_true_eq] at this
      exact this (by rw [hat, hx2])
    · intro a ha
      simp only [List.mem_singleton] at ha
      subst ha
      refine ⟨by rw [((evaluatorIdsValidator_iff ids).1 hval).1], team,
        List.mem_of_find?_eq_some hteam, ?_⟩
      simpa using List.find?_some hteam

theorem mem_updateFirst_of_not {α : Type} (p : α → Bool) (f : α → α) (l : List α) (s : α)
    (hs : s ∈ l) (hp : p s = false) : s ∈ updateFirst p f l := by
  induction l with
  | nil => simp at hs
  | cons x xs ih =>
    by_cases hx : p x = true
    · simp only [updateFirst, hx, if_true]
      rcases List.mem_cons.1 hs with h1 | h1
      · rw [h1, hx] at hp; cases hp
      · exact List.mem_cons_of_mem _ h1
    · simp only [updateFirst, hx, Bool.false_eq_true, if_false]
      rcases List.mem_cons.1 hs with h1 | h1
      · rw [h1]; exact List.mem_cons_self _ _
      · exact List.mem_cons_of_mem _ (ih h1)

/-- The store after `saveSubmission`: unchanged, or the video URL of the
Submission of the team replaced, or a new Submission with count 0 and no
average for a team that had none. -/
theorem saveSubmission_state_cases (st : State) (teamId : Id) (videoUrl : String)
    (urlOk : Bool) (newId : Id) :
    (saveSubmission st teamId videoUrl urlOk newId).1 = st ∨
    (∃ sub, st.submissions.find? (fun s => decide (s.teamId = teamId)) = some sub ∧
      (saveSubmission st teamId videoUrl urlOk newId).1 =
        { st with submissions :=
            (updateFirst (fun s => decide (s.teamId = teamId))
              (fun _ => { sub with videoUrl := videoUrl }) st.submissions) }) ∨
    (st.submissions.find? (fun s => decide (s.teamId = teamId)) = none ∧
      (saveSubmission st teamId videoUrl urlOk newId).1 =
        { st with submissions := st.submissions ++ [⟨newId, teamId, videoUrl, 0, none⟩] }) := by
  unfold saveSubmission
  by_cases h1 : videoUrl = ""
  · rw [if_pos h1]; exact Or.inl rfl
  · rw [if_neg h1]
    cases hf : st.submissions.find? (fun s => decide (s.teamId = teamId)) with
    | none =>
      dsimp only
      by_cases h2 : urlOk = true
      · rw [if_pos h2]; exact Or.inr (Or.inr ⟨rfl, rfl⟩)
      · rw [if_neg h2]; exact Or.inl rfl
    | some sub =>
      dsimp only
      by_cases h2 : urlOk = true
      · rw [if_pos h2]
        by_cases h3 : submissionValidationErrors { sub with videoUrl := videoUrl } = []
        · rw [if_pos h3]; exact Or.inr (Or.inl ⟨sub, rfl, rfl⟩)
        · rw [if_neg h3]; exact Or.inl rfl
      · rw [if_neg h2]; exact Or.inl rfl

theorem ledger_saveSubmission (st : State) (teamId : Id) (videoUrl : String) (urlOk : Bool)
    (newId : Id) (h : LedgerInvariant st) :
    LedgerInvariant (saveSubmission st teamId videoUrl urlOk newId).1 := by
  rcases saveSubmission_state_cases st teamId videoUrl urlOk newId with
    hc | ⟨sub, hf, hc⟩ | ⟨hf, hc⟩
  · rw [hc]; exact h
  · rw [hc]
    have hsub : sub ∈ st.submissions := List.mem_of_find?_eq_some hf
    have hteam : sub.teamId = teamId := by simpa using List.find?_some hf
    have hmem : ∀ s ∈ updateFirst (fun s => decide (s.teamId = teamId))
        (fun _ => { sub with videoUrl := videoUrl }) st.submissions,
        ∃ s0 ∈ st.submissions, s.teamId = s0.teamId ∧ s.evaluationCount = s0.evaluationCount ∧
          s.averageScore = s0.averageScore := by
      intro s hs
      rcases mem_updateFirst _ _ _ _ hs with h1 | ⟨x, -, -, hx⟩
      · exact ⟨s, h1, rfl, rfl, rfl⟩
      · exact ⟨sub, hsub, by rw [hx], by rw [hx], by rw [hx]⟩
    exact {
      assignmentTeams := h.assignmentTeams
      submissionTeams := by
        show ((updateFirst _ _ st.submissions).map (fun s => s.teamId)).Nodup
        rw [updateFirst_map_key]
        · exact h.submissionTeams
        · intro x _ hx
          simp only [decide_eq_true_eq] at hx
          show sub.teamId = x.teamId
          rw [hteam, hx]
      pairs := h.pairs
      panel := h.panel
      assigned := h.assigned
      submitted := by
        intro e he
        obtain ⟨s, hs, hst⟩ := h.submitted e he
        by_cases hp : s.teamId = teamId
        · exact ⟨_, mem_updateFirst_const _ _ _ _ hf, by
            show sub.teamId = e.teamId
            rw [hteam, ← hp, hst]⟩
        · exact ⟨s, mem_updateFirst_of_not _ _ _ s hs (by simpa using hp), hst⟩
      counter := by
        intro s hs
        obtain ⟨s0, hs0, h1, h2, -⟩ := hmem s hs
        rw [h1, h2]
        exact h.counter s0 hs0
      scored := h.scored
      average := by
        intro s hs a ha
        obtain ⟨s0, hs0, -, h2, h3⟩ := hmem s hs
        rw [h3] at ha
        rw [h2]
        exact h.average s0 hs0 a ha
      bound := h.bound
      named := h.named }
  · rw [hc]
    have hrows : rowsOf st teamId = [] := by
      unfold rowsOf
      rw [List.filter_eq_nil_iff]
      intro e he hp
      simp only [decide_eq_true_eq] at hp
      obtain ⟨s, hs, hst⟩ := h.submitted e he
      have := List.find?_eq_none.1 hf s hs
      simp only [decide_eq_true_eq] at this
      exact this (by rw [hst, hp])
    exact {
      assignmentTeams := h.assignmentTeams
      submissionTeams := by
        show ((st.submissions ++ [_]).map (fun (s : Submission) => s.teamId)).Nodup
        rw [List.map_append, List.nodup_append]
        refine ⟨h.submissionTeams, List.nodup_singleton _, ?_⟩
        intro x hx hx2
        simp only [List.map_cons, List.map_nil, List.mem_singleton] at hx2
        obtain ⟨s, hs, hst⟩ := List.mem_map.1 hx
        have := List.find?_eq_none.1 hf s hs
        simp only [decide_eq_true_eq] at this
        exact this (by rw [hst, hx2])
      pairs := h.pairs
      panel := h.panel
      assigned := h.assigned
      submitted := by
        intro e he
        obtain ⟨s, hs, hst⟩ := h.submitted e he
        exact ⟨s, List.mem_append_left _ hs, hst⟩
      counter := by
        intro s hs
        rcases List.mem_append.1 hs with h1 | h1
        · exact h.counter s h1
        · simp only [List.mem_singleton] at h1
          subst h1
          exact Nat.zero_le _
      scored := h.scored
      average := by
        intro s hs
        rcases List.mem_append.1 hs with h1 | h1
        · exact h.average s h1
        · simp only [List.mem_singleton] at h1
          subst h1
          intro a ha
          exact Option.noConfusion ha
      bound := h.bound
      named := h.named }

theorem recordEvaluation_eq (st : State) (evaluatorId teamId : Id) (submission : Submission)
    (doc : Scores) :
    recordEvaluation st evaluatorId teamId submission doc =
      if submissionValidationErrors (savedSubmission st evaluatorId teamId submission doc) = []
      then
        ({ st with
            evaluations := st.evaluations ++ [newEvaluation evaluatorId teamId submission doc],
            submissions :=
              (updateFirst (fun s => decide (s.teamId = teamId))
                (fun _ => savedSubmission st evaluatorId teamId submission doc) st.submissions) },
          Except.ok ⟨teamId, preSaveTotal doc, submission.evaluationCount + 1,
            (savedSubmission st evaluatorId teamId submission doc).averageScore⟩)
      else
        ({ st with
            evaluations := st.evaluations ++ [newEvaluation evaluatorId teamId submission doc] },
          Except.error ⟨400, "VALIDATION_ERROR", "Submission validation failed: " ++
            ", ".intercalate (submissionValidationErrors
              (savedSubmission st evaluatorId teamId submission doc))⟩) := by
  rfl

/-- The two kinds of outcome of `submitEvaluation`: a rejection that leaves
the store as it was, or the writes of `recordEvaluation` for an Assignment
that lists the evaluator, the Submission of the team and a pair not yet
evaluated. -/
theorem submitEvaluation_state_cases (st : State) (evaluatorId teamId : Id)
    (body : EvaluationBody) :
    (∃ err, submitEvaluation st evaluatorId teamId body = (st, Except.error err)) ∨
    ∃ a sub doc, a ∈ st.assignments ∧ a.teamId = teamId ∧ evaluatorId ∈ a.evaluatorIds ∧
      st.submissions.find? (fun s => decide (s.teamId = teamId)) = some sub ∧
      ¬ alreadyEvaluated st evaluatorId teamId ∧
      submitEvaluation st evaluatorId teamId body =
        recordEvaluation st evaluatorId teamId sub doc := by
  unfold submitEvaluation
  cases hs : body.scores with
  | none => left; exact ⟨_, rfl⟩
  | some scores =>
    dsimp only
    cases ha : st.assignments.find? (fun a => decide (a.teamId = teamId) &&
        decide (evaluatorId ∈ a.evaluatorIds) && decide (a.status = Status.active)) with
    | none => left; exact ⟨_, rfl⟩
    | some a =>
      dsimp only
      cases ht : st.users.find? (fun u => decide (u.id = teamId) &&
          decide (u.role = Role.team)) with
      | none => left; exact ⟨_, rfl⟩
      | some u =>
        dsimp only
        cases hsub : st.submissions.find? (fun s => decide (s.teamId = teamId)) with
        | none => left; exact ⟨_, rfl⟩
        | some submission =>
          dsimp only
          by_cases hd : st.evaluations.any (fun e => decide (e.evaluatorId = evaluatorId) &&
              decide (e.teamId = teamId)) = true
          · rw [if_pos hd]; left; exact ⟨_, rfl⟩
          · rw [if_neg hd]
            cases hm : requiredCriteria.find? (criterionMissing scores) with
            | some c => left; exact ⟨_, rfl⟩
            | none =>
              dsimp only
              cases hb : buildScores scores with
              | none => left; exact ⟨_, rfl⟩
              | some doc =>
                dsimp only
                right
                have hp := List.find?_some ha
                simp only [Bool.and_eq_true, decide_eq_true_eq] at hp
                exact ⟨a, submission, doc, List.mem_of_find?_eq_some ha, hp.1.1, hp.1.2,
                  rfl, fun h => hd ((any_duplicate_iff _ _ _).2 h), rfl⟩

theorem toFixed2_bounds (x : ℚ) (h0 : 0 ≤ x) (h1 : x ≤ 100) :
    0 ≤ toFixed2 x ∧ toFixed2 x ≤ 100 := by
  unfold toFixed2
  rw [if_neg (not_lt.2 h0)]
  have hf0 : (0 : ℤ) ≤ ⌊x * 100 + 1 / 2⌋ := Int.floor_nonneg.2 (by linarith)
  have hf1 : ⌊x * 100 + 1 / 2⌋ ≤ (10000 : ℤ) := by
    have : ⌊x * 100 + 1 / 2⌋ < (10001 : ℤ) := Int.floor_lt.2 (by push_cast; linarith)
    omega
  have c0 : (0 : ℚ) ≤ ((⌊x * 100 + 1 / 2⌋ : ℤ) : ℚ) := by exact_mod_cast hf0
  have c1 : ((⌊x * 100 + 1 / 2⌋ : ℤ) : ℚ) ≤ 10000 := by exact_mod_cast hf1
  constructor
  · positivity
  · rw [div_le_iff₀ (by norm_num)]
    linarith

theorem rowsOf_append (st : State) (e : Evaluation) (t : Id) :
    rowsOf { st with evaluations := st.evaluations ++ [e] } t =
      rowsOf st t ++ (if e.teamId = t then [e] else []) := by
  unfold rowsOf
  simp only [List.filter_append]
  congr 1
  by_cases h : e.teamId = t <;> simp [List.filter, h]

/-- With the invariant, a team whose Assignment lists an evaluator that has
not evaluated it yet has at most 2 rows. -/
theorem rows_room (st : State) (h : LedgerInvariant st) (evaluatorId teamId : Id)
    (a : Assignment) (ha : a ∈ st.assignments) (hat : a.teamId = teamId)
    (hin : evaluatorId ∈ a.evaluatorIds) (hD : ¬ alreadyEvaluated st evaluatorId teamId) :
    (rowsOf st teamId).length + 1 ≤ 3 := by
  obtain ⟨S, hS, hids, hev⟩ := h.panel a ha
  have hrows : ∀ e ∈ rowsOf st teamId, e ∈ st.evaluations ∧ e.teamId = teamId := by
    intro e he
    have := List.mem_filter.1 he
    exact ⟨this.1, by simpa using this.2⟩
  have hnd0 : (rowsOf st teamId).Nodup :=
    (List.Nodup.of_map _ h.pairs).filter _
  have hnd : ((rowsOf st teamId).map (fun e => e.evaluatorId)).Nodup := by
    apply List.Nodup.map_on _ hnd0
    intro x hx y hy hxy
    exact List.inj_on_of_nodup_map h.pairs (hrows x hx).1 (hrows y hy).1
      (by rw [hxy, (hrows x hx).2, (hrows y hy).2])
  have hnot : evaluatorId ∉ (rowsOf st teamId).map (fun e => e.evaluatorId) := by
    intro hm
    obtain ⟨e, he, heid⟩ := List.mem_map.1 hm
    exact hD ⟨e, (hrows e he).1, heid, (hrows e he).2⟩
  have hnd2 : (evaluatorId :: (rowsOf st teamId).map (fun e => e.evaluatorId)).Nodup :=
    List.nodup_cons.2 ⟨hnot, hnd⟩
  have hsub : (evaluatorId :: (rowsOf st teamId).map (fun e => e.evaluatorId)) ⊆ S := by
    intro i hi
    rcases List.mem_cons.1 hi with h1 | h1
    · rw [h1]; exact hids _ hin
    · obtain ⟨e, he, heid⟩ := List.mem_map.1 h1
      rw [← heid]
      exact hev e (hrows e he).1 (by rw [(hrows e he).2, hat])
  have hlen := (List.subperm_of_subset hnd2 hsub).length_le
  simp only [List.length_cons, List.length_map] at hlen
  omega

theorem rowsOf_congr (st st2 : State) (h : st2.evaluations = st.evaluations) (t : Id) :
    rowsOf st2 t = rowsOf st t := by
  unfold rowsOf
  rw [h]

/-- The validators of `submissionSchema` pass exactly when the counter is at
most 3 and the average, when not `null`, lies within 0 and 100. -/
theorem submission_valid_iff (s : Submission) :
    submissionValidationErrors s = [] ↔
      s.evaluationCount ≤ 3 ∧ ∀ a, s.averageScore = some a → 0 ≤ a ∧ a ≤ 100 := by
  unfold submissionValidationErrors
  by_cases hc : s.evaluationCount ≤ 3
  · rw [if_pos hc, List.nil_append]
    cases havg : s.averageScore with
    | none => simp [hc]
    | some a =>
      dsimp only
      by_cases h0 : a < 0
      · rw [if_pos h0]
        constructor
        · intro h; cases h
        · intro h
          exact absurd (h.2 a rfl).1 (not_le.2 h0)
      · rw [if_neg h0]
        by_cases h1 : 100 < a
        · rw [if_pos h1]
          constructor
          · intro h; cases h
          · intro h
            exact absurd (h.2 a rfl).2 (not_le.2 h1)
        · rw [if_neg h1]
          constructor
          · intro _
            refine ⟨hc, ?_⟩
            intro b hb
            cases hb
            exact ⟨not_lt.1 h0, not_lt.1 h1⟩
          · intro _; rfl
  · rw [if_neg hc]
    constructor
    · intro h
      simp at h
    · intro h
      exact absurd h.1 hc

/-- The invariant survives the insert of `Evaluation.create` alone: the store
`submitEvaluation` leaves when `submission.save()` fails. -/
theorem ledger_appended (st : State) (h : LedgerInvariant st) (evaluatorId teamId : Id)
    (a : Assignment) (ha : a ∈ st.assignments) (hat : a.teamId = teamId)
    (hin : evaluatorId ∈ a.evaluatorIds) (sub : Submission)
    (hfind : st.submissions.find? (fun s => decide (s.teamId = teamId)) = some sub)
    (hD : ¬ alreadyEvaluated st evaluatorId teamId) (doc : Scores) :
    LedgerInvariant
      { st with
        evaluations := st.evaluations ++ [newEvaluation evaluatorId teamId sub doc] } := by
  have hsub : sub ∈ st.submissions := List.mem_of_find?_eq_some hfind
  have hteam : sub.teamId = teamId := by simpa using List.find?_some hfind
  have hroom := rows_room st h evaluatorId teamId a ha hat hin hD
  have hrowsT : rowsOf { st with evaluations := st.evaluations ++
      [newEvaluation evaluatorId teamId sub doc] } teamId =
      rowsOf st teamId ++ [newEvaluation evaluatorId teamId sub doc] := by
    have := rowsOf_append st (newEvaluation evaluatorId teamId sub doc) teamId
    simp only [newEvaluation, if_true] at this
    exact this
  have hrowsO : ∀ t, t ≠ teamId →
      rowsOf { st with evaluations := st.evaluations ++
        [newEvaluation evaluatorId teamId sub doc] } t = rowsOf st t := by
    intro t ht
    have := rowsOf_append st (newEvaluation evaluatorId teamId sub doc) t
    have hne : ¬ (newEvaluation evaluatorId teamId sub doc).teamId = t := fun hh => ht hh.symm
    rw [if_neg hne, List.append_nil] at this
    exact this
  exact {
    assignmentTeams := h.assignmentTeams
    submissionTeams := h.submissionTeams
    pairs := by
      show ((st.evaluations ++ [_]).map
        (fun (e : Evaluation) => (e.evaluatorId, e.teamId))).Nodup
      rw [List.map_append, List.nodup_append]
      refine ⟨h.pairs, List.nodup_singleton _, ?_⟩
      intro x hx hx2
      simp only [List.map_cons, List.map_nil, List.mem_singleton, newEvaluation] at hx2
      obtain ⟨e, he, hex⟩ := List.mem_map.1 hx
      rw [hx2] at hex
      simp only [Prod.mk.injEq] at hex
      exact hD ⟨e, he, hex.1, hex.2⟩
    panel := by
      intro b hb
      obtain ⟨S, hS, hids, hev⟩ := h.panel b hb
      refine ⟨S, hS, hids, ?_⟩
      intro e he het
      rcases List.mem_append.1 he with h1 | h1
      · exact hev e h1 het
      · simp only [List.mem_singleton] at h1
        rw [h1] at het ⊢
        have hba : b = a := List.inj_on_of_nodup_map h.assignmentTeams hb ha
          (by rw [hat]; exact het.symm)
        rw [hba] at hids
        exact hids _ hin
    assigned := by
      intro e he hu
      rcases List.mem_append.1 he with h1 | h1
      · exact h.assigned e h1 hu
      · simp only [List.mem_singleton] at h1
        rw [h1]
        exact ⟨a, ha, hat⟩
    submitted := by
      intro e he
      rcases List.mem_append.1 he with h1 | h1
      · exact h.submitted e h1
      · simp only [List.mem_singleton] at h1
        rw [h1]
        exact ⟨sub, hsub, hteam⟩
    counter := by
      intro s hs
      by_cases ht : s.teamId = teamId
      · rw [ht, hrowsT, List.length_append, List.length_singleton]
        have := h.counter s hs
        rw [ht] at this
        omega
      · rw [hrowsO _ ht]
        exact h.counter s hs
    scored := by
      intro e he
      rcases List.mem_append.1 he with h1 | h1
      · exact h.scored e h1
      · simp only [List.mem_singleton] at h1
        rw [h1]
        rfl
    average := h.average
    bound := by
      intro t
      by_cases ht : t = teamId
      · rw [ht, hrowsT, List.length_append, List.length_singleton]
        exact hroom
      · rw [hrowsO _ ht]
        exact h.bound t
    named := h.named }

/-- The invariant survives both writes of `submitEvaluation` when
`submission.save()` passes its validators. -/
theorem ledger_recorded (st : State) (h : LedgerInvariant st) (evaluatorId teamId : Id)
    (a : Assignment) (ha : a ∈ st.assignments) (hat : a.teamId = teamId)
    (hin : evaluatorId ∈ a.evaluatorIds) (sub : Submission)
    (hfind : st.submissions.find? (fun s => decide (s.teamId = teamId)) = some sub)
    (hD : ¬ alreadyEvaluated st evaluatorId teamId) (doc : Scores)
    (hv : submissionValidationErrors (savedSubmission st evaluatorId teamId sub doc) = []) :
    LedgerInvariant
      { st with
        evaluations := st.evaluations ++ [newEvaluation evaluatorId teamId sub doc],
        submissions :=
          (updateFirst (fun s => decide (s.teamId = teamId))
            (fun _ => savedSubmission st evaluatorId teamId sub doc) st.submissions) } := by
  have hsub : sub ∈ st.submissions := List.mem_of_find?_eq_some hfind
  have hteam : sub.teamId = teamId := by simpa using List.find?_some hfind
  have hcount : sub.evaluationCount ≤ (rowsOf st teamId).length := by
    rw [← hteam]; exact h.counter sub hsub
  have hA := ledger_appended st h evaluatorId teamId a ha hat hin sub hfind hD doc
  have hrowsT : ∀ st2 : State,
      st2.evaluations = st.evaluations ++ [newEvaluation evaluatorId teamId sub doc] →
      rowsOf st2 teamId = rowsOf st teamId ++ [newEvaluation evaluatorId teamId sub doc] := by
    intro st2 h2
    have := rowsOf_append st (newEvaluation evaluatorId teamId sub doc) teamId
    simp only [newEvaluation, if_true] at this
    rw [rowsOf_congr { st with evaluations := st.evaluations ++
      [newEvaluation evaluatorId teamId sub doc] } st2 h2]
    exact this
  have hrowsO : ∀ st2 : State,
      st2.evaluations = st.evaluations ++ [newEvaluation evaluatorId teamId sub doc] →
      ∀ t, t ≠ teamId → rowsOf st2 t = rowsOf st t := by
    intro st2 h2 t ht
    have := rowsOf_append st (newEvaluation evaluatorId teamId sub doc) t
    have hne : ¬ (newEvaluation evaluatorId teamId sub doc).teamId = t := fun hh => ht hh.symm
    rw [if_neg hne, List.append_nil] at this
    rw [rowsOf_congr { st with evaluations := st.evaluations ++
      [newEvaluation evaluatorId teamId sub doc] } st2 h2]
    exact this
  have hmem : ∀ s ∈ updateFirst (fun s => decide (s.teamId = teamId))
      (fun _ => savedSubmission st evaluatorId teamId sub doc) st.submissions,
      s = savedSubmission st evaluatorId teamId sub doc ∨ (s ∈ st.submissions ∧ s.teamId ≠ teamId) :=
    fun s hs => mem_updateFirst_team st.submissions teamId _ h.submissionTeams s hs
  have hsavedTeam : (savedSubmission st evaluatorId teamId sub doc).teamId = teamId := hteam
  have hvalid := (submission_valid_iff _).1 hv
  exact {
    assignmentTeams := h.assignmentTeams
    submissionTeams := by
      show ((updateFirst _ _ st.submissions).map (fun (s : Submission) => s.teamId)).Nodup
      rw [updateFirst_map_key]
      · exact h.submissionTeams
      · intro x _ hx
        simp only [decide_eq_true_eq] at hx
        rw [hsavedTeam, hx]
    pairs := hA.pairs
    panel := hA.panel
    assigned := hA.assigned
    submitted := by
      intro e he
      have hsaved : ∃ s ∈ updateFirst (fun s => decide (s.teamId = teamId))
          (fun _ => savedSubmission st evaluatorId teamId sub doc) st.submissions,
          s.teamId = teamId :=
        ⟨_, mem_updateFirst_const _ _ _ _ hfind, hsavedTeam⟩
      rcases List.mem_append.1 he with h1 | h1
      · obtain ⟨s, hs, hst⟩ := h.submitted e h1
        by_cases hp : s.teamId = teamId
        · obtain ⟨s2, hs2, hs2t⟩ := hsaved
          exact ⟨s2, hs2, by rw [hs2t, ← hp, hst]⟩
        · exact ⟨s, mem_updateFirst_of_not _ _ _ s hs (by simpa using hp), hst⟩
      · simp only [List.mem_singleton] at h1
        rw [h1]
        exact hsaved
    counter := by
      intro s hs
      rcases hmem s hs with h1 | ⟨h1, h2⟩
      · rw [h1, hsavedTeam, hrowsT _ rfl]
        show sub.evaluationCount + 1 ≤ _
        rw [List.length_append, List.length_singleton]
        omega
      · rw [hrowsO _ rfl _ h2]
        exact h.counter s h1
    scored := hA.scored
    average := by
      intro s hs b hb
      rcases hmem s hs with h1 | ⟨h1, -⟩
      · rw [h1] at hb ⊢
        refine ⟨?_, hvalid.2 b hb⟩
        have hle : sub.evaluationCount + 1 ≤ 3 := hvalid.1
        by_cases h3 : sub.evaluationCount + 1 = 3
        · exact h3
        · have hb2 : sub.averageScore = some b := by
            have hb3 := hb
            unfold savedSubmission at hb3
            simp only [if_neg h3] at hb3
            exact hb3
          have := (h.average sub hsub b hb2).1
          omega
      · exact h.average s h1 b hb
    bound := hA.bound
    named := h.named }

/-- On a store with the invariant, `submitEvaluation` rejects and changes
nothing, or stores the Evaluation and the updated Submission and answers 201,
or stores the Evaluation alone and answers 400 because `submission.save()`
failed. -/
theorem submitEvaluation_ledger_cases (st : State)
    (evaluatorId teamId : Id) (body : EvaluationBody) :
    (∃ err, submitEvaluation st evaluatorId teamId body = (st, Except.error err)) ∨
    ∃ a sub doc, a ∈ st.assignments ∧ a.teamId = teamId ∧ evaluatorId ∈ a.evaluatorIds ∧
      st.submissions.find? (fun s => decide (s.teamId = teamId)) = some sub ∧
      ¬ alreadyEvaluated st evaluatorId teamId ∧
      ((submissionValidationErrors (savedSubmission st evaluatorId teamId sub doc) = [] ∧
        submitEvaluation st evaluatorId teamId body =
          ({ st with
              evaluations := st.evaluations ++ [newEvaluation evaluatorId teamId sub doc],
              submissions :=
                (updateFirst (fun s => decide (s.teamId = teamId))
                  (fun _ => savedSubmission st evaluatorId teamId sub doc) st.submissions) },
            Except.ok ⟨teamId, preSaveTotal doc, sub.evaluationCount + 1,
              (savedSubmission st evaluatorId teamId sub doc).averageScore⟩)) ∨
       (submissionValidationErrors (savedSubmission st evaluatorId teamId sub doc) ≠ [] ∧
        submitEvaluation st evaluatorId teamId body =
          ({ st with
              evaluations := st.evaluations ++ [newEvaluation evaluatorId teamId sub doc] },
            Except.error ⟨400, "VALIDATION_ERROR", "Submission validation failed: " ++
              ", ".intercalate (submissionValidationErrors
                (savedSubmission st evaluatorId teamId sub doc))⟩))) := by
  rcases submitEvaluation_state_cases st evaluatorId teamId body with
    hc | ⟨a, sub, doc, ha, hat, hin, hfind, hD, hc⟩
  · exact Or.inl hc
  · right
    refine ⟨a, sub, doc, ha, hat, hin, hfind, hD, ?_⟩
    rw [hc, recordEvaluation_eq]
    by_cases hv : submissionValidationErrors (savedSubmission st evaluatorId teamId sub doc) = []
    · left
      exact ⟨hv, by rw [if_pos hv]⟩
    · right
      exact ⟨hv, by rw [if_neg hv]⟩

theorem ledger_submitEvaluation (st : State) (h : LedgerInvariant st)
    (evaluatorId teamId : Id) (body : EvaluationBody) :
    LedgerInvariant (submitEvaluation st evaluatorId teamId body).1 := by
  rcases submitEvaluation_ledger_cases st evaluatorId teamId body with
    ⟨err, hc⟩ | ⟨a, sub, doc, ha, hat, hin, hfind, hD, ⟨hv, hc⟩ | ⟨-, hc⟩⟩
  · rw [hc]; exact h
  · rw [hc]
    exact ledger_recorded st h evaluatorId teamId a ha hat hin sub hfind hD doc hv
  · rw [hc]
    exact ledger_appended st h evaluatorId teamId a ha hat hin sub hfind hD doc

/-- Every reachable store satisfies the ledger invariant. -/
theorem reachable_ledger (st : State) (h : Reachable st) : LedgerInvariant st := by
  induction h with
  | empty =>
    exact {
      assignmentTeams := List.nodup_nil
      submissionTeams := List.nodup_nil
      pairs := List.nodup_nil
      panel := fun a ha => absurd ha (List.not_mem_nil a)
      assigned := fun e he => absurd he (List.not_mem_nil e)
      submitted := fun e he => absurd he (List.not_mem_nil e)
      counter := fun s hs => absurd hs (List.not_mem_nil s)
      scored := fun e he => absurd he (List.not_mem_nil e)
      average := fun s hs => absurd hs (List.not_mem_nil s)
      bound := fun t => by simp [rowsOf]
      named := fun u hu => absurd hu (List.not_mem_nil u) }
  | seedAdmin st newId _ hfresh ih => exact ledger_seedAdmin st newId ih hfresh
  | register st newId body schemaOk _ hfresh ih =>
    exact ledger_register st newId body schemaOk ih hfresh
  | saveSubmission st teamId videoUrl urlOk newId _ _ _ ih =>
    exact ledger_saveSubmission st teamId videoUrl urlOk newId ih
  | autoAssign st adminId hr _ ih =>
    exact ledger_autoAssign st adminId (reachable_storeInvariant st hr) ih
  | manualAssign st teamId ids adminId _ _ ih =>
    exact ledger_manualAssign st teamId ids adminId ih
  | submitEvaluation st evaluatorId teamId body _ _ ih =>
    exact ledger_submitEvaluation st ih evaluatorId teamId body
  | approveEvaluator st _ evaluatorId approved _ _ ih =>
    exact ledger_approveEvaluator st evaluatorId approved ih
  | deleteUser st _ userId hr _ ih =>
    exact ledger_deleteUser st userId (reachable_storeInvariant st hr) ih

/-! ## Theorems: repeated submissions, averages and counters -/

theorem onceStore_reachable : Reachable onceStore :=
  Reachable.submitEvaluation submittedStore 1 5 maxBody submittedStore_reachable (by decide)

theorem authorized_after_submit (st : State) (evaluatorId teamId : Id) (body : EvaluationBody)
    (role : Role) (userId : Id) (h : authorized st role userId) :
    authorized (submitEvaluation st evaluatorId teamId body).1 role userId := by
  unfold authorized
  rw [(submitEvaluation_users st evaluatorId teamId body).1]
  exact h

theorem twiceStore_reachable : Reachable twiceStore :=
  Reachable.submitEvaluation onceStore 2 5 maxBody onceStore_reachable
    (authorized_after_submit _ _ _ _ _ _ (by decide))

theorem completeStore_reachable : Reachable completeStore :=
  Reachable.submitEvaluation twiceStore 3 5 maxBody twiceStore_reachable
    (authorized_after_submit _ _ _ _ _ _ (authorized_after_submit _ _ _ _ _ _ (by decide)))

theorem onceStore_eval : onceStore.evaluations.map (fun e => (e.evaluatorId, e.teamId, e.totalScore)) = [(1, 5, 100)] := by
  decide!

theorem completeStore_subs : completeStore.submissions = [⟨9, 5, "https://video.example/a", 3, some 100⟩] := by
  decide!

/-- C11 (counterexample). In a reachable store evaluator 1 has evaluated team 5
and the administrator has then deleted the team; evaluator 1 submits again for
the same pair with a complete, valid body: the request fails with
NOT_ASSIGNED (403), not with the duplicate error. -/
theorem submitEvaluation_repeat_not_duplicate :
    Reachable orphanStore ∧ authorized orphanStore Role.evaluator 1 ∧
    alreadyEvaluated orphanStore 1 5 ∧ scoresInRange maxBody ∧
    submitEvaluation orphanStore 1 5 maxBody =
      (orphanStore, Except.error
        ⟨403, "NOT_ASSIGNED", "You are not assigned to evaluate this team"⟩) ∧
    "NOT_ASSIGNED" ≠ "DUPLICATE_EVALUATION" :=
  ⟨Reachable.deleteUser onceStore 0 5 onceStore_reachable
      (authorized_after_submit _ _ _ _ _ _ (by decide)),
    by decide!, by decide!, maxBody_inRange, by rfl, by decide⟩

/-- C11 (amended). On a reachable store, a further submitEvaluation for a pair
(evaluatorId, teamId) that already has an Evaluation always fails and leaves
the store (the Evaluation, the evaluationCount and the averageScore)
unchanged.  The failure is MISSING_SCORES when the body has no `scores`,
NOT_ASSIGNED when no active Assignment links the pair any more, and the
duplicate error 409 DUPLICATE_EVALUATION in every other case. -/
theorem submitEvaluation_repeat_rejected (st : State) (evaluatorId teamId : Id)
    (body : EvaluationBody) (hR : Reachable st)
    (hD : alreadyEvaluated st evaluatorId teamId) :
    (∃ err, submitEvaluation st evaluatorId teamId body = (st, Except.error err)) ∧
    (body.scores = none →
      submitEvaluation st evaluatorId teamId body =
        (st, Except.error ⟨400, "MISSING_SCORES", "Scores are required"⟩)) ∧
    (body.scores ≠ none → ¬ assignedTo st evaluatorId teamId →
      submitEvaluation st evaluatorId teamId body =
        (st, Except.error
          ⟨403, "NOT_ASSIGNED", "You are not assigned to evaluate this team"⟩)) ∧
    (body.scores ≠ none → assignedTo st evaluatorId teamId →
      submitEvaluation st evaluatorId teamId body =
        (st, Except.error
          ⟨409, "DUPLICATE_EVALUATION", "You have already evaluated this team"⟩)) := by
  have hI := reachable_storeInvariant st hR
  have hL := reachable_ledger st hR
  have h1 : body.scores = none →
      submitEvaluation st evaluatorId teamId body =
        (st, Except.error ⟨400, "MISSING_SCORES", "Scores are required"⟩) := by
    intro hs
    unfold submitEvaluation
    simp only [hs]
  have h2 : body.scores ≠ none → ¬ assignedTo st evaluatorId teamId →
      submitEvaluation st evaluatorId teamId body =
        (st, Except.error
          ⟨403, "NOT_ASSIGNED", "You are not assigned to evaluate this team"⟩) := by
    intro hs hA
    obtain ⟨scores, hsc⟩ := Option.ne_none_iff_exists'.1 hs
    have hn := find_assignment_none st evaluatorId teamId hA
    unfold submitEvaluation
    simp only [hsc, hn]
  have h3 : body.scores ≠ none → assignedTo st evaluatorId teamId →
      submitEvaluation st evaluatorId teamId body =
        (st, Except.error
          ⟨409, "DUPLICATE_EVALUATION", "You have already evaluated this team"⟩) := by
    intro hs hA
    obtain ⟨scores, hsc⟩ := Option.ne_none_iff_exists'.1 hs
    obtain ⟨a, ha, -, -⟩ := find_assignment_of_assignedTo st evaluatorId teamId hA
    obtain ⟨u, hu⟩ := find_team_of_invariant st evaluatorId teamId hI hA
    have hD2 := hD
    obtain ⟨e, he, -, het⟩ := hD2
    obtain ⟨s0, hs0, hs0t⟩ := hL.submitted e he
    obtain ⟨s, hsub⟩ := (find_submission_iff st teamId).1 ⟨s0, hs0, hs0t.trans het⟩
    have hd := (any_duplicate_iff st evaluatorId teamId).2 hD
    unfold submitEvaluation
    simp only [hsc, ha, hu, hsub, if_pos hd]
  refine ⟨?_, h1, h2, h3⟩
  by_cases hs : body.scores = none
  · exact ⟨_, h1 hs⟩
  · by_cases hA : assignedTo st evaluatorId teamId
    · exact ⟨_, h3 hs hA⟩
    · exact ⟨_, h2 hs hA⟩

theorem submitEvaluation_repeat_rejected_witness :
    Reachable onceStore ∧ alreadyEvaluated onceStore 1 5 ∧ maxBody.scores ≠ none ∧
    assignedTo onceStore 1 5 ∧
    submitEvaluation onceStore 1 5 maxBody =
      (onceStore, Except.error
        ⟨409, "DUPLICATE_EVALUATION", "You have already evaluated this team"⟩) :=
  ⟨onceStore_reachable, by decide!, by simp [maxBody], by decide!,
    (submitEvaluation_repeat_rejected onceStore 1 5 maxBody onceStore_reachable
      (by decide!)).2.2.2 (by simp [maxBody]) (by decide!)⟩

/-- What a successful `submitEvaluation` does on a store with the invariant:
one Evaluation is appended, the Submission of the team is replaced by one with
the counter increased by 1 and the average recomputed at 3, when the team has
exactly 3 rows. -/
theorem submitEvaluation_ok_effect (st : State) (hL : LedgerInvariant st)
    (evaluatorId teamId : Id) (body : EvaluationBody) (r : SubmitData)
    (h : (submitEvaluation st evaluatorId teamId body).2 = Except.ok r) :
    ∃ before after e,
      st.submissions.find? (fun s => decide (s.teamId = teamId)) = some before ∧
      (submitEvaluation st evaluatorId teamId body).1.submissions.find?
        (fun s => decide (s.teamId = teamId)) = some after ∧
      (submitEvaluation st evaluatorId teamId body).1.evaluations = st.evaluations ++ [e] ∧
      rowsOf (submitEvaluation st evaluatorId teamId body).1 teamId = rowsOf st teamId ++ [e] ∧
      before.evaluationCount ≤ (rowsOf st teamId).length ∧
      (rowsOf st teamId).length + 1 ≤ 3 ∧
      after.evaluationCount = before.evaluationCount + 1 ∧
      after.averageScore =
        (if before.evaluationCount + 1 = 3 then
          some (toFixed2 (jsDiv
            (((rowsOf (submitEvaluation st evaluatorId teamId body).1 teamId).map
              (fun e => e.totalScore)).foldl jsAdd 0) 3))
        else before.averageScore) ∧
      r = ⟨teamId, e.totalScore, after.evaluationCount, after.averageScore⟩ := by
  rcases submitEvaluation_ledger_cases st evaluatorId teamId body with
    ⟨err, hc⟩ | ⟨a, sub, doc, ha, hat, hin, hfind, hD, ⟨-, hc⟩ | ⟨-, hc⟩⟩
  · rw [hc] at h
    cases h
  · have hteam : sub.teamId = teamId := by simpa using List.find?_some hfind
    have hsub : sub ∈ st.submissions := List.mem_of_find?_eq_some hfind
    have hrows : rowsOf (submitEvaluation st evaluatorId teamId body).1 teamId =
        rowsOf st teamId ++ [newEvaluation evaluatorId teamId sub doc] := by
      rw [hc]
      have := rowsOf_append st (newEvaluation evaluatorId teamId sub doc) teamId
      simp only [newEvaluation, if_true] at this
      exact this
    refine ⟨sub, savedSubmission st evaluatorId teamId sub doc,
      newEvaluation evaluatorId teamId sub doc, hfind, ?_, ?_, hrows, ?_,
      rows_room st hL evaluatorId teamId a ha hat hin hD, rfl, ?_, ?_⟩
    · rw [hc]
      exact find_updateFirst _ _ sub _ hfind (by simpa using hteam)
    · rw [hc]
    · rw [← hteam]
      exact hL.counter sub hsub
    · have hr2 := hrows
      rw [hc] at hr2
      rw [hrows, ← hr2]
      rfl
    · rw [hc] at h
      simp only [Except.ok.injEq] at h
      rw [← h]
      rfl
  · rw [hc] at h
    cases h

/-- Dividing a whole number up to 1000 by 3 in doubles does not move the two
decimals `toFixed(2)` writes. -/
theorem toFixed2_third : ∀ n : Fin 1001,
    toFixed2 (toDouble (((n : ℕ) : ℚ) / 3)) = toFixed2 (((n : ℕ) : ℚ) / 3) := by
  decide!

/-- For three whole totals of at most 300 each, the average the code computes
is their sum divided by 3 and rounded to 2 decimals. -/
theorem average_whole (a b c : ℕ) (ha : a ≤ 300) (hb : b ≤ 300) (hc : c ≤ 300) :
    toFixed2 (jsDiv (([(a : ℚ), (b : ℚ), (c : ℚ)]).foldl jsAdd 0) 3) =
      toFixed2 (([(a : ℚ), (b : ℚ), (c : ℚ)]).sum / 3) := by
  have e1 : jsAdd 0 (a : ℚ) = (a : ℚ) := by
    have := jsAdd_natCast 0 a (by omega)
    rw [Nat.cast_zero, Nat.zero_add] at this
    exact this
  have e2 := jsAdd_natCast a b (by omega)
  have e3 := jsAdd_natCast (a + b) c (by omega)
  have h3 : toDouble (3 : ℚ) = 3 := by
    have := toDouble_natCast 3 (by omega)
    exact_mod_cast this
  have e4 : jsDiv ((a + b + c : ℕ) : ℚ) 3 = toDouble (((a + b + c : ℕ) : ℚ) / 3) := by
    unfold jsDiv
    rw [toDouble_natCast _ (by omega), h3]
  have e5 : ([(a : ℚ), (b : ℚ), (c : ℚ)]).sum = ((a + b + c : ℕ) : ℚ) := by
    simp only [List.sum_cons, List.sum_nil]
    push_cast
    ring
  simp only [List.foldl_cons, List.foldl_nil]
  rw [e1, e2, e3, e4, e5]
  exact toFixed2_third ⟨a + b + c, by omega⟩

/-- C12 (counterexample). In a reachable store team 5 has the totals 100 and
100; the assigned evaluator 3 sends 0.155 for relevanceToLearning and the
maximum elsewhere, total 95.155.  The call succeeds, brings the count to 3 and
stores the average 98.38, whereas the sum of the three stored totals divided
by 3 (98.385 within 1e-14) rounds to 98.39, as does (100 + 100 + 95.155) / 3. -/
theorem submitEvaluation_average_not_exact_mean :
    Reachable twiceStore ∧ authorized twiceStore Role.evaluator 3 ∧
    scoresInRange fineBody ∧
    (submitEvaluation twiceStore 3 5 fineBody).2 =
      Except.ok ⟨5, 3347968926112809 / 35184372088832, 3, some (9838 / 100)⟩ ∧
    (rowsOf (submitEvaluation twiceStore 3 5 fineBody).1 5).map (fun e => e.totalScore) =
      [100, 100, 3347968926112809 / 35184372088832] ∧
    (submitEvaluation twiceStore 3 5 fineBody).1.submissions =
      [⟨9, 5, "https://video.example/a", 3, some (9838 / 100)⟩] ∧
    toFixed2 (([100, 100, 3347968926112809 / 35184372088832] : List ℚ).sum / 3) = 9839 / 100 ∧
    toFixed2 ((100 + 100 + 95155 / 1000) / 3) = 9839 / 100 ∧
    (9838 / 100 : ℚ) ≠ 9839 / 100 :=
  ⟨twiceStore_reachable,
    authorized_after_submit _ _ _ _ _ _ (authorized_after_submit _ _ _ _ _ _ (by decide)),
    fineBody_inRange, by decide!, by decide!, by decide!, by decide!, by decide!,
    by norm_num⟩

/-- C12 (amended). On a reachable store, a successful submitEvaluation replaces
the Submission of the team by one whose evaluationCount is one more.  When the
new count is exactly 3 the team has exactly 3 Evaluation rows and the stored
averageScore is what the code computes in double arithmetic: the totalScore
values of the rows are added from 0 in the order of the collection, the sum is
divided by 3 and the quotient is written with two decimals (`toFixed(2)`);
when the three totals are whole numbers of at most 300 each, that is their sum
divided by 3 and rounded to 2 decimals.  When the new count is below 3 the
stored averageScore is the one stored before.  The response reports the stored
count and average. -/
theorem submitEvaluation_average_at_three (st : State) (evaluatorId teamId : Id)
    (body : EvaluationBody) (r : SubmitData) (hR : Reachable st)
    (h : (submitEvaluation st evaluatorId teamId body).2 = Except.ok r) :
    ∃ before after,
      st.submissions.find? (fun s => decide (s.teamId = teamId)) = some before ∧
      (submitEvaluation st evaluatorId teamId body).1.submissions.find?
        (fun s => decide (s.teamId = teamId)) = some after ∧
      after.evaluationCount = before.evaluationCount + 1 ∧
      r.evaluationCount = after.evaluationCount ∧ r.averageScore = after.averageScore ∧
      (after.evaluationCount = 3 →
        (rowsOf (submitEvaluation st evaluatorId teamId body).1 teamId).length = 3 ∧
        after.averageScore =
          some (toFixed2 (jsDiv
            (((rowsOf (submitEvaluation st evaluatorId teamId body).1 teamId).map
              (fun e => e.totalScore)).foldl jsAdd 0) 3))) ∧
      (after.evaluationCount = 3 →
        (∀ e ∈ rowsOf (submitEvaluation st evaluatorId teamId body).1 teamId,
          ∃ n : ℕ, n ≤ 300 ∧ e.totalScore = (n : ℚ)) →
        after.averageScore =
          some (toFixed2
            (((rowsOf (submitEvaluation st evaluatorId teamId body).1 teamId).map
              (fun e => e.totalScore)).sum / 3))) ∧
      (after.evaluationCount < 3 → after.averageScore = before.averageScore) := by
  obtain ⟨before, after, e, hb, ha, -, hrows, hcount, hroom, hinc, havg, hr⟩ :=
    submitEvaluation_ok_effect st (reachable_ledger st hR) evaluatorId teamId body r h
  have hlen : after.evaluationCount = 3 →
      (rowsOf (submitEvaluation st evaluatorId teamId body).1 teamId).length = 3 := by
    intro h3
    rw [hinc] at h3
    rw [hrows, List.length_append, List.length_singleton]
    omega
  refine ⟨before, after, hb, ha, hinc, by rw [hr], by rw [hr], ?_, ?_, ?_⟩
  · intro h3
    refine ⟨hlen h3, ?_⟩
    rw [hinc] at h3
    rw [havg, if_pos h3]
  · intro h3 hwhole
    obtain ⟨x, y, z, hxyz⟩ := List.length_eq_three.1 (hlen h3)
    rw [hinc] at h3
    rw [havg, if_pos h3]
    rw [hxyz] at hwhole ⊢
    obtain ⟨a, ha1, ha2⟩ := hwhole x (by simp)
    obtain ⟨b, hb1, hb2⟩ := hwhole y (by simp)
    obtain ⟨c, hc1, hc2⟩ := hwhole z (by simp)
    simp only [List.map_cons, List.map_nil, ha2, hb2, hc2]
    rw [average_whole a b c ha1 hb1 hc1]
  · intro hlt
    rw [hinc] at hlt
    rw [havg, if_neg (by omega)]

theorem submitEvaluation_average_at_three_witness :
    Reachable twiceStore ∧
    (submitEvaluation twiceStore 3 5 maxBody).2 = Except.ok ⟨5, 100, 3, some 100⟩ ∧
    ∃ before after,
      twiceStore.submissions.find? (fun s => decide (s.teamId = 5)) = some before ∧
      (submitEvaluation twiceStore 3 5 maxBody).1.submissions.find?
        (fun s => decide (s.teamId = 5)) = some after ∧
      after.evaluationCount = before.evaluationCount + 1 ∧
      (3 : Nat) = after.evaluationCount ∧ some (100 : ℚ) = after.averageScore ∧
      (after.evaluationCount = 3 →
        (rowsOf (submitEvaluation twiceStore 3 5 maxBody).1 5).length = 3 ∧
        after.averageScore =
          some (toFixed2 (jsDiv
            (((rowsOf (submitEvaluation twiceStore 3 5 maxBody).1 5).map
              (fun e => e.totalScore)).foldl jsAdd 0) 3))) ∧
      (after.evaluationCount = 3 →
        (∀ e ∈ rowsOf (submitEvaluation twiceStore 3 5 maxBody).1 5,
          ∃ n : ℕ, n ≤ 300 ∧ e.totalScore = (n : ℚ)) →
        after.averageScore =
          some (toFixed2
            (((rowsOf (submitEvaluation twiceStore 3 5 maxBody).1 5).map
              (fun e => e.totalScore)).sum / 3))) ∧
      (after.evaluationCount < 3 → after.averageScore = before.averageScore) :=
  ⟨twiceStore_reachable, by decide!,
    submitEvaluation_average_at_three twiceStore 3 5 maxBody ⟨5, 100, 3, some 100⟩
      twiceStore_reachable (by decide!)⟩

/-- C13 (the code at the failing input). In a reachable store team 5 has one
Evaluation (total 100); `calculateAverageScore` then stores evaluationCount 1
together with a non-null averageScore, the mean over a single evaluation. -/
theorem calculateAverageScore_average_below_three :
    Reachable onceStore ∧
    (rowsOf onceStore 5).map (fun e => e.totalScore) = [100] ∧
    (calculateAverageScore onceStore 5).1.submissions =
      [⟨9, 5, "https://video.example/a", 1, some 100⟩] ∧
    (calculateAverageScore onceStore 5).2 =
      Except.ok ⟨some 100, 1, "1/3 evaluations complete"⟩ :=
  ⟨onceStore_reachable, by decide!, by decide!, by decide!⟩

/-- C14 (the code at the failing input). In a reachable store team 5 has two
Evaluation rows (totals 100 and 100) and its Submission says evaluationCount 2.
The assigned evaluator 3 sends 6 for relevanceToLearning and the maximum
elsewhere, total 101.  The call returns an error (400 VALIDATION_ERROR, the
average 100.33 exceeding 100), yet the store has changed: team 5 now has three
Evaluation rows while its Submission still says evaluationCount 2, so the
counter no longer equals the number of rows. -/
theorem submitEvaluation_error_keeps_row :
    Reachable twiceStore ∧ authorized twiceStore Role.evaluator 3 ∧
    assignedTo twiceStore 3 5 ∧
    twiceStore.submissions = [⟨9, 5, "https://video.example/a", 2, none⟩] ∧
    (rowsOf twiceStore 5).map (fun e => e.totalScore) = [100, 100] ∧
    (submitEvaluation twiceStore 3 5 sixBody).2 =
      Except.error ⟨400, "VALIDATION_ERROR",
        "Submission validation failed: averageScore: Score cannot exceed 100"⟩ ∧
    (submitEvaluation twiceStore 3 5 sixBody).1 ≠ twiceStore ∧
    (rowsOf (submitEvaluation twiceStore 3 5 sixBody).1 5).map (fun e => e.totalScore) =
      [100, 100, 101] ∧
    (submitEvaluation twiceStore 3 5 sixBody).1.submissions =
      [⟨9, 5, "https://video.example/a", 2, none⟩] ∧
    toFixed2 (jsDiv (([100, 100, 101] : List ℚ).foldl jsAdd 0) 3) = 10033 / 100 :=
  ⟨twiceStore_reachable,
    authorized_after_submit _ _ _ _ _ _ (authorized_after_submit _ _ _ _ _ _ (by decide)),
    by decide!, by decide!, by decide!, by decide!, by decide!, by decide!, by decide!,
    by decide!⟩

/-- C15 (the code at the failing input). The Submission of team 5 holds
evaluationCount 2 and averageScore 50 and team 5 has no Evaluation row:
`calculateAverageScore` reports averageScore null and evaluationCount 0 and
returns before any write, so the stored Submission still holds 2 and 50. -/
theorem calculateAverageScore_zero_rows_stale :
    rowsOf staleStore 5 = [] ∧
    calculateAverageScore staleStore 5 =
      (staleStore, Except.ok ⟨none, 0, "No evaluations found for this team"⟩) ∧
    (calculateAverageScore staleStore 5).1.submissions.find?
        (fun s => decide (s.teamId = 5)) =
      some ⟨9, 5, "https://video.example/a", 2, some 50⟩ :=
  ⟨by decide, by rfl, by decide!⟩

/-! ## Theorems: the leaderboard -/

theorem findUserById_some (st : State) (id : Id) (u : User) (h : findUserById st id = some u) :
    u ∈ st.users ∧ u.id = id := by
  unfold findUserById at h
  exact ⟨List.mem_of_find?_eq_some h, by simpa using List.find?_some h⟩

theorem findUserById_of_mem (st : State) (id : Id) (h : ∃ u ∈ st.users, u.id = id) :
    ∃ u, findUserById st id = some u := by
  obtain ⟨u, hu, hid⟩ := h
  unfold findUserById
  cases hf : st.users.find? (fun u => decide (u.id = id)) with
  | some v => exact ⟨v, rfl⟩
  | none =>
    have := List.find?_eq_none.1 hf u hu
    simp only [decide_eq_true_eq] at this
    exact absurd hid this

/-- The loop of `generateLeaderboard`, entered at position `pre.length` of the
sorted list `pre ++ l`: every entry it makes carries the competition rank of
its Submission within the whole list, and the Submission's team, rounded
average and counter. -/
theorem rankLoop_spec (st : State) (L : List (Submission × ℚ))
    (hL : L.Pairwise (fun x y => y.2 ≤ x.2)) :
    ∀ (l pre : List (Submission × ℚ)) (cr : Nat) (prev : Option ℚ)
      (entries : List LeaderboardEntry),
      pre ++ l = L →
      ((prev = none ∧ pre = []) ∨
        ∃ p, prev = some p ∧ (∃ y ∈ pre, y.2 = p) ∧ (∀ y ∈ pre, p ≤ y.2) ∧
          cr = 1 + (L.filter (fun y => decide (p < y.2))).length) →
      rankLoop st l pre.length cr prev = Except.ok entries →
      List.Forall₂ (fun e x =>
        e.rank = 1 + (L.filter (fun y => decide (x.2 < y.2))).length ∧
        e.teamId = x.1.teamId ∧ (∃ u ∈ st.users, u.id = x.1.teamId ∧ e.teamName = u.name) ∧
        e.averageScore = toFixed2 x.2 ∧ e.evaluationCount = x.1.evaluationCount) entries l := by
  intro l
  induction l with
  | nil =>
    intro pre cr prev entries _ _ h
    simp only [rankLoop, Except.ok.injEq] at h
    rw [← h]
    exact List.Forall₂.nil
  | cons x rest ih =>
    obtain ⟨s, a⟩ := x
    intro pre cr prev entries hpre hinv h
    have hpw := hL
    rw [← hpre, List.pairwise_append, List.pairwise_cons] at hpw
    obtain ⟨-, ⟨hrest, -⟩, hcross⟩ := hpw
    have hrank : (if prev = some a then cr else pre.length + 1) =
        1 + (L.filter (fun y => decide (a < y.2))).length := by
      by_cases hp : prev = some a
      · rw [if_pos hp]
        rcases hinv with ⟨hn, -⟩ | ⟨p, hp2, -, -, hcr⟩
        · rw [hn] at hp; cases hp
        · rw [hp2] at hp
          simp only [Option.some.injEq] at hp
          rw [hcr, hp]
      · rw [if_neg hp]
        have hgt : ∀ y ∈ pre, a < y.2 := by
          rcases hinv with ⟨-, hn⟩ | ⟨p, hp2, ⟨y0, hy0, hy0p⟩, hmin, -⟩
          · intro y hy
            rw [hn] at hy
            exact absurd hy (List.not_mem_nil y)
          · intro y hy
            have h1 : a ≤ p := by
              rw [← hy0p]
              exact hcross y0 hy0 (s, a) (List.mem_cons_self _ _)
            have h2 : p ≠ a := by
              intro hpa
              rw [hp2, hpa] at hp
              exact hp rfl
            exact lt_of_lt_of_le (lt_of_le_of_ne h1 (Ne.symm h2)) (hmin y hy)
        have hle : ∀ y ∈ (s, a) :: rest, ¬ a < y.2 := by
          intro y hy
          rcases List.mem_cons.1 hy with h1 | h1
          · rw [h1]; exact lt_irrefl a
          · exact not_lt.2 (hrest y h1)
        rw [← hpre, List.filter_append]
        have e1 : pre.filter (fun y => decide (a < y.2)) = pre :=
          List.filter_eq_self.2 (fun y hy => by simpa using hgt y hy)
        have e2 : ((s, a) :: rest).filter (fun y => decide (a < y.2)) = [] :=
          List.filter_eq_nil_iff.2 (fun y hy => by simpa using hle y hy)
        rw [e1, e2, List.append_nil]
        omega
    unfold rankLoop at h
    cases hu : findUserById st s.teamId with
    | none =>
      simp only [hu] at h
      cases h
    | some team =>
      simp only [hu] at h
      cases hrec : rankLoop st rest (pre.length + 1)
          (if prev = some a then cr else pre.length + 1) (some a) with
      | error e =>
        simp only [hrec] at h
        cases h
      | ok es =>
        simp only [hrec, Except.ok.injEq] at h
        rw [← h]
        obtain ⟨hmem, hid⟩ := findUserById_some st s.teamId team hu
        refine List.Forall₂.cons ⟨hrank, hid, ⟨team, hmem, hid, rfl⟩, rfl, rfl⟩ ?_
        have hlen : (pre ++ [(s, a)]).length = pre.length + 1 := by simp
        refine ih (pre ++ [(s, a)]) _ (some a) es (by rw [← hpre]; simp) ?_
          (by rw [hlen]; exact hrec)
        right
        refine ⟨a, rfl, ⟨(s, a), by simp, rfl⟩, ?_, hrank⟩
        intro y hy
        rcases List.mem_append.1 hy with h1 | h1
        · exact hcross y h1 (s, a) (List.mem_cons_self _ _)
        · simp only [List.mem_singleton] at h1
          rw [h1]

theorem rankLoop_total (st : State) :
    ∀ (l : List (Submission × ℚ)) (i cr : Nat) (prev : Option ℚ),
      (∀ x ∈ l, ∃ u ∈ st.users, u.id = x.1.teamId) →
      ∃ entries, rankLoop st l i cr prev = Except.ok entries := by
  intro l
  induction l with
  | nil =>
    intro i cr prev _
    exact ⟨[], rfl⟩
  | cons x rest ih =>
    obtain ⟨s, a⟩ := x
    intro i cr prev hall
    obtain ⟨team, hteam⟩ := findUserById_of_mem st s.teamId (hall (s, a) (List.mem_cons_self _ _))
    obtain ⟨es, hes⟩ := ih (i + 1) (if prev = some a then cr else i + 1) (some a)
      (fun x hx => hall x (List.mem_cons_of_mem _ hx))
    refine ⟨⟨if prev = some a then cr else i + 1, team.id, team.name, toFixed2 a,
      s.evaluationCount⟩ :: es, ?_⟩
    unfold rankLoop
    simp only [hteam, hes]

theorem rankedSubmissions_sorted (st : State) :
    (rankedSubmissions st).Pairwise (fun x y => y.2 ≤ x.2) := by
  haveI : IsTotal (Submission × ℚ) (fun x y => y.2 ≤ x.2) := ⟨fun a b => le_total b.2 a.2⟩
  haveI : IsTrans (Submission × ℚ) (fun x y => y.2 ≤ x.2) :=
    ⟨fun a b c hab hbc => le_trans hbc hab⟩
  exact List.sorted_insertionSort (fun (x y : Submission × ℚ) => y.2 ≤ x.2) _

theorem scored_fst (l : List Submission) :
    (l.filterMap (fun s => s.averageScore.map (fun a => (s, a)))).map Prod.fst =
      l.filter (fun s => s.averageScore.isSome) := by
  induction l with
  | nil => rfl
  | cons s rest ih =>
    cases hs : s.averageScore with
    | none => simp [List.filterMap_cons, List.filter_cons, hs, ih]
    | some a => simp [List.filterMap_cons, List.filter_cons, hs, ih]

theorem scored_snd (l : List Submission) :
    ∀ x ∈ l.filterMap (fun s => s.averageScore.map (fun a => (s, a))),
      x.1 ∈ l ∧ x.1.averageScore = some x.2 := by
  intro x hx
  obtain ⟨s, hs, hsx⟩ := List.mem_filterMap.1 hx
  cases ha : s.averageScore with
  | none => rw [ha] at hsx; cases hsx
  | some a =>
    rw [ha] at hsx
    simp only [Option.map_some', Option.some.injEq] at hsx
    rw [← hsx]
    exact ⟨hs, ha⟩

theorem rankedSubmissions_perm (st : State) :
    ((rankedSubmissions st).map Prod.fst).Perm
      (st.submissions.filter (fun s => s.averageScore.isSome)) := by
  rw [← scored_fst]
  exact (List.perm_insertionSort _ _).map _

theorem rankedSubmissions_mem (st : State) :
    ∀ x ∈ rankedSubmissions st, x.1 ∈ st.submissions ∧ x.1.averageScore = some x.2 := by
  intro x hx
  exact scored_snd st.submissions x ((List.perm_insertionSort _ _).mem_iff.1 hx)

theorem generateLeaderboard_ok_iff (st : State) (entries : List LeaderboardEntry) :
    generateLeaderboard st = Except.ok entries ↔
      rankLoop st (rankedSubmissions st) 0 1 none = Except.ok entries := by
  unfold generateLeaderboard
  cases h : rankLoop st (rankedSubmissions st) 0 1 none with
  | error e => simp
  | ok es => simp

theorem generateLeaderboard_spec (st : State) (entries : List LeaderboardEntry)
    (h : generateLeaderboard st = Except.ok entries) :
    List.Forall₂ (fun e x =>
      e.rank = 1 + ((rankedSubmissions st).filter (fun y => decide (x.2 < y.2))).length ∧
      e.teamId = x.1.teamId ∧ (∃ u ∈ st.users, u.id = x.1.teamId ∧ e.teamName = u.name) ∧
      e.averageScore = toFixed2 x.2 ∧ e.evaluationCount = x.1.evaluationCount)
      entries (rankedSubmissions st) :=
  rankLoop_spec st (rankedSubmissions st) (rankedSubmissions_sorted st) (rankedSubmissions st) []
    1 none entries rfl (Or.inl ⟨rfl, rfl⟩) ((generateLeaderboard_ok_iff st entries).1 h)

theorem toFixed2_mono (x y : ℚ) (h : x ≤ y) : toFixed2 x ≤ toFixed2 y := by
  unfold toFixed2
  by_cases hx : x < 0
  · by_cases hy : y < 0
    · rw [if_pos hx, if_pos hy]
      have : ⌊(-y) * 100 + 1 / 2⌋ ≤ ⌊(-x) * 100 + 1 / 2⌋ := Int.floor_le_floor (by linarith)
      have h2 : ((⌊(-y) * 100 + 1 / 2⌋ : ℤ) : ℚ) ≤ ((⌊(-x) * 100 + 1 / 2⌋ : ℤ) : ℚ) := by
        exact_mod_cast this
      linarith
    · rw [if_pos hx, if_neg hy]
      have h1 : (0 : ℤ) ≤ ⌊(-x) * 100 + 1 / 2⌋ := Int.floor_nonneg.2 (by linarith)
      have h2 : (0 : ℤ) ≤ ⌊y * 100 + 1 / 2⌋ := Int.floor_nonneg.2 (by linarith)
      have h3 : (0 : ℚ) ≤ ((⌊(-x) * 100 + 1 / 2⌋ : ℤ) : ℚ) := by exact_mod_cast h1
      have h4 : (0 : ℚ) ≤ ((⌊y * 100 + 1 / 2⌋ : ℤ) : ℚ) := by exact_mod_cast h2
      have h5 : (0 : ℚ) ≤ ((⌊y * 100 + 1 / 2⌋ : ℤ) : ℚ) / 100 := by positivity
      have h6 : (0 : ℚ) ≤ ((⌊(-x) * 100 + 1 / 2⌋ : ℤ) : ℚ) / 100 := by positivity
      linarith
  · have hy : ¬ y < 0 := by linarith
    rw [if_neg hx, if_neg hy]
    have : ⌊x * 100 + 1 / 2⌋ ≤ ⌊y * 100 + 1 / 2⌋ := Int.floor_le_floor (by linarith)
    have h2 : ((⌊x * 100 + 1 / 2⌋ : ℤ) : ℚ) ≤ ((⌊y * 100 + 1 / 2⌋ : ℤ) : ℚ) := by
      exact_mod_cast this
    linarith

theorem forall₂_pairwise {α β : Type} (R : α → β → Prop) (S : β → β → Prop) (T : α → α → Prop)
    (hT : ∀ a1 a2 b1 b2, R a1 b1 → R a2 b2 → S b1 b2 → T a1 a2) :
    ∀ (es : List α) (l : List β), List.Forall₂ R es l → l.Pairwise S → es.Pairwise T := by
  intro es l h
  induction h with
  | nil => intro _; exact List.Pairwise.nil
  | cons hab _ ih =>
    intro hp
    rw [List.pairwise_cons] at hp
    refine List.pairwise_cons.2 ⟨?_, ih hp.2⟩
    rename_i a b es2 l2 hrest
    intro a2 ha2
    obtain ⟨b2, hb2, hr⟩ : ∃ b2 ∈ l2, R a2 b2 := by
      clear ih hp
      induction hrest with
      | nil => exact absurd ha2 (List.not_mem_nil _)
      | cons hcd _ ih2 =>
        rcases List.mem_cons.1 ha2 with h1 | h1
        · exact ⟨_, List.mem_cons_self _ _, by rw [h1]; exact hcd⟩
        · obtain ⟨b2, hb2, hr⟩ := ih2 h1
          exact ⟨b2, List.mem_cons_of_mem _ hb2, hr⟩
    exact hT a a2 b b2 hab hr (hp.1 b2 hb2)

theorem forall₂_and_mem {α β : Type} (R : α → β → Prop) (P : β → Prop) :
    ∀ (es : List α) (l : List β), List.Forall₂ R es l → (∀ x ∈ l, P x) →
      List.Forall₂ (fun e x => R e x ∧ P x) es l := by
  intro es l h
  induction h with
  | nil => intro _; exact List.Forall₂.nil
  | cons hab _ ih =>
    intro hall
    exact List.Forall₂.cons ⟨hab, hall _ (List.mem_cons_self _ _)⟩
      (ih (fun x hx => hall x (List.mem_cons_of_mem _ hx)))

/-- C16. When generateLeaderboard returns, its list has one entry per
position of the Submissions sorted by descending averageScore, and the entry at
position i has rank 1 + the number of sorted Submissions whose averageScore is
strictly greater than that of the Submission at position i (so equal averages
share a rank).  Averages [90, 85, 85, 70] give ranks [1, 2, 2, 4]. -/
theorem generateLeaderboard_competition_ranks (st : State) (entries : List LeaderboardEntry)
    (h : generateLeaderboard st = Except.ok entries) :
    (rankedSubmissions st).Pairwise (fun x y => y.2 ≤ x.2) ∧
    entries.length = (rankedSubmissions st).length ∧
    (∀ i (h1 : i < entries.length) (h2 : i < (rankedSubmissions st).length),
      (entries.get ⟨i, h1⟩).rank =
        1 + ((rankedSubmissions st).filter
          (fun y => decide (((rankedSubmissions st).get ⟨i, h2⟩).2 < y.2))).length) ∧
    ((rankedSubmissions st).map Prod.snd = [90, 85, 85, 70] →
      entries.map (fun e => e.rank) = [1, 2, 2, 4]) := by
  have hspec := generateLeaderboard_spec st entries h
  have hget := List.forall₂_iff_get.1 hspec
  refine ⟨rankedSubmissions_sorted st, hget.1, fun i h1 h2 => (hget.2 i h1 h2).1, ?_⟩
  intro hm
  generalize rankedSubmissions st = L at hm hspec
  rcases L with _ | ⟨⟨s1, a1⟩, _ | ⟨⟨s2, a2⟩, _ | ⟨⟨s3, a3⟩, _ | ⟨⟨s4, a4⟩, _ | ⟨x5, r⟩⟩⟩⟩⟩ <;>
    simp only [List.map_nil, List.map_cons, List.cons.injEq, and_true, reduceCtorEq,
      and_false, List.cons_ne_nil] at hm
  obtain ⟨h1, h2, h3, h4⟩ := hm
  subst h1 h2 h3 h4
  cases hspec with
  | cons r1 t1 =>
    cases t1 with
    | cons r2 t2 =>
      cases t2 with
      | cons r3 t3 =>
        cases t3 with
        | cons r4 t4 =>
          cases t4
          simp only [List.map_cons, List.map_nil, r1.1, r2.1, r3.1, r4.1, List.filter_cons]
          norm_num

theorem generateLeaderboard_competition_ranks_witness :
    generateLeaderboard rankingStore =
      Except.ok [⟨1, 1, "Team A", 90, 3⟩, ⟨2, 2, "Team B", 85, 3⟩, ⟨2, 3, "Team C", 85, 3⟩,
        ⟨4, 4, "Team D", 70, 3⟩] ∧
    (rankedSubmissions rankingStore).map Prod.snd = [90, 85, 85, 70] ∧
    ([⟨1, 1, "Team A", 90, 3⟩, ⟨2, 2, "Team B", 85, 3⟩, ⟨2, 3, "Team C", 85, 3⟩,
        ⟨4, 4, "Team D", 70, 3⟩] : List LeaderboardEntry).map (fun e => e.rank) = [1, 2, 2, 4] :=
  ⟨by decide!, by decide!,
    (generateLeaderboard_competition_ranks rankingStore _ (by decide!)).2.2.2 (by decide!)⟩

/-- C17. generateLeaderboard returns a list whenever the team of every
Submission with a non-null averageScore exists.  The list it returns matches,
position by position, a rearrangement of exactly the Submissions whose
averageScore is non-null (none with a null averageScore): each entry carries
the team and evaluationCount of its Submission and the Submission's average
rounded to 2 decimals.  The averageScore of the entries is non-increasing. -/
theorem generateLeaderboard_entries (st : State) :
    ((∀ s ∈ st.submissions, s.averageScore ≠ none → ∃ u ∈ st.users, u.id = s.teamId) →
      ∃ entries, generateLeaderboard st = Except.ok entries) ∧
    ∀ entries, generateLeaderboard st = Except.ok entries →
      ∃ subs : List Submission,
        subs.Perm (st.submissions.filter (fun s => s.averageScore.isSome)) ∧
        List.Forall₂ (fun e s =>
          e.teamId = s.teamId ∧ s.averageScore.map toFixed2 = some e.averageScore ∧
          e.evaluationCount = s.evaluationCount) entries subs ∧
        entries.Pairwise (fun e1 e2 => e2.averageScore ≤ e1.averageScore) := by
  constructor
  · intro hall
    have hteams : ∀ x ∈ rankedSubmissions st, ∃ u ∈ st.users, u.id = x.1.teamId := by
      intro x hx
      obtain ⟨hmem, havg⟩ := rankedSubmissions_mem st x hx
      exact hall x.1 hmem (by rw [havg]; exact Option.some_ne_none _)
    obtain ⟨entries, he⟩ := rankLoop_total st (rankedSubmissions st) 0 1 none hteams
    exact ⟨entries, (generateLeaderboard_ok_iff st entries).2 he⟩
  · intro entries h
    have hspec := generateLeaderboard_spec st entries h
    refine ⟨(rankedSubmissions st).map Prod.fst, rankedSubmissions_perm st, ?_, ?_⟩
    · rw [List.forall₂_map_right_iff]
      refine (forall₂_and_mem _ (fun x => x.1.averageScore = some x.2) _ _ hspec
        (fun x hx => (rankedSubmissions_mem st x hx).2)).imp ?_
      intro e x hex
      obtain ⟨⟨-, hid, -, havg, hcount⟩, hx⟩ := hex
      refine ⟨hid, ?_, hcount⟩
      rw [hx, havg]
      rfl
    · exact forall₂_pairwise _ (fun (x y : Submission × ℚ) => y.2 ≤ x.2) _
        (fun e1 e2 x1 x2 h1 h2 hle => by
          rw [h1.2.2.2.1, h2.2.2.2.1]
          exact toFixed2_mono _ _ hle)
        entries (rankedSubmissions st) hspec (rankedSubmissions_sorted st)

theorem generateLeaderboard_entries_witness :
    (∀ s ∈ rankingStore.submissions, s.averageScore ≠ none →
      ∃ u ∈ rankingStore.users, u.id = s.teamId) ∧
    (∃ entries, generateLeaderboard rankingStore = Except.ok entries) ∧
    rankingStore.submissions.filter (fun s => s.averageScore.isSome) =
      [⟨11, 4, "https://video.example/d", 3, some 70⟩,
        ⟨12, 2, "https://video.example/b", 3, some 85⟩,
        ⟨14, 1, "https://video.example/a", 3, some 90⟩,
        ⟨15, 3, "https://video.example/c", 3, some 85⟩] :=
  ⟨by decide, (generateLeaderboard_entries rankingStore).1 (by decide), by decide!⟩

/-! ## Theorems: publishing the results -/

theorem incompleteAssignments_eq (st : State) :
    incompleteAssignments st =
      (st.assignments.filter (fun a => decide ((rowsOf st a.teamId).length < 3))).map
        (fun a => ⟨a.teamId,
          (match findUserById st a.teamId with | some team => team.name | none => "Unknown Team"),
          (rowsOf st a.teamId).length⟩) := by
  unfold incompleteAssignments
  induction st.assignments with
  | nil => rfl
  | cons a rest ih =>
    by_cases h : (rowsOf st a.teamId).length < 3
    · rw [List.filterMap_cons, List.filter_cons]
      simp only [if_pos h, decide_eq_true_eq, List.map_cons]
      rw [ih]
    · simp only [List.filterMap_cons, if_neg h, List.filter_cons, decide_eq_true_eq, ih]

theorem incompleteAssignments_nil_iff (st : State) :
    incompleteAssignments st = [] ↔ ∀ a ∈ st.assignments, ¬ (rowsOf st a.teamId).length < 3 := by
  rw [incompleteAssignments_eq, List.map_eq_nil_iff, List.filter_eq_nil_iff]
  simp only [decide_eq_true_eq]

/-- The outcome of `publishResults` when it succeeds: every guard passed, the
leaderboard is the generated one, and the first Result document (created when
there was none) holds it. -/
theorem publishResults_ok_shape (st : State) (results : List Result) (adminId : Id) (now : Nat)
    (d : PublishData) (h : (publishResults st results adminId now).2 = Except.ok d) :
    ∃ leaderboard, generateLeaderboard st = Except.ok leaderboard ∧ leaderboard ≠ [] ∧
      leaderboard.all entryValidator = true ∧
      st.assignments ≠ [] ∧ incompleteAssignments st = [] ∧
      d = ⟨"Results published successfully", some now, leaderboard, leaderboard.length⟩ ∧
      (publishResults st results adminId now).1 =
        ⟨true, some now, some adminId, leaderboard⟩ :: results.tail := by
  unfold publishResults at h ⊢
  by_cases h0 : st.assignments.length = 0
  · simp only [if_pos h0] at h
    cases h
  · simp only [if_neg h0] at h ⊢
    by_cases h1 : (incompleteAssignments st).length > 0
    · simp only [if_pos h1] at h
      cases h
    · simp only [if_neg h1] at h ⊢
      cases hg : generateLeaderboard st with
      | error e =>
        simp only [hg] at h
        cases h
      | ok leaderboard =>
        simp only [hg] at h ⊢
        by_cases h2 : leaderboard.length = 0
        · simp only [if_pos h2] at h
          cases h
        · simp only [if_neg h2] at h ⊢
          by_cases h3 : leaderboard.all entryValidator = true
          · simp only [if_pos h3] at h ⊢
            refine ⟨leaderboard, rfl, fun hn => h2 (by rw [hn]; rfl), h3,
              fun hn => h0 (by rw [hn]; rfl), List.eq_nil_of_length_eq_zero (by omega), ?_, ?_⟩
            · cases results with
              | nil =>
                simp only [Except.ok.injEq] at h
                exact h.symm
              | cons result rest =>
                simp only [Except.ok.injEq] at h
                exact h.symm
            · cases results with
              | nil => rfl
              | cons result rest => rfl
          · simp only [if_neg h3] at h
            cases h

/-- When every guard of `publishResults` passes, it succeeds. -/
theorem publishResults_ok_of (st : State) (results : List Result) (adminId : Id) (now : Nat)
    (leaderboard : List LeaderboardEntry) (h0 : st.assignments ≠ [])
    (h1 : incompleteAssignments st = []) (hg : generateLeaderboard st = Except.ok leaderboard)
    (h2 : leaderboard ≠ []) (h3 : leaderboard.all entryValidator = true) :
    (publishResults st results adminId now).2 =
      Except.ok ⟨"Results published successfully", some now, leaderboard, leaderboard.length⟩ := by
  have h0' : ¬ st.assignments.length = 0 := fun hn => h0 (List.eq_nil_of_length_eq_zero hn)
  have h1' : ¬ (incompleteAssignments st).length > 0 := by rw [h1]; simp
  have h2' : ¬ leaderboard.length = 0 := fun hn => h2 (List.eq_nil_of_length_eq_zero hn)
  unfold publishResults
  simp only [if_neg h0', if_neg h1', hg, if_neg h2', if_pos h3]
  cases results with
  | nil => rfl
  | cons result rest => rfl

/-- A call of `publishResults` that does not succeed returns an error and
leaves the Result collection as it was. -/
theorem publishResults_error_unchanged (st : State) (results : List Result) (adminId : Id)
    (now : Nat) (h : ∀ d, (publishResults st results adminId now).2 ≠ Except.ok d) :
    ∃ message, publishResults st results adminId now = (results, Except.error message) := by
  unfold publishResults at h ⊢
  by_cases h0 : st.assignments.length = 0
  · simp only [if_pos h0]
    exact ⟨_, rfl⟩
  · simp only [if_neg h0] at h ⊢
    by_cases h1 : (incompleteAssignments st).length > 0
    · simp only [if_pos h1]
      exact ⟨_, rfl⟩
    · simp only [if_neg h1] at h ⊢
      cases hg : generateLeaderboard st with
      | error e => exact ⟨_, rfl⟩
      | ok leaderboard =>
        simp only [hg] at h ⊢
        by_cases h2 : leaderboard.length = 0
        · simp only [if_pos h2]
          exact ⟨_, rfl⟩
        · simp only [if_neg h2] at h ⊢
          by_cases h3 : leaderboard.all entryValidator = true
          · simp only [if_pos h3] at h
            cases results with
            | nil => exact absurd rfl (h _)
            | cons result rest => exact absurd rfl (h _)
          · simp only [if_neg h3]
            exact ⟨_, rfl⟩

theorem forall₂_mem_left {α β : Type} (R : α → β → Prop) :
    ∀ (es : List α) (l : List β), List.Forall₂ R es l → ∀ e ∈ es, ∃ x ∈ l, R e x := by
  intro es l h
  induction h with
  | nil => intro e he; exact absurd he (List.not_mem_nil _)
  | cons hab _ ih =>
    intro e he
    rcases List.mem_cons.1 he with h1 | h1
    · exact ⟨_, List.mem_cons_self _ _, by rw [h1]; exact hab⟩
    · obtain ⟨x, hx, hr⟩ := ih e h1
      exact ⟨x, List.mem_cons_of_mem _ hx, hr⟩

theorem ledger_submission_bounds (st : State) (hL : LedgerInvariant st) :
    ∀ s ∈ st.submissions, s.evaluationCount ≤ 3 ∧
      ∀ a, s.averageScore = some a → 0 ≤ a ∧ a ≤ 100 := by
  intro s hs
  refine ⟨le_trans (hL.counter s hs) (hL.bound s.teamId), ?_⟩
  intro a ha
  exact (hL.average s hs a ha).2

/-- On a store with the invariant every entry `generateLeaderboard` makes
passes the validators of the Result schema. -/
theorem leaderboard_valid (st : State) (hL : LedgerInvariant st)
    (entries : List LeaderboardEntry) (h : generateLeaderboard st = Except.ok entries) :
    entries.all entryValidator = true := by
  have hspec := forall₂_and_mem _ (fun x => x.1 ∈ st.submissions ∧ x.1.averageScore = some x.2)
    _ _ (generateLeaderboard_spec st entries h) (rankedSubmissions_mem st)
  rw [List.all_eq_true]
  intro e he
  obtain ⟨x, -, hx⟩ := forall₂_mem_left _ _ _ hspec e he
  obtain ⟨⟨hrank, -, ⟨u, hu, -, hname⟩, havg, hcount⟩, hmem, hsome⟩ := hx
  obtain ⟨hc, hb⟩ := ledger_submission_bounds st hL x.1 hmem
  obtain ⟨hb0, hb1⟩ := hb x.2 hsome
  obtain ⟨ht0, ht1⟩ := toFixed2_bounds x.2 hb0 hb1
  unfold entryValidator
  simp only [Bool.and_eq_true, decide_eq_true_eq]
  refine ⟨⟨⟨⟨by omega, ?_⟩, by rw [havg]; exact ht0⟩, by rw [havg]; exact ht1⟩,
    by rw [hcount]; exact hc⟩
  rw [hname]
  exact hL.named u hu

/-- C18. On a reachable store where some team with an Assignment has fewer than
3 Evaluation rows, publishResults fails and the Result collection is unchanged.
The message lists, joined by ", ", one item "name (count/3)" for each
Assignment whose team has fewer than 3 Evaluation rows, in order, and for no
other team: the name is that of the team and the count its number of Evaluation
rows. -/
theorem publishResults_incomplete_rejected (st : State) (results : List Result)
    (adminId : Id) (now : Nat) (hR : Reachable st)
    (hinc : ∃ a ∈ st.assignments, (rowsOf st a.teamId).length < 3) :
    publishResults st results adminId now =
      (results, Except.error ("Error publishing results: " ++
        "Cannot publish results. " ++ toString (incompleteAssignments st).length ++
        " team(s) do not have 3 completed evaluations. " ++
        "Incomplete teams: " ++
        ", ".intercalate ((incompleteAssignments st).map IncompleteTeam.item))) ∧
    (incompleteAssignments st).map (fun t => t.teamId) =
      (st.assignments.filter (fun a => decide ((rowsOf st a.teamId).length < 3))).map
        (fun a => a.teamId) ∧
    ∀ t ∈ incompleteAssignments st,
      t.evaluationCount = (rowsOf st t.teamId).length ∧ t.evaluationCount < 3 ∧
      ∃ team ∈ st.users, team.id = t.teamId ∧ t.teamName = team.name ∧
        t.item = team.name ++ " (" ++ toString (rowsOf st t.teamId).length ++ "/3)" := by
  have hI := reachable_storeInvariant st hR
  obtain ⟨a0, ha0, hlt0⟩ := hinc
  have h0 : ¬ st.assignments.length = 0 := by
    intro hn
    rw [List.eq_nil_of_length_eq_zero hn] at ha0
    exact absurd ha0 (List.not_mem_nil _)
  have h1 : (incompleteAssignments st).length > 0 := by
    apply List.length_pos.2
    intro hn
    exact (incompleteAssignments_nil_iff st).1 hn a0 ha0 hlt0
  refine ⟨?_, ?_, ?_⟩
  · unfold publishResults
    simp only [if_neg h0, if_pos h1]
  · rw [incompleteAssignments_eq, List.map_map]
    rfl
  · intro t ht
    rw [incompleteAssignments_eq] at ht
    obtain ⟨a, ha, hat⟩ := List.mem_map.1 ht
    obtain ⟨hmem, hlt⟩ := List.mem_filter.1 ha
    simp only [decide_eq_true_eq] at hlt
    obtain ⟨u, hu, hid, -⟩ := hI.2 a hmem
    obtain ⟨team, hteam⟩ := findUserById_of_mem st a.teamId ⟨u, hu, hid⟩
    obtain ⟨htm, htid⟩ := findUserById_some st a.teamId team hteam
    rw [← hat]
    refine ⟨rfl, hlt, team, htm, htid, ?_, ?_⟩
    · simp only [hteam]
    · simp only [IncompleteTeam.item, hteam]

theorem publishResults_incomplete_rejected_witness :
    Reachable submittedStore ∧
    (∃ a ∈ submittedStore.assignments, (rowsOf submittedStore a.teamId).length < 3) ∧
    publishResults submittedStore [] 0 7 =
      ([], Except.error ("Error publishing results: " ++
        "Cannot publish results. " ++ toString (incompleteAssignments submittedStore).length ++
        " team(s) do not have 3 completed evaluations. " ++
        "Incomplete teams: " ++
        ", ".intercalate ((incompleteAssignments submittedStore).map IncompleteTeam.item))) ∧
    (incompleteAssignments submittedStore).map IncompleteTeam.item = ["Team A (0/3)"] :=
  ⟨submittedStore_reachable, by decide,
    (publishResults_incomplete_rejected submittedStore [] 0 7 submittedStore_reachable
      (by decide)).1,
    by decide⟩

/-- C19. On a reachable store publishResults succeeds exactly when at least one
Assignment exists, the team of every Assignment has exactly 3 Evaluation rows,
and generateLeaderboard returns a non-empty list.  In every other case it
returns an error and the Result collection is unchanged. -/
theorem publishResults_succeeds_iff (st : State) (results : List Result) (adminId : Id)
    (now : Nat) (hR : Reachable st) :
    ((∃ d, (publishResults st results adminId now).2 = Except.ok d) ↔
      (st.assignments ≠ [] ∧ (∀ a ∈ st.assignments, (rowsOf st a.teamId).length = 3) ∧
        ∃ leaderboard, generateLeaderboard st = Except.ok leaderboard ∧ leaderboard ≠ [])) ∧
    ((¬ ∃ d, (publishResults st results adminId now).2 = Except.ok d) →
      ∃ message, publishResults st results adminId now = (results, Except.error message)) := by
  have hL := reachable_ledger st hR
  refine ⟨⟨?_, ?_⟩, ?_⟩
  · rintro ⟨d, hd⟩
    obtain ⟨leaderboard, hg, hne, -, h0, h1, -, -⟩ :=
      publishResults_ok_shape st results adminId now d hd
    refine ⟨h0, ?_, leaderboard, hg, hne⟩
    intro a ha
    have h3 := (incompleteAssignments_nil_iff st).1 h1 a ha
    have hb := hL.bound a.teamId
    omega
  · rintro ⟨h0, hall, leaderboard, hg, hne⟩
    have h1 : incompleteAssignments st = [] :=
      (incompleteAssignments_nil_iff st).2 (fun a ha => by rw [hall a ha]; omega)
    exact ⟨_, publishResults_ok_of st results adminId now leaderboard h0 h1 hg hne
      (leaderboard_valid st hL leaderboard hg)⟩
  · intro hno
    exact publishResults_error_unchanged st results adminId now
      (fun d hd => hno ⟨d, hd⟩)

theorem publishResults_succeeds_iff_witness :
    Reachable completeStore ∧
    (publishResults completeStore [] 0 7).2 =
      Except.ok ⟨"Results published successfully", some 7, [⟨1, 5, "Team A", 100, 3⟩], 1⟩ ∧
    (completeStore.assignments ≠ [] ∧
      (∀ a ∈ completeStore.assignments, (rowsOf completeStore a.teamId).length = 3) ∧
      ∃ leaderboard, generateLeaderboard completeStore = Except.ok leaderboard ∧
        leaderboard ≠ []) :=
  ⟨completeStore_reachable, by decide!,
    (publishResults_succeeds_iff completeStore [] 0 7 completeStore_reachable).1.1
      ⟨⟨"Results published successfully", some 7, [⟨1, 5, "Team A", 100, 3⟩], 1⟩,
        by decide!⟩⟩

/-- C20. After a successful publishResults, loadLeaderboard on the Result
collection it leaves returns published = true, the leaderboard list and the
publishedAt that publishResults returned, and totalTeams equal to the length
of that list (the totalTeams publishResults returned); getLeaderboard answers
with the same published, publishedAt, leaderboard and totalTeams. -/
theorem publishResults_round_trip (st : State) (results results2 : List Result)
    (adminId : Id) (now : Nat) (d : PublishData)
    (h : publishResults st results adminId now = (results2, Except.ok d)) :
    loadLeaderboard st results2 =
      some ⟨true, d.publishedAt, findUserById st adminId, d.leaderboard, d.totalTeams⟩ ∧
    d.totalTeams = d.leaderboard.length ∧
    getLeaderboard st results2 =
      ⟨true, d.publishedAt, d.leaderboard, some d.totalTeams, none⟩ := by
  have hd : (publishResults st results adminId now).2 = Except.ok d := by rw [h]
  obtain ⟨leaderboard, -, -, -, -, -, hdata, hstore⟩ :=
    publishResults_ok_shape st results adminId now d hd
  rw [h] at hstore
  have hstore2 : results2 = ⟨true, some now, some adminId, leaderboard⟩ :: results.tail := hstore
  have hload : loadLeaderboard st results2 =
      some ⟨true, d.publishedAt, findUserById st adminId, d.leaderboard, d.totalTeams⟩ := by
    rw [hstore2, hdata]
    rfl
  refine ⟨hload, by rw [hdata], ?_⟩
  unfold getLeaderboard
  rw [hload]

theorem publishResults_round_trip_witness :
    publishResults completeStore [⟨false, none, none, []⟩] 0 7 =
      ([⟨true, some 7, some 0, [⟨1, 5, "Team A", 100, 3⟩]⟩],
        Except.ok ⟨"Results published successfully", some 7, [⟨1, 5, "Team A", 100, 3⟩], 1⟩) ∧
    getLeaderboard completeStore [⟨true, some 7, some 0, [⟨1, 5, "Team A", 100, 3⟩]⟩] =
      ⟨true, some 7, [⟨1, 5, "Team A", 100, 3⟩], some 1, none⟩ :=
  ⟨by decide!,
    (publishResults_round_trip completeStore [⟨false, none, none, []⟩]
      [⟨true, some 7, some 0, [⟨1, 5, "Team A", 100, 3⟩]⟩] 0 7
      ⟨"Results published successfully", some 7, [⟨1, 5, "Team A", 100, 3⟩], 1⟩
      (by decide!)).2.2⟩

/-! ## Theorems: further reachable sample stores -/

theorem readyStore_reachable : Reachable readyStore := by
  have r0 : Reachable ⟨[], [], [], []⟩ := Reachable.empty
  have r1 := Reachable.seedAdmin _ 0 r0 (by decide)
  have r2 := Reachable.register _ 1 (evaluatorBody "Eva" "eva@x.org") true r1 (by decide)
  have r3 := Reachable.register _ 2 (evaluatorBody "Eli" "eli@x.org") true r2 (by decide)
  have r4 := Reachable.register _ 3 (evaluatorBody "Eve" "eve@x.org") true r3 (by decide)
  have r5 := Reachable.approveEvaluator _ 0 1 (some true) r4 (by decide)
  have r6 := Reachable.approveEvaluator _ 0 2 (some true) r5 (by decide)
  have r7 := Reachable.approveEvaluator _ 0 3 (some true) r6 (by decide)
  have r8 := Reachable.register _ 5 (teamBody "Team A" "a@x.org") true r7 (by decide)
  have h : readyStore = (register (approveEvaluator (approveEvaluator (approveEvaluator
      (register (register (register (seedAdmin ⟨[], [], [], []⟩ 0) 1
        (evaluatorBody "Eva" "eva@x.org") true).1 2 (evaluatorBody "Eli" "eli@x.org") true).1 3
        (evaluatorBody "Eve" "eve@x.org") true).1 1 (some true)).1 2 (some true)).1 3
        (some true)).1 5 (teamBody "Team A" "a@x.org") true).1 := by
    decide
  rw [h]
  exact r8

theorem pairStore_reachable : Reachable pairStore := by
  have r0 := Reachable.register readyStore 6 (teamBody "Team B" "b@x.org") true
    readyStore_reachable (by decide)
  have r1 := Reachable.autoAssign _ 0 r0 (by decide)
  have r2 := Reachable.saveSubmission _ 5 "https://video.example/a" true 9 r1 (by decide)
    (by decide)
  have r3 := Reachable.saveSubmission _ 6 "https://video.example/b" true 10 r2 (by decide)
    (by decide)
  have r4 := Reachable.submitEvaluation _ 1 5 maxBody r3 (by decide)
  have r5 := Reachable.submitEvaluation _ 2 5 maxBody r4
    (authorized_after_submit _ _ _ _ _ _ (by decide))
  have r6 := Reachable.submitEvaluation _ 3 5 maxBody r5
    (authorized_after_submit _ _ _ _ _ _ (authorized_after_submit _ _ _ _ _ _ (by decide)))
  have r7 := Reachable.submitEvaluation _ 1 6 maxBody r6
    (authorized_after_submit _ _ _ _ _ _ (authorized_after_submit _ _ _ _ _ _
      (authorized_after_submit _ _ _ _ _ _ (by decide))))
  have r8 := Reachable.submitEvaluation _ 2 6 maxBody r7
    (authorized_after_submit _ _ _ _ _ _ (authorized_after_submit _ _ _ _ _ _
      (authorized_after_submit _ _ _ _ _ _ (authorized_after_submit _ _ _ _ _ _ (by decide)))))
  exact Reachable.submitEvaluation _ 3 6 nearBody r8
    (authorized_after_submit _ _ _ _ _ _ (authorized_after_submit _ _ _ _ _ _
      (authorized_after_submit _ _ _ _ _ _ (authorized_after_submit _ _ _ _ _ _
        (authorized_after_submit _ _ _ _ _ _ (by decide))))))

theorem widowStore_reachable : Reachable widowStore :=
  Reachable.deleteUser pairStore 0 5 pairStore_reachable (by decide!)

theorem unevenStore_reachable : Reachable unevenStore :=
  Reachable.submitEvaluation twiceStore 3 5 nearBody twiceStore_reachable
    (authorized_after_submit _ _ _ _ _ _ (authorized_after_submit _ _ _ _ _ _ (by decide)))

/-! ## Theorems: the bound of three evaluations, recomputation, readiness -/

/-- C23. In every reachable store no team has more than 3 Evaluation rows, so
for every team having at least 3 Evaluation rows and having exactly 3 are the
same. -/
theorem reachable_at_most_three_rows (st : State) (hR : Reachable st) (teamId : Id) :
    (rowsOf st teamId).length ≤ 3 ∧
    (3 ≤ (rowsOf st teamId).length ↔ (rowsOf st teamId).length = 3) := by
  have hb := (reachable_ledger st hR).bound teamId
  exact ⟨hb, ⟨fun h => by omega, fun h => by omega⟩⟩

theorem reachable_at_most_three_rows_witness :
    Reachable completeStore ∧ (rowsOf completeStore 5).length = 3 ∧
    (rowsOf completeStore 5).length ≤ 3 :=
  ⟨completeStore_reachable, by decide!,
    (reachable_at_most_three_rows completeStore completeStore_reachable 5).1⟩

/-- C28 (the code at the failing input). In a reachable store the three
Evaluations of team 5 were recorded through submitEvaluation with totals 100,
100 and 99, and submitEvaluation stored evaluationCount 3 and averageScore
99.67.  `calculateAverageScore` returns 99.67 but stores the unrounded
quotient of 299 by 3 in the Submission: the double 99.66666666666667, which
is 7013418169707179 / 2 ^ 46. -/
theorem calculateAverageScore_stores_unrounded :
    Reachable unevenStore ∧
    (rowsOf unevenStore 5).map (fun e => e.totalScore) = [100, 100, 99] ∧
    unevenStore.submissions = [⟨9, 5, "https://video.example/a", 3, some (9967 / 100)⟩] ∧
    (calculateAverageScore unevenStore 5).1.submissions =
      [⟨9, 5, "https://video.example/a", 3, some (7013418169707179 / 70368744177664)⟩] ∧
    (calculateAverageScore unevenStore 5).2 =
      Except.ok ⟨some (9967 / 100), 3, "All evaluations complete"⟩ ∧
    (7013418169707179 / 70368744177664 : ℚ) ≠ 9967 / 100 :=
  ⟨unevenStore_reachable, by decide!, by decide!, by decide!, by decide!, by norm_num⟩

/-- C29 (the code at the failing input). In a reachable store teams 5 and 6
were both evaluated three times and team 5 was then deleted:
`checkEvaluationCompletion` reports 1 of 1 Assignments complete with the
message that the results are ready to publish, and `publishResults` fails,
because `generateLeaderboard` fails on the Submission of the deleted team. -/
theorem publishResults_fails_when_ready :
    Reachable widowStore ∧
    (checkEvaluationCompletion widowStore).2 =
      ⟨1, 1, 0, 100, 3, 3, some [⟨6, "Team B", 3, true⟩],
        "All evaluations complete. Ready to publish results."⟩ ∧
    publishResults widowStore [] 0 7 =
      ([], Except.error ("Error publishing results: " ++ ("Error generating leaderboard: " ++
        "Cannot read properties of null (reading '_id')"))) :=
  ⟨widowStore_reachable, by decide!, by decide!⟩

/-- C30 (the code at the failing input). In a reachable store the Submission of
team 5 has averageScore 100 and `deleteUser` has removed team 5:
`generateLeaderboard` does not return a list, it throws on reading `_id` of
the missing team. -/
theorem generateLeaderboard_missing_team_throws :
    Reachable widowStore ∧
    widowStore.submissions.find? (fun s => decide (s.teamId = 5)) =
      some ⟨9, 5, "https://video.example/a", 3, some 100⟩ ∧
    findUserById widowStore 5 = none ∧
    generateLeaderboard widowStore =
      Except.error ("Error generating leaderboard: " ++
        "Cannot read properties of null (reading '_id')") :=
  ⟨widowStore_reachable, by decide!, by decide!, by decide!⟩

/-! ## Theorems: checkEvaluationCompletion -/

theorem completionLoop_eq (st : State) :
    ∀ (l : List Assignment) (completed total : Nat) (details : List AssignmentDetail),
      (completionLoop st l completed total details).1 =
          completed + (l.filter (fun a => decide ((rowsOf st a.teamId).length = 3))).length ∧
      (completionLoop st l completed total details).2.1 =
          total + (l.map (fun a => (rowsOf st a.teamId).length)).sum := by
  intro l
  induction l with
  | nil =>
    intro completed total details
    exact ⟨rfl, rfl⟩
  | cons a rest ih =>
    intro completed total details
    unfold completionLoop
    dsimp only
    constructor
    · rw [(ih _ _ _).1]
      by_cases h : (rowsOf st a.teamId).length = 3
      · simp only [if_pos h, List.filter_cons, decide_eq_true_eq, List.length_cons]
        omega
      · simp only [if_neg h, List.filter_cons, decide_eq_true_eq]
    · rw [(ih _ _ _).2]
      simp only [List.map_cons, List.sum_cons]
      omega

/-- C24 (counterexample). In a store with 160 Assignments, 23 of them with 3
Evaluation rows, checkEvaluationCompletion returns completionPercentage 14.37,
whereas 100 * 23 / 160 = 14.375 rounds to 14.38: the quotient 23 / 160 is the
double 0.14375 (slightly below), and its product with 100 is the double
14.374999999999998. -/
theorem checkEvaluationCompletion_percentage_not_rounded :
    (checkEvaluationCompletion censusStore).2.totalAssignments = 160 ∧
    (checkEvaluationCompletion censusStore).2.completedAssignments = 23 ∧
    censusStore.assignments.length = 160 ∧
    (censusStore.assignments.filter
      (fun a => decide ((rowsOf censusStore a.teamId).length = 3))).length = 23 ∧
    (checkEvaluationCompletion censusStore).2.completionPercentage = 1437 / 100 ∧
    jsMul (jsDiv 23 160) 100 = 8092405580431359 / 562949953421312 ∧
    toFixed2 (100 * 23 / 160) = 1438 / 100 ∧
    (1437 / 100 : ℚ) ≠ 1438 / 100 :=
  ⟨by decide!, by decide!, by decide!, by decide!, by decide!, by decide!, by decide!,
    by norm_num⟩

/-- C24 (amended). For every store, checkEvaluationCompletion leaves the store
as it is and returns totalAssignments = the number of Assignments,
completedAssignments = the number of Assignments whose team has exactly 3
Evaluation rows, pendingAssignments = the difference, totalEvaluationsRequired
= 3 times the number of Assignments, totalEvaluationsCompleted = the sum over
the Assignments of the number of Evaluation rows of the team, and
completionPercentage = what the code computes in double arithmetic: the
quotient completed / total, multiplied by 100, written with two decimals
(`toFixed(2)`); with no Assignment it returns the six numbers 0. -/
theorem checkEvaluationCompletion_counts (st : State) :
    (checkEvaluationCompletion st).1 = st ∧
    (checkEvaluationCompletion st).2.totalAssignments = st.assignments.length ∧
    (checkEvaluationCompletion st).2.completedAssignments =
      (st.assignments.filter (fun a => decide ((rowsOf st a.teamId).length = 3))).length ∧
    (checkEvaluationCompletion st).2.pendingAssignments =
      (checkEvaluationCompletion st).2.totalAssignments -
        (checkEvaluationCompletion st).2.completedAssignments ∧
    (checkEvaluationCompletion st).2.completedAssignments ≤
      (checkEvaluationCompletion st).2.totalAssignments ∧
    (checkEvaluationCompletion st).2.totalEvaluationsRequired = 3 * st.assignments.length ∧
    (checkEvaluationCompletion st).2.totalEvaluationsCompleted =
      (st.assignments.map (fun a => (rowsOf st a.teamId).length)).sum ∧
    (checkEvaluationCompletion st).2.completionPercentage =
      (if st.assignments.length = 0 then 0
        else toFixed2 (jsMul
          (jsDiv ((checkEvaluationCompletion st).2.completedAssignments : ℚ)
            (st.assignments.length : ℚ)) 100)) ∧
    (st.assignments = [] →
      (checkEvaluationCompletion st).2 = ⟨0, 0, 0, 0, 0, 0, none, "No assignments found"⟩) := by
  by_cases h0 : st.assignments.length = 0
  · have hc : checkEvaluationCompletion st =
        (st, ⟨0, 0, 0, 0, 0, 0, none, "No assignments found"⟩) := by
      unfold checkEvaluationCompletion
      simp only [if_pos h0]
    have hnil : st.assignments = [] := List.eq_nil_of_length_eq_zero h0
    rw [hc]
    simp only [hnil, List.filter_nil, List.length_nil, List.map_nil, List.sum_nil, if_true,
      Nat.sub_self, Nat.mul_zero, le_refl, true_and, implies_true, and_self]
  · obtain ⟨h1, h2⟩ := completionLoop_eq st st.assignments 0 0 []
    have hpos : st.assignments.length > 0 := Nat.pos_of_ne_zero h0
    have hc : checkEvaluationCompletion st =
        (st, ⟨st.assignments.length, (completionLoop st st.assignments 0 0 []).1,
          st.assignments.length - (completionLoop st st.assignments 0 0 []).1,
          toFixed2 (jsMul (jsDiv ((completionLoop st st.assignments 0 0 []).1 : ℚ)
            (st.assignments.length : ℚ)) 100),
          st.assignments.length * 3, (completionLoop st st.assignments 0 0 []).2.1,
          some (completionLoop st st.assignments 0 0 []).2.2,
          if (completionLoop st st.assignments 0 0 []).1 = st.assignments.length then
            "All evaluations complete. Ready to publish results."
          else toString (st.assignments.length - (completionLoop st st.assignments 0 0 []).1) ++
            " team(s) still pending evaluation completion."⟩) := by
      unfold checkEvaluationCompletion
      simp only [if_neg h0, if_pos hpos]
    rw [hc]
    simp only [h1, h2, Nat.zero_add, if_neg h0]
    refine ⟨trivial, trivial, trivial, trivial, List.length_filter_le _ _, by omega, trivial,
      trivial, ?_⟩
    · intro hnil
      rw [hnil] at h0
      exact absurd rfl h0

theorem checkEvaluationCompletion_counts_witness :
    (checkEvaluationCompletion pairStore).2 =
      ⟨2, 2, 0, 100, 6, 6, some [⟨5, "Team A", 3, true⟩, ⟨6, "Team B", 3, true⟩],
        "All evaluations complete. Ready to publish results."⟩ ∧
    (checkEvaluationCompletion onceStore).2 =
      ⟨1, 0, 1, 0, 3, 1, some [⟨5, "Team A", 1, false⟩],
        "1 team(s) still pending evaluation completion."⟩ ∧
    (checkEvaluationCompletion staleStore).2 = ⟨0, 0, 0, 0, 0, 0, none, "No assignments found"⟩ :=
  ⟨by decide!, by decide!,
    (checkEvaluationCompletion_counts staleStore).2.2.2.2.2.2.2.2 (by decide)⟩

/-! ## Theorems: the closed form of the allocation -/

theorem slotId_getElem (evaluators : List User) (hE : 0 < evaluators.length) (k : Nat) :
    ∃ e, evaluators[k % evaluators.length]? = some e ∧ slotId evaluators k = e.id := by
  have hlt : k % evaluators.length < evaluators.length := Nat.mod_lt _ hE
  refine ⟨evaluators[k % evaluators.length], List.getElem?_eq_getElem hlt, ?_⟩
  unfold slotId
  rw [List.getElem?_eq_getElem hlt]

theorem roundRobin_getElem (evaluators : List User) (adminId : Id) :
    ∀ (teams : List User) (c i : Nat) (team : User), teams[i]? = some team →
      (roundRobin evaluators adminId c teams)[i]? =
        some ⟨team.id, [slotId evaluators (c + 3 * i), slotId evaluators (c + 3 * i + 1),
          slotId evaluators (c + 3 * i + 2)], adminId, Status.active⟩ := by
  intro teams
  induction teams with
  | nil =>
    intro c i team h
    simp at h
  | cons t rest ih =>
    intro c i team h
    cases i with
    | zero =>
      simp only [List.getElem?_cons_zero, Option.some.injEq] at h
      rw [← h]
      simp only [roundRobin, List.getElem?_cons_zero, Nat.mul_zero, Nat.add_zero]
    | succ i =>
      simp only [List.getElem?_cons_succ] at h
      have := ih (c + 3) i team h
      simp only [roundRobin, List.getElem?_cons_succ]
      rw [this]
      have e : c + 3 + 3 * i = c + 3 * (i + 1) := by ring
      rw [e]

/-- C27. When autoAssign runs on a store with pairwise distinct user ids, E ≥ 3
approved evaluators, at least one team and no Assignment, the Assignments it
stores are, in the order of the teams, one per team, and slot j (j = 0, 1, 2)
of the Assignment of team number i is the evaluator number (3 i + j) mod E of
the evaluator list.  The stored Assignments depend on the store only through
the evaluator list and the team list. -/
theorem autoAssign_round_robin_slots (st : State) (adminId : Id) (hU : userIdsDistinct st)
    (hE : 3 ≤ (approvedEvaluators st).length) (hT : (teams st).length ≠ 0)
    (hA : st.assignments.length = 0) :
    (autoAssign st adminId).1.assignments.length = (teams st).length ∧
    (∀ i team, (teams st)[i]? = some team →
      ∃ a, (autoAssign st adminId).1.assignments[i]? = some a ∧ a.teamId = team.id ∧
        a.evaluatorIds.length = 3 ∧
        ∀ j, j < 3 →
          ∃ e, (approvedEvaluators st)[(3 * i + j) % (approvedEvaluators st).length]? = some e ∧
            a.evaluatorIds[j]? = some e.id) ∧
    (∀ st2, userIdsDistinct st2 → approvedEvaluators st2 = approvedEvaluators st →
      teams st2 = teams st → st2.assignments.length = 0 →
      (autoAssign st2 adminId).1.assignments = (autoAssign st adminId).1.assignments) := by
  have hsucc := autoAssign_success st adminId hU hE hT hA
  have hpos : 0 < (approvedEvaluators st).length := by omega
  refine ⟨?_, ?_, ?_⟩
  · rw [hsucc]
    exact roundRobin_length _ _ _ _
  · intro i team hteam
    rw [hsucc]
    refine ⟨_, roundRobin_getElem (approvedEvaluators st) adminId (teams st) 0 i team hteam,
      rfl, rfl, ?_⟩
    intro j hj
    obtain ⟨e, he, hid⟩ := slotId_getElem (approvedEvaluators st) hpos (3 * i + j)
    refine ⟨e, he, ?_⟩
    rw [← hid]
    have hj3 : j = 0 ∨ j = 1 ∨ j = 2 := by omega
    rcases hj3 with h | h | h <;> subst h <;> simp
  · intro st2 hU2 hE2 hT2 hA2
    rw [hsucc, autoAssign_success st2 adminId hU2 (by rw [hE2]; exact hE) (by rw [hT2]; exact hT)
      hA2, hE2, hT2]

theorem autoAssign_round_robin_slots_witness :
    userIdsDistinct readyStore ∧ 3 ≤ (approvedEvaluators readyStore).length ∧
    (teams readyStore).length ≠ 0 ∧ readyStore.assignments.length = 0 ∧
    (autoAssign readyStore 0).1.assignments.length = (teams readyStore).length ∧
    (autoAssign readyStore 0).1.assignments = [⟨5, [1, 2, 3], 0, Status.active⟩] :=
  ⟨by decide, by decide, by decide, by decide,
    (autoAssign_round_robin_slots readyStore 0 (by decide) (by decide) (by decide)
      (by decide)).1,
    by decide⟩

/-! ## Theorems: the published snapshot -/

theorem publishAll_append (results : List Result) (calls : List (State × Id × Nat))
    (st : State) (adminId : Id) (now : Nat) :
    publishAll results (calls ++ [(st, adminId, now)]) =
      (publishResults st (publishAll results calls) adminId now).1 := by
  induction calls generalizing results with
  | nil => rfl
  | cons c rest ih =>
    obtain ⟨st1, adminId1, now1⟩ := c
    simp only [List.cons_append, publishAll]
    exact ih _

/-- Whether `publishResults` succeeds does not depend on the Result
collection. -/
theorem publishResults_ok_indep (st : State) (results results2 : List Result) (adminId : Id)
    (now : Nat) (d : PublishData) (h : (publishResults st results adminId now).2 = Except.ok d) :
    (publishResults st results2 adminId now).2 = Except.ok d := by
  obtain ⟨leaderboard, hg, hne, hvalid, h0, h1, hd, -⟩ :=
    publishResults_ok_shape st results adminId now d h
  rw [hd]
  exact publishResults_ok_of st results2 adminId now leaderboard h0 h1 hg hne hvalid

/-- C21. Starting from an empty Result collection, after any sequence of
publishResults calls either no call has succeeded and the collection is still
empty, or the collection holds exactly one Result, whose leaderboard is the
leaderboard generated (and returned) by the last successful call of the
sequence. -/
theorem publishAll_single_snapshot (calls : List (State × Id × Nat)) :
    (publishAll [] calls = [] ∧
      ∀ c ∈ calls, ∀ results d, (publishResults c.1 results c.2.1 c.2.2).2 ≠ Except.ok d) ∨
    ∃ pre st adminId now post leaderboard,
      calls = pre ++ (st, adminId, now) :: post ∧
      generateLeaderboard st = Except.ok leaderboard ∧
      (publishResults st (publishAll [] pre) adminId now).2 =
        Except.ok ⟨"Results published successfully", some now, leaderboard,
          leaderboard.length⟩ ∧
      (∀ c ∈ post, ∀ results d, (publishResults c.1 results c.2.1 c.2.2).2 ≠ Except.ok d) ∧
      publishAll [] calls = [⟨true, some now, some adminId, leaderboard⟩] := by
  induction calls using List.reverseRecOn with
  | nil =>
    left
    exact ⟨rfl, fun c hc => absurd hc (List.not_mem_nil c)⟩
  | append_singleton calls c ih =>
    obtain ⟨st, adminId, now⟩ := c
    rw [publishAll_append]
    by_cases hs : ∃ d, (publishResults st (publishAll [] calls) adminId now).2 = Except.ok d
    · obtain ⟨d, hd⟩ := hs
      obtain ⟨leaderboard, hg, -, -, -, -, hdata, hstore⟩ :=
        publishResults_ok_shape st (publishAll [] calls) adminId now d hd
      have htail : (publishAll [] calls).tail = [] := by
        rcases ih with ⟨h, -⟩ | ⟨_, _, _, _, _, _, -, -, -, -, h⟩ <;> rw [h] <;> rfl
      right
      refine ⟨calls, st, adminId, now, [], leaderboard, rfl, hg, ?_,
        fun c hc => absurd hc (List.not_mem_nil c), ?_⟩
      · rw [hd, hdata]
      · rw [hstore, htail]
    · have hfail : ∀ results d, (publishResults st results adminId now).2 ≠ Except.ok d := by
        intro results d hd
        exact hs ⟨d, publishResults_ok_indep st results _ adminId now d hd⟩
      obtain ⟨message, hm⟩ := publishResults_error_unchanged st (publishAll [] calls) adminId now
        (hfail _)
      rw [hm]
      rcases ih with ⟨h, hall⟩ | ⟨pre, st1, adminId1, now1, post, leaderboard, hc, hg, hok, hpost,
        h⟩
      · left
        refine ⟨h, ?_⟩
        intro c hc
        rcases List.mem_append.1 hc with h1 | h1
        · exact hall c h1
        · simp only [List.mem_singleton] at h1
          rw [h1]
          exact hfail
      · right
        refine ⟨pre, st1, adminId1, now1, post ++ [(st, adminId, now)], leaderboard, ?_, hg, hok,
          ?_, h⟩
        · rw [hc]
          simp
        · intro c hc
          rcases List.mem_append.1 hc with h1 | h1
          · exact hpost c h1
          · simp only [List.mem_singleton] at h1
            rw [h1]
            exact hfail

theorem publishAll_single_snapshot_witness :
    publishAll [] [(completeStore, 0, 7), (pairStore, 0, 8), (submittedStore, 0, 9)] =
      [⟨true, some 8, some 0,
        [⟨1, 5, "Team A", 100, 3⟩, ⟨2, 6, "Team B", 9967 / 100, 3⟩]⟩] ∧
    ((publishAll [] [(completeStore, 0, 7), (pairStore, 0, 8), (submittedStore, 0, 9)] = [] ∧
      ∀ c ∈ [(completeStore, 0, 7), (pairStore, 0, 8), (submittedStore, 0, 9)],
        ∀ results d, (publishResults c.1 results c.2.1 c.2.2).2 ≠ Except.ok d) ∨
    ∃ pre st adminId now post leaderboard,
      [(completeStore, 0, 7), (pairStore, 0, 8), (submittedStore, 0, 9)] =
        pre ++ (st, adminId, now) :: post ∧
      generateLeaderboard st = Except.ok leaderboard ∧
      (publishResults st (publishAll [] pre) adminId now).2 =
        Except.ok ⟨"Results published successfully", some now, leaderboard,
          leaderboard.length⟩ ∧
      (∀ c ∈ post, ∀ results d, (publishResults c.1 results c.2.1 c.2.2).2 ≠ Except.ok d) ∧
      publishAll [] [(completeStore, 0, 7), (pairStore, 0, 8), (submittedStore, 0, 9)] =
        [⟨true, some now, some adminId, leaderboard⟩]) :=
  ⟨by decide!,
    publishAll_single_snapshot [(completeStore, 0, 7), (pairStore, 0, 8), (submittedStore, 0, 9)]⟩

theorem skewStore_reachable : Reachable skewStore := by
  have h0 := Reachable.register readyStore 6 (teamBody "Team B" "b@x.org") true
    readyStore_reachable (by decide)
  have h1 := Reachable.autoAssign _ 0 h0 (by decide)
  have h2 := Reachable.saveSubmission _ 5 "https://video.example/a" true 9 h1
    (by decide) (by decide)
  have h3 := Reachable.saveSubmission _ 6 "https://video.example/b" true 10 h2
    (by decide) (by decide)
  have a3 : ∀ i, i = 1 ∨ i = 2 ∨ i = 3 → authorized
      (saveSubmission (saveSubmission (autoAssign
        (register readyStore 6 (teamBody "Team B" "b@x.org") true).1 0).1
        5 "https://video.example/a" true 9).1 6 "https://video.example/b" true 10).1
      Role.evaluator i := by
    intro i hi
    rcases hi with h | h | h <;> subst h <;> decide
  have h4 := Reachable.submitEvaluation _ 1 5 maxBody h3 (a3 1 (by simp))
  have a4 := fun i hi => authorized_after_submit _ 1 5 maxBody _ i (a3 i hi)
  have h5 := Reachable.submitEvaluation _ 2 5 maxBody h4 (a4 2 (by simp))
  have a5 := fun i hi => authorized_after_submit _ 2 5 maxBody _ i (a4 i hi)
  have h6 := Reachable.submitEvaluation _ 3 5 sixBody h5 (a5 3 (by simp))
  have a6 := fun i hi => authorized_after_submit _ 3 5 sixBody _ i (a5 i hi)
  have h7 := Reachable.submitEvaluation _ 1 6 maxBody h6 (a6 1 (by simp))
  have a7 := fun i hi => authorized_after_submit _ 1 6 maxBody _ i (a6 i hi)
  have h8 := Reachable.submitEvaluation _ 2 6 maxBody h7 (a7 2 (by simp))
  have a8 := fun i hi => authorized_after_submit _ 2 6 maxBody _ i (a7 i hi)
  exact Reachable.submitEvaluation _ 3 6 maxBody h8 (a8 3 (by simp))

/-- C22 (the code at the failing input). In a reachable store teams 5 and 6
both have an Assignment and 3 Evaluation rows each.  The third evaluation of
team 5 carried 6 for relevanceToLearning (total 101), so the average 100.33
failed the validators of the Submission: team 5 has its three rows but
evaluationCount 2 and no averageScore.  `publishResults` finds no incomplete
team and succeeds, and the leaderboard it publishes lists team 6 only. -/
theorem publishResults_omits_assigned_team :
    Reachable skewStore ∧
    skewStore.assignments.map (fun a => a.teamId) = [5, 6] ∧
    (rowsOf skewStore 5).map (fun e => e.totalScore) = [100, 100, 101] ∧
    (rowsOf skewStore 6).map (fun e => e.totalScore) = [100, 100, 100] ∧
    skewStore.submissions =
      [⟨9, 5, "https://video.example/a", 2, none⟩,
        ⟨10, 6, "https://video.example/b", 3, some 100⟩] ∧
    incompleteAssignments skewStore = [] ∧
    publishResults skewStore [] 0 8 =
      ([⟨true, some 8, some 0, [⟨1, 6, "Team B", 100, 3⟩]⟩],
        Except.ok ⟨"Results published successfully", some 8,
          [⟨1, 6, "Team B", 100, 3⟩], 1⟩) ∧
    (([⟨1, 6, "Team B", 100, 3⟩] : List LeaderboardEntry).map
      (fun e => e.teamId)).count 5 = 0 :=
  ⟨skewStore_reachable, by decide!, by decide!, by decide!, by decide!, by decide!,
    by decide!, by decide⟩

/-! ## Theorems: the manual batch of assignEvaluators -/

theorem any_eq_find_isSome {α : Type} (p : α → Bool) (l : List α) :
    l.any p = (l.find? p).isSome := by
  induction l with
  | nil => rfl
  | cons x rest ih =>
    cases hp : p x with
    | true => simp [List.any_cons, List.find?_cons, hp]
    | false => simp [List.any_cons, List.find?_cons, hp, ih]

/-- The two outcomes of `manualAssign`: an error with the store unchanged, or
a new Assignment for a team that had none. -/
theorem manualAssign_outcome (st : State) (teamId : Id) (ids : List Id) (adminId : Id) :
    (∃ message, manualAssign st teamId ids adminId = (st, Except.error message)) ∨
    (findAssignmentByTeam st teamId = none ∧
      manualAssign st teamId ids adminId =
        ({ st with assignments := st.assignments ++ [⟨teamId, ids, adminId, Status.active⟩] },
          Except.ok ⟨"Assignment created successfully",
            ⟨teamId, ids, adminId, Status.active⟩, false⟩)) := by
  by_cases hv : (validateAssignment st teamId ids).valid = true
  · obtain ⟨-, hno, hval⟩ := validateAssignment_valid st teamId ids hv
    have hany : st.assignments.any (fun a => decide (a.teamId = teamId)) = false := by
      rw [any_eq_find_isSome]
      unfold findAssignmentByTeam at hno
      rw [hno]
      rfl
    right
    refine ⟨hno, ?_⟩
    unfold manualAssign
    simp only [hv, Bool.not_true, Bool.false_eq_true, if_false, hno, hval, if_true, hany]
  · left
    refine ⟨(validateAssignment st teamId ids).message, ?_⟩
    unfold manualAssign
    simp [hv]

theorem validateAssignment_congr (st st2 : State) (teamId : Id) (ids : List Id)
    (hu : st2.users = st.users)
    (hf : findAssignmentByTeam st2 teamId = findAssignmentByTeam st teamId) :
    validateAssignment st2 teamId ids = validateAssignment st teamId ids := by
  unfold validateAssignment findUserById
  rw [hu, hf]

/-- What `manualAssign` reports is decided by `validateAssignment`. -/
theorem manualAssign_snd (st : State) (teamId : Id) (ids : List Id) (adminId : Id) :
    (manualAssign st teamId ids adminId).2 =
      if (validateAssignment st teamId ids).valid = true then
        Except.ok ⟨"Assignment created successfully",
          ⟨teamId, ids, adminId, Status.active⟩, false⟩
      else Except.error (validateAssignment st teamId ids).message := by
  by_cases hv : (validateAssignment st teamId ids).valid = true
  · obtain ⟨-, hno, hval⟩ := validateAssignment_valid st teamId ids hv
    have hany : st.assignments.any (fun a => decide (a.teamId = teamId)) = false := by
      rw [any_eq_find_isSome]
      unfold findAssignmentByTeam at hno
      rw [hno]
      rfl
    rw [if_pos hv]
    unfold manualAssign
    simp only [hv, Bool.not_true, Bool.false_eq_true, if_false, hno, hval, if_true, hany]
  · rw [if_neg hv]
    unfold manualAssign
    simp [hv]

/-- The outcome reported by `manualAssign` depends on the store only through
the users and the Assignment of the team. -/
theorem manualAssign_congr (st st2 : State) (teamId : Id) (ids : List Id) (adminId : Id)
    (hu : st2.users = st.users)
    (hf : findAssignmentByTeam st2 teamId = findAssignmentByTeam st teamId) :
    (manualAssign st2 teamId ids adminId).2 = (manualAssign st teamId ids adminId).2 := by
  rw [manualAssign_snd, manualAssign_snd, validateAssignment_congr st st2 teamId ids hu hf]

/-- One turn of the loop of the manual mode: the item is recorded in `results`
and its Assignment is appended to the store, or it is recorded in `errors`
and the store is unchanged. -/
theorem manualLoop_cons (adminId : Id) (st : State) (item : ManualItem) :
    (∃ teamId ids, item = ⟨some teamId, some ids⟩ ∧
      findAssignmentByTeam st teamId = none ∧
      (manualAssign st teamId ids adminId).2 =
        Except.ok ⟨"Assignment created successfully",
          ⟨teamId, ids, adminId, Status.active⟩, false⟩ ∧
      ∀ (rest : List ManualItem) (results : List ItemResult) (errors : List ItemError),
        manualLoop adminId st (item :: rest) results errors =
          manualLoop adminId
            { st with assignments :=
                st.assignments ++ [⟨teamId, ids, adminId, Status.active⟩] } rest
            (results ++ [⟨teamId, "Assignment created successfully",
              ⟨teamId, ids, adminId, Status.active⟩⟩]) errors) ∨
    (∃ message,
      (∀ teamId ids, item = ⟨some teamId, some ids⟩ →
        (manualAssign st teamId ids adminId).2 = Except.error message) ∧
      ∀ (rest : List ManualItem) (results : List ItemResult) (errors : List ItemError),
        manualLoop adminId st (item :: rest) results errors =
          manualLoop adminId st rest results (errors ++ [⟨item.teamId, message⟩])) := by
  obtain ⟨teamId, evaluatorIds⟩ := item
  cases teamId with
  | none =>
    right
    refine ⟨"Invalid assignment data: teamId and evaluatorIds array required", ?_, ?_⟩
    · intro t ids h
      cases h
    · intro rest results errors
      cases evaluatorIds <;> rfl
  | some t =>
    cases evaluatorIds with
    | none =>
      right
      refine ⟨"Invalid assignment data: teamId and evaluatorIds array required", ?_,
        fun _ _ _ => rfl⟩
      intro t2 ids h
      cases h
    | some ids =>
      rcases manualAssign_outcome st t ids adminId with ⟨m, h1⟩ | ⟨hno, h1⟩
      · right
        refine ⟨m, ?_, ?_⟩
        · intro t2 ids2 h
          cases h
          rw [h1]
        · intro rest results errors
          simp only [manualLoop, h1]
      · left
        refine ⟨t, ids, rfl, hno, by rw [h1], ?_⟩
        intro rest results errors
        simp only [manualLoop, h1]

theorem manualLoop_append (adminId : Id) :
    ∀ (l1 l2 : List ManualItem) (st : State) (results : List ItemResult)
      (errors : List ItemError),
      manualLoop adminId st (l1 ++ l2) results errors =
        manualLoop adminId (manualLoop adminId st l1 results errors).1 l2
          (manualLoop adminId st l1 results errors).2.1
          (manualLoop adminId st l1 results errors).2.2 := by
  intro l1
  induction l1 with
  | nil =>
    intro l2 st results errors
    rfl
  | cons item rest ih =>
    intro l2 st results errors
    obtain ⟨teamId, evaluatorIds⟩ := item
    rw [List.cons_append]
    cases teamId with
    | none =>
      cases evaluatorIds <;> simp only [manualLoop] <;> exact ih _ _ _ _
    | some t =>
      cases evaluatorIds with
      | none =>
        simp only [manualLoop]
        exact ih _ _ _ _
      | some ids =>
        cases h : manualAssign st t ids adminId with
        | mk st2 outcome =>
          cases outcome with
          | ok r =>
            simp only [manualLoop, h]
            exact ih _ _ _ _
          | error m =>
            simp only [manualLoop, h]
            exact ih _ _ _ _

/-- The loop of the manual mode never touches the users, keeps every
Assignment, only extends `results` and `errors`, adds one entry per item,
and leaves the Assignment of a team as it was when no item for that team is
one that `manualAssign` accepts on the store the loop starts from. -/
theorem manualLoop_facts (adminId : Id) :
    ∀ (l : List ManualItem) (st : State) (results : List ItemResult)
      (errors : List ItemError),
      (manualLoop adminId st l results errors).1.users = st.users ∧
      (∀ a ∈ st.assignments, a ∈ (manualLoop adminId st l results errors).1.assignments) ∧
      (∀ r ∈ results, r ∈ (manualLoop adminId st l results errors).2.1) ∧
      (∀ e ∈ errors, e ∈ (manualLoop adminId st l results errors).2.2) ∧
      (manualLoop adminId st l results errors).2.1.length +
          (manualLoop adminId st l results errors).2.2.length =
        results.length + errors.length + l.length ∧
      (∀ t, (∀ x ∈ l, ∀ ids r, x = ⟨some t, some ids⟩ →
          (manualAssign st t ids adminId).2 ≠ Except.ok r) →
        findAssignmentByTeam (manualLoop adminId st l results errors).1 t =
          findAssignmentByTeam st t) := by
  intro l
  induction l with
  | nil =>
    intro st results errors
    exact ⟨rfl, fun a ha => ha, fun r hr => hr, fun e he => he, rfl, fun t _ => rfl⟩
  | cons item rest ih =>
    intro st results errors
    rcases manualLoop_cons adminId st item with ⟨t, ids, hitem, -, hok, h1⟩ | ⟨m, -, h1⟩
    · rw [h1]
      obtain ⟨hu, ha, hr, he, hlen, hfind⟩ := ih
        { st with assignments := st.assignments ++ [⟨t, ids, adminId, Status.active⟩] }
        (results ++ [⟨t, "Assignment created successfully",
          ⟨t, ids, adminId, Status.active⟩⟩]) errors
      refine ⟨hu, fun a h => ha a (List.mem_append_left _ h),
        fun r h => hr r (List.mem_append_left _ h), he, ?_, ?_⟩
      · simp only [List.length_append, List.length_singleton, List.length_cons,
          List.length_nil] at hlen ⊢
        omega
      · intro t2 hall
        have hne : t ≠ t2 := by
          intro heq
          refine hall item (List.mem_cons_self _ _) ids
            ⟨"Assignment created successfully", ⟨t, ids, adminId, Status.active⟩, false⟩
            (by rw [hitem, heq]) ?_
          rw [← heq]
          exact hok
        have hstep : findAssignmentByTeam
            { st with assignments := st.assignments ++ [⟨t, ids, adminId, Status.active⟩] } t2 =
            findAssignmentByTeam st t2 := by
          unfold findAssignmentByTeam
          show List.find? _ (st.assignments ++ [_]) = _
          rw [List.find?_append]
          cases hf : st.assignments.find? (fun a => decide (a.teamId = t2)) with
          | some a => rfl
          | none =>
            simp only [Option.none_or, List.find?_cons, List.find?_nil]
            rw [show decide (t = t2) = false from decide_eq_false hne]
        rw [hfind t2 ?_, hstep]
        intro x hx ids2 r hxi
        rw [manualAssign_congr st
          { st with assignments := st.assignments ++ [⟨t, ids, adminId, Status.active⟩] }
          t2 ids2 adminId rfl hstep]
        exact hall x (List.mem_cons_of_mem _ hx) ids2 r hxi
    · rw [h1]
      obtain ⟨hu, ha, hr, he, hlen, hfind⟩ := ih st results
        (errors ++ [⟨item.teamId, m⟩])
      refine ⟨hu, ha, hr, fun e h => he e (List.mem_append_left _ h), ?_, ?_⟩
      · simp only [List.length_append, List.length_singleton, List.length_cons,
          List.length_nil] at hlen ⊢
        omega
      · intro t2 hall
        exact hfind t2 (fun x hx => hall x (List.mem_cons_of_mem _ hx))

/-- C25. For every non-empty manual batch, assignEvaluators answers with
results, errors and a summary where total is the batch length, successful the
number of results, failed the number of errors, and successful + failed =
total.  Each item, at its turn, adds exactly one entry to exactly one of
results and errors, and an item recorded in errors leaves the store unchanged.
An item is decided as manualAssign decides it on the store before the batch,
whatever its siblings are: invalid siblings and siblings for other teams never
matter (the hypothesis asks only that every earlier item naming the same team
is one manualAssign rejects).  When manualAssign accepts the item it is in
results and its Assignment in the store; when manualAssign rejects it, it is
in errors with the same message. -/
theorem assignEvaluators_manual_batch (st : State) (adminId : Id) (pre : List ManualItem)
    (item : ManualItem) (post : List ManualItem) :
    ∃ st2 results errors,
      assignEvaluators st (some "manual") (some (pre ++ item :: post)) adminId =
        (st2, Except.ok (AssignResponse.manual results errors
          ⟨(pre ++ item :: post).length, results.length, errors.length⟩)) ∧
      results.length + errors.length = (pre ++ item :: post).length ∧
      ((∃ r, (manualLoop adminId st (pre ++ [item]) [] []).2.1 =
            (manualLoop adminId st pre [] []).2.1 ++ [r] ∧
          (manualLoop adminId st (pre ++ [item]) [] []).2.2 =
            (manualLoop adminId st pre [] []).2.2 ∧
          item.teamId = some r.teamId ∧ r ∈ results ∧ r.assignment ∈ st2.assignments) ∨
        (∃ e, (manualLoop adminId st (pre ++ [item]) [] []).2.2 =
            (manualLoop adminId st pre [] []).2.2 ++ [e] ∧
          (manualLoop adminId st (pre ++ [item]) [] []).2.1 =
            (manualLoop adminId st pre [] []).2.1 ∧
          (manualLoop adminId st (pre ++ [item]) [] []).1 =
            (manualLoop adminId st pre [] []).1 ∧
          e.teamId = item.teamId ∧ e ∈ errors)) ∧
      (∀ t ids, item = ⟨some t, some ids⟩ →
        (∀ x ∈ pre, ∀ ids2 r2, x = ⟨some t, some ids2⟩ →
          (manualAssign st t ids2 adminId).2 ≠ Except.ok r2) →
        (∀ r, (manualAssign st t ids adminId).2 = Except.ok r →
          ⟨t, r.message, r.assignment⟩ ∈ results ∧ r.assignment ∈ st2.assignments) ∧
        (∀ m, (manualAssign st t ids adminId).2 = Except.error m →
          ⟨some t, m⟩ ∈ errors)) := by
  have hlen0 : ¬ (pre ++ item :: post).length = 0 := by simp
  have hresp : assignEvaluators st (some "manual") (some (pre ++ item :: post)) adminId =
      ((manualLoop adminId st (pre ++ item :: post) [] []).1,
        Except.ok (AssignResponse.manual (manualLoop adminId st (pre ++ item :: post) [] []).2.1
          (manualLoop adminId st (pre ++ item :: post) [] []).2.2
          ⟨(pre ++ item :: post).length,
            (manualLoop adminId st (pre ++ item :: post) [] []).2.1.length,
            (manualLoop adminId st (pre ++ item :: post) [] []).2.2.length⟩)) := by
    unfold assignEvaluators
    have hm : ¬ ("manual" = "auto") := by decide
    simp only [if_neg hm, if_true, if_neg hlen0]
  have hsum := (manualLoop_facts adminId (pre ++ item :: post) st [] []).2.2.2.2.1
  obtain ⟨hu, -, -, -, -, hfind⟩ := manualLoop_facts adminId pre st [] []
  have hwhole := manualLoop_append adminId pre (item :: post) st [] []
  have hturn := manualLoop_append adminId pre [item] st [] []
  refine ⟨_, _, _, hresp, by simpa using hsum, ?_, ?_⟩
  · rcases manualLoop_cons adminId (manualLoop adminId st pre [] []).1 item with
      ⟨t, ids, hitem, -, -, h1⟩ | ⟨m, -, h1⟩
    · left
      obtain ⟨-, hA, hR, -, -, -⟩ := manualLoop_facts adminId post
        { (manualLoop adminId st pre [] []).1 with assignments :=
            (manualLoop adminId st pre [] []).1.assignments ++
              [⟨t, ids, adminId, Status.active⟩] }
        ((manualLoop adminId st pre [] []).2.1 ++ [⟨t, "Assignment created successfully",
          ⟨t, ids, adminId, Status.active⟩⟩]) (manualLoop adminId st pre [] []).2.2
      refine ⟨⟨t, "Assignment created successfully", ⟨t, ids, adminId, Status.active⟩⟩,
        ?_, ?_, by rw [hitem], ?_, ?_⟩
      · rw [hturn, h1]; rfl
      · rw [hturn, h1]; rfl
      · rw [hwhole, h1]
        exact hR _ (List.mem_append_right _ (List.mem_singleton_self _))
      · rw [hwhole, h1]
        exact hA _ (List.mem_append_right _ (List.mem_singleton_self _))
    · right
      obtain ⟨-, -, -, hE, -, -⟩ := manualLoop_facts adminId post
        (manualLoop adminId st pre [] []).1 (manualLoop adminId st pre [] []).2.1
        ((manualLoop adminId st pre [] []).2.2 ++ [⟨item.teamId, m⟩])
      refine ⟨⟨item.teamId, m⟩, ?_, ?_, ?_, rfl, ?_⟩
      · rw [hturn, h1]; rfl
      · rw [hturn, h1]; rfl
      · rw [hturn, h1]; rfl
      · rw [hwhole, h1]
        exact hE _ (List.mem_append_right _ (List.mem_singleton_self _))
  · intro t ids hitem hpre
    have hcongr := manualAssign_congr st (manualLoop adminId st pre [] []).1 t ids adminId hu
      (hfind t hpre)
    rcases manualLoop_cons adminId (manualLoop adminId st pre [] []).1 item with
      ⟨t2, ids2, hitem2, -, hok, h1⟩ | ⟨m, hm, h1⟩
    · rw [hitem] at hitem2
      cases hitem2
      rw [hcongr] at hok
      obtain ⟨-, hA, hR, -, -, -⟩ := manualLoop_facts adminId post
        { (manualLoop adminId st pre [] []).1 with assignments :=
            (manualLoop adminId st pre [] []).1.assignments ++
              [⟨t, ids, adminId, Status.active⟩] }
        ((manualLoop adminId st pre [] []).2.1 ++ [⟨t, "Assignment created successfully",
          ⟨t, ids, adminId, Status.active⟩⟩]) (manualLoop adminId st pre [] []).2.2
      constructor
      · intro r hr
        rw [hok] at hr
        simp only [Except.ok.injEq] at hr
        rw [← hr]
        constructor
        · rw [hwhole, h1]
          exact hR _ (List.mem_append_right _ (List.mem_singleton_self _))
        · rw [hwhole, h1]
          exact hA _ (List.mem_append_right _ (List.mem_singleton_self _))
      · intro m hm
        rw [hok] at hm
        cases hm
    · have herr := hm t ids hitem
      rw [hcongr] at herr
      obtain ⟨-, -, -, hE, -, -⟩ := manualLoop_facts adminId post
        (manualLoop adminId st pre [] []).1 (manualLoop adminId st pre [] []).2.1
        ((manualLoop adminId st pre [] []).2.2 ++ [⟨item.teamId, m⟩])
      constructor
      · intro r hr
        rw [herr] at hr
        cases hr
      · intro m2 hm2
        rw [herr] at hm2
        simp only [Except.error.injEq] at hm2
        rw [← hm2, hwhole, h1]
        have : (⟨some t, m⟩ : ItemError) = ⟨item.teamId, m⟩ := by rw [hitem]
        rw [this]
        exact hE _ (List.mem_append_right _ (List.mem_singleton_self _))

theorem assignEvaluators_manual_batch_witness :
    ∃ st2 results errors,
      assignEvaluators readyStore (some "manual")
          (some [⟨some 6, some [1, 2, 3]⟩, ⟨some 5, some [1, 2, 3]⟩, ⟨none, none⟩]) 0 =
        (st2, Except.ok (AssignResponse.manual results errors
          ⟨3, results.length, errors.length⟩)) ∧
      (⟨5, "Assignment created successfully", ⟨5, [1, 2, 3], 0, Status.active⟩⟩ :
        ItemResult) ∈ results ∧
      (⟨5, [1, 2, 3], 0, Status.active⟩ : Assignment) ∈ st2.assignments := by
  obtain ⟨st2, results, errors, h1, -, -, h4⟩ :=
    assignEvaluators_manual_batch readyStore 0 [⟨some 6, some [1, 2, 3]⟩]
      ⟨some 5, some [1, 2, 3]⟩ [⟨none, none⟩]
  exact ⟨st2, results, errors, h1,
    (h4 5 [1, 2, 3] rfl (fun x hx ids2 r2 hxi => by
      simp only [List.mem_singleton] at hx
      subst hx
      simp at hxi)).1
      ⟨"Assignment created successfully", ⟨5, [1, 2, 3], 0, Status.active⟩, false⟩ (by decide)⟩

/-! ## Theorems: getEvaluatorWorkload -/

theorem approveEvaluator_assignments (st : State) (evaluatorId : Id) (approved : Option Bool) :
    (approveEvaluator st evaluatorId approved).1.assignments = st.assignments := by
  unfold approveEvaluator
  cases approved with
  | none => rfl
  | some approved =>
    dsimp only
    cases findUserById st evaluatorId with
    | none => rfl
    | some evaluator =>
      dsimp only
      split_ifs <;> rfl

/-- On every reachable store the evaluator ids of an Assignment are pairwise
distinct. -/
theorem reachable_panels_nodup (st : State) (h : Reachable st) :
    ∀ a ∈ st.assignments, a.evaluatorIds.Nodup := by
  induction h with
  | empty => exact fun a ha => absurd ha (List.not_mem_nil a)
  | seedAdmin st newId _ _ ih =>
    unfold seedAdmin
    split_ifs
    · exact ih
    · exact ih
  | register st newId body schemaOk _ _ ih =>
    unfold register
    split
    · exact ih
    · split_ifs
      all_goals exact ih
  | saveSubmission st teamId videoUrl urlOk newId _ _ _ ih =>
    rw [(saveSubmission_users st teamId videoUrl urlOk newId).2]
    exact ih
  | autoAssign st adminId hr _ ih =>
    have hU := (reachable_storeInvariant st hr).1
    rcases autoAssign_state_cases_empty st adminId hU with hc | ⟨-, hE, hc⟩
    · rw [hc]; exact ih
    · rw [hc]
      intro a ha
      obtain ⟨k, hk, -, -⟩ := roundRobin_mem _ _ _ _ a ha
      rw [hk]
      exact slots_nodup _ (approvedEvaluators_ids_nodup st hU) hE k
  | manualAssign st teamId ids adminId _ _ ih =>
    rcases manualAssign_state_cases_new st teamId ids adminId with hc | ⟨-, -, hval, hc⟩
    · rw [hc]; exact ih
    · rw [hc]
      intro a ha
      rcases List.mem_append.1 ha with h1 | h1
      · exact ih a h1
      · simp only [List.mem_singleton] at h1
        rw [h1]
        exact ((evaluatorIdsValidator_iff ids).1 hval).2
  | submitEvaluation st evaluatorId teamId body _ _ ih =>
    rw [(submitEvaluation_users st evaluatorId teamId body).2]
    exact ih
  | approveEvaluator st _ evaluatorId approved _ _ ih =>
    rw [approveEvaluator_assignments]
    exact ih
  | deleteUser st _ userId _ _ ih =>
    unfold deleteUser
    cases findUserById st userId with
    | none => exact ih
    | some user =>
      dsimp only
      by_cases hadmin : user.role = Role.admin
      · rw [if_pos hadmin]; exact ih
      · rw [if_neg hadmin]
        have hpull : ∀ a ∈ st.assignments.map (fun a =>
            if userId ∈ a.evaluatorIds then
              { a with evaluatorIds := a.evaluatorIds.filter (fun i => decide (i ≠ userId)) }
            else a), a.evaluatorIds.Nodup := by
          intro a ha
          obtain ⟨b, hb, hba⟩ := List.mem_map.1 ha
          rw [← hba]
          by_cases hin : userId ∈ b.evaluatorIds
          · rw [if_pos hin]
            exact (ih b hb).filter _
          · rw [if_neg hin]
            exact ih b hb
        intro a ha
        by_cases hev : user.role = Role.evaluator
        · have hteam : ¬ user.role = Role.team := by rw [hev]; decide
          simp only [if_pos hev, if_neg hteam] at ha
          exact hpull a ha
        · simp only [if_neg hev] at ha
          by_cases hteam : user.role = Role.team
          · simp only [if_pos hteam] at ha
            exact ih a (List.mem_filter.1 ha).1
          · simp only [if_neg hteam] at ha
            exact ih a ha

/-- The count a workload map holds for an evaluator id. -/
theorem tally_updateFirst (k x : Id) :
    ∀ (m : List WorkloadEntry), m.any (fun w => decide (w.evaluatorId = k)) = true →
      (((updateFirst (fun w => decide (w.evaluatorId = k))
          (fun w => { w with assignedTeams := w.assignedTeams + 1 }) m).filter
          (fun w => decide (w.evaluatorId = x))).map (fun w => w.assignedTeams)).sum =
        ((m.filter (fun w => decide (w.evaluatorId = x))).map (fun w => w.assignedTeams)).sum +
          (if k = x then 1 else 0) := by
  intro m
  induction m with
  | nil =>
    intro h
    simp at h
  | cons w rest ih =>
    intro h
    by_cases hw : w.evaluatorId = k
    · have hp : decide (w.evaluatorId = k) = true := decide_eq_true hw
      simp only [updateFirst, hp, if_true]
      by_cases hx : k = x
      · have h1 : w.evaluatorId = x := hw.trans hx
        simp only [List.filter_cons, h1, decide_True, if_true, List.map_cons, List.sum_cons,
          if_pos hx]
        omega
      · have h1 : ¬ w.evaluatorId = x := fun h2 => hx (hw.symm.trans h2)
        simp only [List.filter_cons, h1, decide_False, if_neg hx, Nat.add_zero]
        rfl
    · have hp : decide (w.evaluatorId = k) = false := decide_eq_false hw
      have hrest : rest.any (fun w => decide (w.evaluatorId = k)) = true := by
        simpa [List.any_cons, hp] using h
      simp only [updateFirst, hp, Bool.false_eq_true, if_false]
      by_cases h1 : w.evaluatorId = x
      · simp only [List.filter_cons, h1, decide_True, if_true, List.map_cons, List.sum_cons]
        have := ih hrest
        simp only [h1] at this
        omega
      · simp only [List.filter_cons, h1, decide_False]
        exact ih hrest

theorem tallyEvaluator_count (m : List WorkloadEntry) (u : User) (x : Id) :
    (((tallyEvaluator m u).filter (fun w => decide (w.evaluatorId = x))).map
        (fun w => w.assignedTeams)).sum =
      ((m.filter (fun w => decide (w.evaluatorId = x))).map (fun w => w.assignedTeams)).sum +
        (if u.id = x then 1 else 0) := by
  unfold tallyEvaluator
  by_cases hany : m.any (fun w => decide (w.evaluatorId = u.id)) = true
  · simp only [hany, if_true]
    exact tally_updateFirst u.id x m hany
  · simp only [hany, Bool.false_eq_true, if_false]
    rw [tally_updateFirst u.id x _ (by simp)]
    congr 1
    rw [List.filter_append, List.map_append, List.sum_append]
    by_cases hx : u.id = x
    · simp [List.filter_cons, hx]
    · simp [List.filter_cons, hx]

theorem tallyEvaluator_ids (m : List WorkloadEntry) (u : User) :
    (tallyEvaluator m u).map (fun w => w.evaluatorId) =
      if u.id ∈ m.map (fun w => w.evaluatorId) then m.map (fun w => w.evaluatorId)
      else m.map (fun w => w.evaluatorId) ++ [u.id] := by
  unfold tallyEvaluator
  dsimp only
  rw [updateFirst_map_key (fun (w : WorkloadEntry) => decide (w.evaluatorId = u.id))
    (fun w => { w with assignedTeams := w.assignedTeams + 1 })
    (fun (w : WorkloadEntry) => w.evaluatorId) _ (fun _ _ _ => rfl)]
  by_cases hany : m.any (fun w => decide (w.evaluatorId = u.id)) = true
  · have hmem : u.id ∈ m.map (fun w => w.evaluatorId) := by
      obtain ⟨w, hw, hwid⟩ := List.any_eq_true.1 hany
      exact List.mem_map.2 ⟨w, hw, by simpa using hwid⟩
    rw [if_pos hany, if_pos hmem]
  · have hmem : ¬ u.id ∈ m.map (fun w => w.evaluatorId) := by
      intro hm
      obtain ⟨w, hw, hwid⟩ := List.mem_map.1 hm
      exact hany (List.any_eq_true.2 ⟨w, hw, by simpa using hwid⟩)
    rw [if_neg hany, if_neg hmem, List.map_append]
    rfl

/-- The tally of a list of evaluators into a workload map: the ids stay
pairwise distinct, an id is in the map when it was or when it is the id of one
of the evaluators, and its count grows by the number of its occurrences. -/
theorem foldl_tally (us : List User) :
    ∀ (m : List WorkloadEntry), (m.map (fun w => w.evaluatorId)).Nodup →
      ((us.foldl tallyEvaluator m).map (fun w => w.evaluatorId)).Nodup ∧
      (∀ x, x ∈ (us.foldl tallyEvaluator m).map (fun w => w.evaluatorId) ↔
        x ∈ m.map (fun w => w.evaluatorId) ∨ x ∈ us.map (fun u => u.id)) ∧
      ∀ x, ((((us.foldl tallyEvaluator m).filter (fun w => decide (w.evaluatorId = x))).map
          (fun w => w.assignedTeams)).sum =
        ((m.filter (fun w => decide (w.evaluatorId = x))).map (fun w => w.assignedTeams)).sum +
          (us.filter (fun u => decide (u.id = x))).length) := by
  induction us with
  | nil =>
    intro m hnd
    exact ⟨hnd, fun x => by simp, fun x => by simp⟩
  | cons u rest ih =>
    intro m hnd
    have hids := tallyEvaluator_ids m u
    have hnd2 : ((tallyEvaluator m u).map (fun w => w.evaluatorId)).Nodup := by
      rw [hids]
      by_cases hmem : u.id ∈ m.map (fun w => w.evaluatorId)
      · rw [if_pos hmem]; exact hnd
      · rw [if_neg hmem]
        exact List.nodup_append.2 ⟨hnd, List.nodup_singleton _, by
          intro y hy hy2
          simp only [List.mem_singleton] at hy2
          rw [hy2] at hy
          exact hmem hy⟩
    obtain ⟨h1, h2, h3⟩ := ih (tallyEvaluator m u) hnd2
    refine ⟨h1, ?_, ?_⟩
    · intro x
      rw [List.foldl_cons, h2 x, hids]
      by_cases hmem : u.id ∈ m.map (fun w => w.evaluatorId)
      · rw [if_pos hmem]
        simp only [List.map_cons, List.mem_cons]
        constructor
        · rintro (h | h)
          · exact Or.inl h
          · exact Or.inr (Or.inr h)
        · rintro (h | h | h)
          · exact Or.inl h
          · rw [h]; exact Or.inl hmem
          · exact Or.inr h
      · rw [if_neg hmem]
        simp only [List.map_cons, List.mem_cons, List.mem_append, List.mem_singleton]
        tauto
    · intro x
      rw [List.foldl_cons, h3 x, tallyEvaluator_count m u x]
      by_cases hx : u.id = x
      · simp only [if_pos hx, List.filter_cons, hx, decide_True, if_true, List.length_cons]
        omega
      · simp only [if_neg hx, List.filter_cons, hx, decide_False, Nat.add_zero]
        rfl

theorem foldl_assignments_tally (st : State) (l : List Assignment) :
    ∀ (m : List WorkloadEntry), (m.map (fun w => w.evaluatorId)).Nodup →
      ((l.foldl (fun workloadMap assignment =>
          (populateEvaluators st assignment).foldl tallyEvaluator workloadMap) m).map
          (fun w => w.evaluatorId)).Nodup ∧
      (∀ x, x ∈ (l.foldl (fun workloadMap assignment =>
          (populateEvaluators st assignment).foldl tallyEvaluator workloadMap) m).map
          (fun w => w.evaluatorId) ↔
        x ∈ m.map (fun w => w.evaluatorId) ∨
          ∃ a ∈ l, x ∈ (populateEvaluators st a).map (fun u => u.id)) ∧
      ∀ x, ((((l.foldl (fun workloadMap assignment =>
          (populateEvaluators st assignment).foldl tallyEvaluator workloadMap) m).filter
          (fun w => decide (w.evaluatorId = x))).map (fun w => w.assignedTeams)).sum =
        ((m.filter (fun w => decide (w.evaluatorId = x))).map (fun w => w.assignedTeams)).sum +
          (l.map (fun a =>
            ((populateEvaluators st a).filter (fun u => decide (u.id = x))).length)).sum) := by
  induction l with
  | nil =>
    intro m hnd
    exact ⟨hnd, fun x => by simp, fun x => by simp⟩
  | cons a rest ih =>
    intro m hnd
    obtain ⟨g1, g2, g3⟩ := foldl_tally (populateEvaluators st a) m hnd
    obtain ⟨h1, h2, h3⟩ := ih ((populateEvaluators st a).foldl tallyEvaluator m) g1
    refine ⟨h1, ?_, ?_⟩
    · intro x
      rw [List.foldl_cons, h2 x, g2 x]
      simp only [List.mem_cons, exists_eq_or_imp]
      tauto
    · intro x
      rw [List.foldl_cons, h3 x, g3 x, List.map_cons, List.sum_cons]
      omega

theorem populate_count (st : State) (a : Assignment) (x : Id) :
    ((populateEvaluators st a).filter (fun u => decide (u.id = x))).length =
      ((a.evaluatorIds.filter (fun i => (findUserById st i).isSome)).filter
        (fun i => decide (i = x))).length := by
  unfold populateEvaluators
  induction a.evaluatorIds with
  | nil => rfl
  | cons i rest ih =>
    cases hf : findUserById st i with
    | none =>
      simp only [List.filterMap_cons, hf, List.filter_cons, Option.isSome_none,
        Bool.false_eq_true, if_false]
      exact ih
    | some u =>
      have hid := (findUserById_some st i u hf).2
      simp only [List.filterMap_cons, hf, List.filter_cons, Option.isSome_some, if_true, hid]
      by_cases hx : i = x
      · simp only [hx, decide_True, if_true, List.length_cons]
        rw [ih]
      · simp only [hx, decide_False]
        exact ih

theorem populate_ids (st : State) (a : Assignment) (x : Id) :
    x ∈ (populateEvaluators st a).map (fun u => u.id) ↔
      x ∈ a.evaluatorIds ∧ ∃ u ∈ st.users, u.id = x := by
  unfold populateEvaluators
  constructor
  · intro h
    obtain ⟨u, hu, hux⟩ := List.mem_map.1 h
    obtain ⟨i, hi, hiu⟩ := List.mem_filterMap.1 hu
    obtain ⟨hmem, hid⟩ := findUserById_some st i u hiu
    rw [← hux, hid]
    exact ⟨hi, u, hmem, hid⟩
  · rintro ⟨hi, hex⟩
    obtain ⟨u, hu⟩ := findUserById_of_mem st x hex
    exact List.mem_map.2 ⟨u, List.mem_filterMap.2 ⟨x, hi, hu⟩, (findUserById_some st x u hu).2⟩

theorem filter_key_singleton {α β : Type} [DecidableEq β] (key : α → β) :
    ∀ (l : List α), (l.map key).Nodup → ∀ w ∈ l,
      l.filter (fun v => decide (key v = key w)) = [w] := by
  intro l
  induction l with
  | nil => intro _ w hw; exact absurd hw (List.not_mem_nil w)
  | cons v rest ih =>
    intro hnd w hw
    rw [List.map_cons, List.nodup_cons] at hnd
    rcases List.mem_cons.1 hw with h1 | h1
    · rw [h1, List.filter_cons]
      simp only [decide_True, if_true, List.cons.injEq, true_and]
      apply List.filter_eq_nil_iff.2
      intro y hy hkey
      simp only [decide_eq_true_eq] at hkey
      exact hnd.1 (by rw [← hkey]; exact List.mem_map_of_mem key hy)
    · have hne : ¬ key v = key w := by
        intro hkey
        exact hnd.1 (by rw [hkey]; exact List.mem_map_of_mem key h1)
      rw [List.filter_cons]
      simp only [hne, decide_False, Bool.false_eq_true, if_false]
      exact ih hnd.2 w h1

/-- The workload map before sorting: ids pairwise distinct, one entry for each
existing user named by an active Assignment, holding the tally
`assignedTeams`. -/
theorem workloadMap_spec (st : State) :
    (((st.assignments.filter (fun a => decide (a.status = Status.active))).foldl
      (fun workloadMap assignment =>
        (populateEvaluators st assignment).foldl tallyEvaluator workloadMap) []).map
      (fun w => w.evaluatorId)).Nodup ∧
    (∀ x, x ∈ ((st.assignments.filter (fun a => decide (a.status = Status.active))).foldl
      (fun workloadMap assignment =>
        (populateEvaluators st assignment).foldl tallyEvaluator workloadMap) []).map
      (fun w => w.evaluatorId) ↔
      (∃ u ∈ st.users, u.id = x) ∧
        ∃ a ∈ st.assignments, a.status = Status.active ∧ x ∈ a.evaluatorIds) ∧
    ∀ w ∈ (st.assignments.filter (fun a => decide (a.status = Status.active))).foldl
      (fun workloadMap assignment =>
        (populateEvaluators st assignment).foldl tallyEvaluator workloadMap) [],
      w.assignedTeams = assignedTeams st w.evaluatorId := by
  obtain ⟨h1, h2, h3⟩ := foldl_assignments_tally st
    (st.assignments.filter (fun a => decide (a.status = Status.active))) [] List.nodup_nil
  refine ⟨h1, ?_, ?_⟩
  · intro x
    rw [h2 x]
    simp only [List.map_nil, List.not_mem_nil, false_or]
    constructor
    · rintro ⟨a, ha, hx⟩
      obtain ⟨ha1, ha2⟩ := List.mem_filter.1 ha
      obtain ⟨hin, hex⟩ := (populate_ids st a x).1 hx
      exact ⟨hex, a, ha1, by simpa using ha2, hin⟩
    · rintro ⟨hex, a, ha, hact, hin⟩
      exact ⟨a, List.mem_filter.2 ⟨ha, by simpa using hact⟩, (populate_ids st a x).2 ⟨hin, hex⟩⟩
  · intro w hw
    have hsum := h3 w.evaluatorId
    rw [filter_key_singleton (fun (v : WorkloadEntry) => v.evaluatorId) _ h1 w hw] at hsum
    simp only [List.map_cons, List.map_nil, List.sum_cons, List.sum_nil, List.filter_nil,
      Nat.add_zero, Nat.zero_add] at hsum
    rw [hsum]
    unfold assignedTeams
    congr 1
    apply List.map_congr_left
    intro a _
    exact populate_count st a w.evaluatorId

/-- C26 (counterexample). With 40 approved evaluators and 17 teams,
`autoAssign` fills 51 slots: getEvaluatorWorkload lists 40 evaluators whose
assignedTeams add up to 51 and reports averageWorkload 1.27, whereas 51 / 40 =
1.275 rounds to 1.28 (the double nearest to 1.275 lies below it). -/
theorem getEvaluatorWorkload_average_not_rounded :
    (getEvaluatorWorkload fleetStore).totalEvaluators = 40 ∧
    ((getEvaluatorWorkload fleetStore).workload.map (fun w => w.assignedTeams)).sum = 51 ∧
    (getEvaluatorWorkload fleetStore).averageWorkload = 127 / 100 ∧
    jsDiv 51 40 = 2871044762448691 / 2251799813685248 ∧
    toFixed2 (51 / 40) = 128 / 100 ∧
    (127 / 100 : ℚ) ≠ 128 / 100 :=
  ⟨by decide!, by decide!, by decide!, by decide!, by decide!, by norm_num⟩

/-- C26 (amended). On a reachable store getEvaluatorWorkload lists each
evaluator once: an id is listed exactly when it is the id of an existing user
that an active Assignment contains, and its assignedTeams is the number of
distinct teams whose active Assignment contains it.  The list is in
non-increasing order of assignedTeams, totalEvaluators is its length, and
averageWorkload is what the code computes in double arithmetic: the sum of
assignedTeams divided by the number of listed evaluators, written with two
decimals (`toFixed(2)`), and 0 when none is listed. -/
theorem getEvaluatorWorkload_report (st : State) (hR : Reachable st) :
    ((getEvaluatorWorkload st).workload.map (fun w => w.evaluatorId)).Nodup ∧
    (∀ x, x ∈ (getEvaluatorWorkload st).workload.map (fun w => w.evaluatorId) ↔
      (∃ u ∈ st.users, u.id = x) ∧
        ∃ a ∈ st.assignments, a.status = Status.active ∧ x ∈ a.evaluatorIds) ∧
    (∀ w ∈ (getEvaluatorWorkload st).workload,
      w.assignedTeams =
        ((st.assignments.filter (fun a =>
          decide (a.status = Status.active) && decide (w.evaluatorId ∈ a.evaluatorIds))).map
          (fun a => a.teamId)).dedup.length) ∧
    (getEvaluatorWorkload st).workload.Pairwise (fun a b => b.assignedTeams ≤ a.assignedTeams) ∧
    (getEvaluatorWorkload st).totalEvaluators = (getEvaluatorWorkload st).workload.length ∧
    (getEvaluatorWorkload st).averageWorkload =
      (if (getEvaluatorWorkload st).workload.length = 0 then 0
        else toFixed2
          (jsDiv ((((getEvaluatorWorkload st).workload.map (fun w => w.assignedTeams)).sum :
              Nat) : ℚ)
            ((getEvaluatorWorkload st).workload.length : ℚ))) := by
  obtain ⟨h1, h2, h3⟩ := workloadMap_spec st
  have hperm : (getEvaluatorWorkload st).workload.Perm
      ((st.assignments.filter (fun a => decide (a.status = Status.active))).foldl
        (fun workloadMap assignment =>
          (populateEvaluators st assignment).foldl tallyEvaluator workloadMap) []) :=
    List.perm_insertionSort _ _
  have hpanels := reachable_panels_nodup st hR
  have hL := reachable_ledger st hR
  refine ⟨(hperm.map _).nodup_iff.2 h1, ?_, ?_, ?_, rfl, ?_⟩
  · intro x
    rw [(hperm.map (fun w => w.evaluatorId)).mem_iff]
    exact h2 x
  · intro w hw
    have hw2 := hperm.mem_iff.1 hw
    rw [h3 w hw2]
    have hex : ∃ u ∈ st.users, u.id = w.evaluatorId :=
      ((h2 w.evaluatorId).1 (List.mem_map_of_mem _ hw2)).1
    obtain ⟨u, hu⟩ := findUserById_of_mem st w.evaluatorId hex
    unfold assignedTeams
    have hstep : ∀ a ∈ st.assignments.filter (fun a => decide (a.status = Status.active)),
        ((a.evaluatorIds.filter (fun i => (findUserById st i).isSome)).filter
          (fun i => decide (i = w.evaluatorId))).length =
        (a.evaluatorIds.filter (fun i => decide (i = w.evaluatorId))).length := by
      intro a _
      rw [List.filter_filter]
      congr 1
      apply List.filter_congr
      intro i _
      by_cases hi : i = w.evaluatorId
      · simp [hi, hu]
      · simp [hi]
    rw [List.map_congr_left hstep,
      tally_eq_filter_length _ _ (fun a ha => hpanels a (List.mem_filter.1 ha).1),
      List.filter_filter]
    have hnd : ((st.assignments.filter (fun a =>
        decide (a.status = Status.active) && decide (w.evaluatorId ∈ a.evaluatorIds))).map
        (fun a => a.teamId)).Nodup :=
      hL.assignmentTeams.sublist ((List.filter_sublist _).map _)
    rw [hnd.dedup, List.length_map]
    congr 1
    apply List.filter_congr
    intro a _
    rw [Bool.and_comm]
  · haveI : IsTotal WorkloadEntry (fun a b => b.assignedTeams ≤ a.assignedTeams) :=
      ⟨fun a b => le_total b.assignedTeams a.assignedTeams⟩
    haveI : IsTrans WorkloadEntry (fun a b => b.assignedTeams ≤ a.assignedTeams) :=
      ⟨fun a b c hab hbc => le_trans hbc hab⟩
    exact List.sorted_insertionSort (fun (a b : WorkloadEntry) =>
      b.assignedTeams ≤ a.assignedTeams) _
  · by_cases h0 : (getEvaluatorWorkload st).workload.length = 0
    · rw [if_pos h0]
      unfold getEvaluatorWorkload at h0 ⊢
      dsimp only at h0 ⊢
      rw [if_neg (by omega)]
    · rw [if_neg h0]
      unfold getEvaluatorWorkload at h0 ⊢
      dsimp only at h0 ⊢
      rw [if_pos (by omega)]

theorem getEvaluatorWorkload_report_witness :
    Reachable pairStore ∧
    getEvaluatorWorkload pairStore =
      ⟨3, [⟨1, "Eva", "eva@x.org", 2⟩, ⟨2, "Eli", "eli@x.org", 2⟩, ⟨3, "Eve", "eve@x.org", 2⟩],
        2⟩ ∧
    ((getEvaluatorWorkload pairStore).workload.map (fun w => w.evaluatorId)).Nodup :=
  ⟨pairStore_reachable, by decide!, (getEvaluatorWorkload_report pairStore pairStore_reachable).1⟩

end Evalynx
